import Mathlib

/-!
# speedex: block header hash map and block fetch manager

A shallow embedding of `header_hash/block_header_hash_map.{h,cc}` and
`hotstuff/block_storage/block_fetch_manager.cc`, with the properties of the
specification stated and proved over it.

Conventions of the embedding:
* `uint64_t` values are natural numbers below `2 ^ 64`; every `+ 1` the source
  performs on a `uint64_t` is written with an explicit `% 2 ^ 64`.
* A member function returns its outcome paired with the state of the object after the
  call: `Except.ok` for a normal return, `Except.error` for a C++ `throw`.
* Byte strings (trie keys, database keys and values) are lists of bytes.
-/

namespace speedex

/-! ## Bytes, hashes and big-endian keys -/

/-- The 32-byte `Hash` of `xdr/types.h`: a byte string of length 32. -/
structure Hash where
  bytes : List Nat
  size_eq : bytes.length = 32
deriving DecidableEq, Repr

/-- The result of `zero_hash.fill(0)`. -/
def zero_hash : Hash := ⟨List.replicate 32 0, rfl⟩

/-- The trie key type `ByteArrayPrefix<KEY_LEN>` with `KEY_LEN = sizeof(uint64_t)`. -/
abbrev prefix_t := List Nat

/-- The `k` low-order base-256 digits of `n`, most significant first. -/
def be_bytes : Nat → Nat → List Nat
  | 0, _ => []
  | k + 1, n => (n / 256 ^ k) % 256 :: be_bytes k n

/-- Modelled from the spec: `utils/big_endian.h` is not among the sources; the key
is the 8-byte big-endian encoding of the block number. -/
def write_unsigned_big_endian (n : Nat) : prefix_t := be_bytes 8 n

/-- Modelled from the spec: `utils/big_endian.h` is not among the sources; reads a
`uint64_t` from the first 8 bytes, most significant byte first. -/
def read_unsigned_big_endian (bytes : List Nat) : Nat :=
  (bytes.take 8).foldl (fun acc b => (acc * 256 + b) % 2 ^ 64) 0

/-- Lexicographic (memcmp) order on byte strings: the key order of the trie and of
the database. -/
def prefix_lt : List Nat → List Nat → Bool
  | [], [] => false
  | [], _ :: _ => true
  | _ :: _, [] => false
  | a :: as, b :: bs => decide (a < b) || (a == b && prefix_lt as bs)

/-! ## Key-ordered maps: the Merkle trie and the database table -/

/-- Insert-or-overwrite into a list of pairs kept in increasing key order. -/
def ordered_put {V : Type} : List (List Nat × V) → List Nat → V → List (List Nat × V)
  | [], k, v => [(k, v)]
  | (k', v') :: rest, k, v =>
    if k = k' then (k, v) :: rest
    else if prefix_lt k k' then (k, v) :: (k', v') :: rest
    else (k', v') :: ordered_put rest k v

/-- Value stored under a key, if any. -/
def ordered_get {V : Type} : List (List Nat × V) → List Nat → Option V
  | [], _ => none
  | (k', v') :: rest, k => if k = k' then some v' else ordered_get rest k

/-- Remove the entry stored under a key. -/
def ordered_erase {V : Type} : List (List Nat × V) → List Nat → List (List Nat × V)
  | [], _ => []
  | (k', v') :: rest, k => if k = k' then ordered_erase rest k else (k', v') :: ordered_erase rest k

/-- Modelled from the spec: `trie/merkle_trie.h` is not among the sources. The
Merkle trie is an authenticated finite map from keys to leaves whose root hash is
a function of its key-sorted contents; it is represented by exactly that: the
list of its (key, leaf) pairs in increasing key order. -/
abbrev MerkleTrie (V : Type) := List (prefix_t × V)

namespace MerkleTrie

/-- Modelled from the spec: `MerkleTrie::insert`, which stores the leaf under the
key, replacing the leaf of a key that is already present. -/
def insert {V : Type} (t : MerkleTrie V) (key : prefix_t) (value : V) : MerkleTrie V :=
  ordered_put t key value

/-- Modelled from the spec: `MerkleTrie::get_value`, the lookup of a key. -/
def get_value {V : Type} (t : MerkleTrie V) (key : prefix_t) : Option V :=
  ordered_get t key

/-- Modelled from the spec: `MerkleTrie::perform_deletion`, which removes the leaf
of the key and reports whether there was one. -/
def perform_deletion {V : Type} (t : MerkleTrie V) (key : prefix_t) : Bool × MerkleTrie V :=
  ((ordered_get t key).isSome, ordered_erase t key)

/-- Modelled from the spec: `MerkleTrie::size`, the number of leaves. -/
def size {V : Type} (t : MerkleTrie V) : Nat := t.length

/-- The keys of the trie, in key order. -/
def keys {V : Type} (t : MerkleTrie V) : List prefix_t := t.map Prod.fst

end MerkleTrie

/-- Modelled from the spec: `lmdb/lmdb_wrapper.h` is not among the sources. The
durable ordered store: whether the environment is open, the persisted round
counter, and the committed table as (key, value) byte strings in key order. -/
structure BlockHeaderHashMapLMDB where
  env_open : Bool
  persisted_round_number : Nat
  data : List (List Nat × List Nat)
deriving DecidableEq, Repr

namespace BlockHeaderHashMapLMDB

/-- The `LMDBInstance()` constructor: nothing open, nothing persisted. -/
def init : BlockHeaderHashMapLMDB := ⟨false, 0, []⟩

/-- Modelled from the spec: `LMDBInstance::get_persisted_round_number`. -/
def get_persisted_round_number (db : BlockHeaderHashMapLMDB) : Nat := db.persisted_round_number

/-- Modelled from the spec: `wtx.put(dbi, key, value)` on the table of a write
transaction; overwrites an existing key. -/
def put (table : List (List Nat × List Nat)) (key value : List Nat) :
    List (List Nat × List Nat) :=
  ordered_put table key value

/-- Modelled from the spec: `commit_wtxn(wtx, round)` atomically publishes the
puts of the transaction and sets the persisted round counter. -/
def commit_wtxn (db : BlockHeaderHashMapLMDB) (wtx : List (List Nat × List Nat))
    (persisted_round : Nat) : BlockHeaderHashMapLMDB :=
  { db with data := wtx, persisted_round_number := persisted_round }

end BlockHeaderHashMapLMDB

/-! ## BlockHeaderHashMap -/

/-- The exceptions thrown by `block_header_hash_map.cc`, named after the error kinds
of the specification; each carries the message of its `std::runtime_error`. -/
inductive Error where
  /-- "can't insert prev block 0 if we already have elements in block hash map" or
  "can't have genesis block with nonzero hash". -/
  | InvalidGenesis
  /-- "inserting wrong block number". -/
  | BlockOutOfOrder
  /-- "did not find hash in hash_map!". -/
  | MissingHash
  /-- "can't rollback beyond lmdb persist". -/
  | RollbackBelowDurable
  /-- "error when deleting from header hash map". -/
  | DeletionFailed
  /-- "can't finalize prior block". -/
  | CannotFinalizePrior
  /-- "lmdb contains round idx beyond committed max". -/
  | CorruptDOS
  /-- "invalid value size". -/
  | InvalidValueSize
deriving DecidableEq, Repr

deriving instance DecidableEq for Except

/-- The trie type `TrieT = MerkleTrie<prefix_t, HashWrapper, ...>`. -/
abbrev TrieT := MerkleTrie Hash

/-- The fields of `struct BlockHeaderHashMap`. -/
structure BlockHeaderHashMap where
  block_map : TrieT
  lmdb_instance : BlockHeaderHashMapLMDB
  last_committed_block_number : Nat
deriving DecidableEq, Repr

namespace BlockHeaderHashMap

/-- The constructor `BlockHeaderHashMap()`: empty map. -/
def init : BlockHeaderHashMap := ⟨[], BlockHeaderHashMapLMDB.init, 0⟩

/-- A freshly constructed map whose LMDB instance has been opened on an existing
store (`open_lmdb_env`, `open_lmdb`). -/
def open_on (db : BlockHeaderHashMapLMDB) : BlockHeaderHashMap :=
  ⟨[], { db with env_open := true }, 0⟩

/-- The accessor `get_persisted_round_number()` of the header. -/
def get_persisted_round_number (s : BlockHeaderHashMap) : Nat :=
  s.lmdb_instance.get_persisted_round_number

/-- The body of `BlockHeaderHashMap::insert_for_production`. The result pairs the
outcome of the call (normal return or the exception thrown) with the state of the
object after it. -/
def insert_for_production (s : BlockHeaderHashMap) (block_number : Nat) (block_hash : Hash) :
    Except Error Unit × BlockHeaderHashMap :=
  if block_number = 0 then
    if s.last_committed_block_number ≠ 0 ∨ s.block_map.size ≠ 0 then
      (.error .InvalidGenesis, s)
    else if block_hash ≠ zero_hash then
      (.error .InvalidGenesis, s)
    else
      (.ok (), s)
  else if block_number ≠ (s.last_committed_block_number + 1) % 2 ^ 64 then
    (.error .BlockOutOfOrder, s)
  else
    (.ok (), { s with
      block_map := s.block_map.insert (write_unsigned_big_endian block_number) block_hash
      last_committed_block_number := block_number })

/-- The `for` loop of `persist_lmdb`, with `n` iterations left
(`n = current_block_number - i`; `i < current_block_number` rules out wrap-around
of `i++`). The puts go to the table `wtx` of the write transaction. -/
def persist_loop (block_map : TrieT) :
    Nat → Nat → List (List Nat × List Nat) → Except Error (List (List Nat × List Nat))
  | 0, _, wtx => .ok wtx
  | n + 1, i, wtx =>
    if i = 0 then persist_loop block_map n (i + 1) wtx
    else
      match block_map.get_value (write_unsigned_big_endian i) with
      | none => .error .MissingHash
      | some hash =>
        persist_loop block_map n (i + 1)
          (BlockHeaderHashMapLMDB.put wtx (write_unsigned_big_endian i) hash.bytes)

/-- The body of `BlockHeaderHashMap::persist_lmdb`. A throw inside the loop leaves
scope without a commit, which abandons the write transaction: the store is as it
was. -/
def persist_lmdb (s : BlockHeaderHashMap) (current_block_number : Nat) :
    Except Error Unit × BlockHeaderHashMap :=
  if ¬ s.lmdb_instance.env_open then (.ok (), s)
  else
    let persisted_round_number := s.lmdb_instance.get_persisted_round_number
    match persist_loop s.block_map (current_block_number - persisted_round_number)
        persisted_round_number s.lmdb_instance.data with
    | .error e => (.error e, s)
    | .ok wtx =>
      (.ok (), { s with lmdb_instance := s.lmdb_instance.commit_wtxn wtx current_block_number })

/-- The `for (i = committed_block_number; i <= last_committed_block_number; i++)`
loop of `rollback_to_committed_round` on a `uint64_t` counter, returning the
outcome and the trie as the loop leaves it. `none` means the loop is still
running when the fuel is used up. -/
def rollback_loop (last_committed_block_number : Nat) :
    Nat → Nat → TrieT → Option (Except Error Unit × TrieT)
  | 0, _, _ => none
  | fuel + 1, i, t =>
    if i ≤ last_committed_block_number then
      if i = 0 then rollback_loop last_committed_block_number fuel ((i + 1) % 2 ^ 64) t
      else
        match t.perform_deletion (write_unsigned_big_endian i) with
        | (false, t') => some (.error .DeletionFailed, t')
        | (true, t') => rollback_loop last_committed_block_number fuel ((i + 1) % 2 ^ 64) t'
    else some (.ok (), t)

/-- The body of `BlockHeaderHashMap::rollback_to_committed_round`. The loop gets
`2 ^ 64 + 2` steps of fuel, more than the number of values of its counter. -/
def rollback_to_committed_round (s : BlockHeaderHashMap) (committed_block_number : Nat) :
    Option (Except Error Unit × BlockHeaderHashMap) :=
  if committed_block_number < s.lmdb_instance.get_persisted_round_number then
    some (.error .RollbackBelowDurable, s)
  else
    match rollback_loop s.last_committed_block_number (2 ^ 64 + 2) committed_block_number
        s.block_map with
    | none => none
    | some (.error e, t) => some (.error e, { s with block_map := t })
    | some (.ok (), t) =>
      some (.ok (), { s with
        block_map := t
        last_committed_block_number :=
          if committed_block_number = 0 then 0 else committed_block_number - 1 })

/-- The body of `BlockHeaderHashMap::tentative_insert_for_validation`; the Boolean is
the return value. -/
def tentative_insert_for_validation (s : BlockHeaderHashMap) (block_number : Nat)
    (block_hash : Hash) : Except Error Bool × BlockHeaderHashMap :=
  if block_number = 0 then
    if s.last_committed_block_number ≠ 0 ∨ s.block_map.size ≠ 0 then
      (.error .InvalidGenesis, s)
    else if block_hash ≠ zero_hash then
      (.error .InvalidGenesis, s)
    else
      (.ok true, s)
  else if block_number ≠ s.last_committed_block_number then
    (.ok false, s)
  else
    (.ok true, { s with
      block_map := s.block_map.insert (write_unsigned_big_endian block_number) block_hash })

/-- The body of `BlockHeaderHashMap::rollback_validation`. -/
def rollback_validation (s : BlockHeaderHashMap) : BlockHeaderHashMap :=
  { s with
    block_map :=
      (s.block_map.perform_deletion
        (write_unsigned_big_endian ((s.last_committed_block_number + 1) % 2 ^ 64))).2 }

/-- The body of `BlockHeaderHashMap::finalize_validation`. -/
def finalize_validation (s : BlockHeaderHashMap) (finalized_block_number : Nat) :
    Except Error Unit × BlockHeaderHashMap :=
  if finalized_block_number < s.last_committed_block_number then
    (.error .CannotFinalizePrior, s)
  else
    (.ok (), { s with last_committed_block_number := finalized_block_number })

/-- The cursor loop of `load_lmdb_contents_to_memory` over the remaining
(key, value) pairs of the table, in key order, returning the outcome and the trie
as the loop leaves it. -/
def load_loop (persisted_round_number : Nat) :
    List (List Nat × List Nat) → TrieT → Except Error Unit × TrieT
  | [], t => (.ok (), t)
  | (key, value) :: rest, t =>
    let round_number := read_unsigned_big_endian key
    if round_number > persisted_round_number then (.error .CorruptDOS, t)
    else if h : value.length = 32 then
      load_loop persisted_round_number rest
        (t.insert (write_unsigned_big_endian round_number) ⟨value, h⟩)
    else (.error .InvalidValueSize, t)

/-- The body of `BlockHeaderHashMap::load_lmdb_contents_to_memory`. -/
def load_lmdb_contents_to_memory (s : BlockHeaderHashMap) :
    Except Error Unit × BlockHeaderHashMap :=
  match load_loop s.lmdb_instance.get_persisted_round_number s.lmdb_instance.data
      s.block_map with
  | (.error e, t) => (.error e, { s with block_map := t })
  | (.ok (), t) =>
    (.ok (), { s with
      block_map := t
      last_committed_block_number := s.lmdb_instance.get_persisted_round_number })

/-- The member `hash(Hash&)`: the Merkle root of the trie. The hashing of
`trie/merkle_trie.h` is not among the sources; it enters as the function
`merkle_root` of the trie contents. -/
def hash (merkle_root : TrieT → Hash) (s : BlockHeaderHashMap) : Hash :=
  merkle_root s.block_map

end BlockHeaderHashMap

/-- The trie holds exactly the keys of the block numbers `1, …, n`, one leaf
each. -/
def KeysUpTo (t : TrieT) (n : Nat) : Prop :=
  t.keys = (List.range' 1 n).map write_unsigned_big_endian

instance (t : TrieT) (n : Nat) : Decidable (KeysUpTo t n) := by
  unfold KeysUpTo; infer_instance

/-- The invariant of the production path: keys `1 … last_committed`, and the counter
is a `uint64_t`. -/
def ProductionInv (s : BlockHeaderHashMap) : Prop :=
  KeysUpTo s.block_map s.last_committed_block_number ∧ s.last_committed_block_number < 2 ^ 64

/-! ## Scenario data -/

/-- The hash `0xAA…AA`. -/
def hashAA : Hash := ⟨List.replicate 32 0xAA, rfl⟩
/-- The hash `0xBB…BB`. -/
def hashBB : Hash := ⟨List.replicate 32 0xBB, rfl⟩
/-- The hash `0xCC…CC`. -/
def hashCC : Hash := ⟨List.replicate 32 0xCC, rfl⟩
/-- The hash `0xDD…DD`. -/
def hashDD : Hash := ⟨List.replicate 32 0xDD, rfl⟩

/-- A clean start: a freshly constructed map (empty trie, `last_committed = 0`) whose
store has been created and opened, with nothing persisted. -/
def clean_start : BlockHeaderHashMap := BlockHeaderHashMap.open_on BlockHeaderHashMapLMDB.init

/-- Run a list of `insert_for_production` calls, each on the state the previous one
left (accepted or rejected). -/
def run_production (s : BlockHeaderHashMap) : List (Nat × Hash) → BlockHeaderHashMap
  | [] => s
  | (n, h) :: calls =>
    run_production (s.insert_for_production n h).2 calls

/-- Scenario S1: inserts `(0, 0)`, `(1, AA)`, `(2, BB)`, `(3, CC)` into a fresh map. -/
def scenario_S1 : BlockHeaderHashMap :=
  run_production clean_start [(0, zero_hash), (1, hashAA), (2, hashBB), (3, hashCC)]

/-- Scenario S6: blocks 1 to 7 produced on a clean start, then persisted at round 5, so
that `persisted_round = 5` and `last_committed = 7`. -/
def scenario_S6 : BlockHeaderHashMap :=
  ((run_production clean_start
    [(1, hashAA), (2, hashBB), (3, hashCC), (4, hashDD), (5, hashAA), (6, hashBB),
      (7, hashCC)]).persist_lmdb 5).2

/-- The hash the trie stores for block `i` (the zero hash when it stores none). -/
def block_hash_of (t : TrieT) (i : Nat) : Hash :=
  (t.get_value (write_unsigned_big_endian i)).getD zero_hash

/-- Scenario S4, first half: from S1, `persist(current = 3)`. -/
def scenario_S4_persisted : BlockHeaderHashMap := (scenario_S1.persist_lmdb 3).2

/-- Scenario S4, second half: a freshly constructed map reopened on the store that
`persist(3)` left, after `load_lmdb_contents_to_memory()`. -/
def scenario_S4_loaded : BlockHeaderHashMap :=
  (BlockHeaderHashMap.open_on
    scenario_S4_persisted.lmdb_instance).load_lmdb_contents_to_memory.2

/-- The map a fresh process gets after `persist_lmdb(c)` on `s`: a freshly constructed
map opened on the store that the persist left, after `load_lmdb_contents_to_memory()`. -/
def persist_then_load (s : BlockHeaderHashMap) (c : Nat) :
    Except Error Unit × BlockHeaderHashMap :=
  (BlockHeaderHashMap.open_on (s.persist_lmdb c).2.lmdb_instance).load_lmdb_contents_to_memory

/-- A store whose table holds the keys 1, 2 and 3 while its persisted round counter
is 3: the last key equals the counter. -/
def store_key_at_round : BlockHeaderHashMapLMDB :=
  ⟨true, 3,
    [(write_unsigned_big_endian 1, hashAA.bytes), (write_unsigned_big_endian 2, hashBB.bytes),
      (write_unsigned_big_endian 3, hashCC.bytes)]⟩

/-- A store whose table holds the keys 1, 2 and 4 while its persisted round counter
is 3: the last key is above the counter. -/
def store_key_above_round : BlockHeaderHashMapLMDB :=
  ⟨true, 3,
    [(write_unsigned_big_endian 1, hashAA.bytes), (write_unsigned_big_endian 2, hashBB.bytes),
      (write_unsigned_big_endian 4, hashCC.bytes)]⟩

/-- The production path from block `i` on: `insert_for_production(i, h_i)`,
`insert_for_production(i + 1, h_{i+1})`, …, each of which has to return normally. -/
def production_from : BlockHeaderHashMap → Nat → List Hash → Option BlockHeaderHashMap
  | s, _, [] => some s
  | s, i, h :: hs =>
    match s.insert_for_production i h with
    | (.ok (), s') => production_from s' (i + 1) hs
    | (.error _, _) => none

/-- The validation path from block `i` on: `tentative_insert_for_validation(i, h_i)`,
which has to return true, followed by `finalize_validation(i + 1)`, which has to return
normally, then the same for `i + 1`, …. -/
def validation_from : BlockHeaderHashMap → Nat → List Hash → Option BlockHeaderHashMap
  | s, _, [] => some s
  | s, i, h :: hs =>
    match s.tentative_insert_for_validation i h with
    | (.ok true, s') =>
      match s'.finalize_validation (i + 1) with
      | (.ok (), s'') => validation_from s'' (i + 1) hs
      | (.error _, _) => none
    | _ => none

/-- A map driven through the production path for the hashes `h_1 … h_N`, starting with
the genesis call `insert_for_production(0, zero)`. -/
def production_path (hs : List Hash) : Option BlockHeaderHashMap :=
  production_from clean_start 0 (zero_hash :: hs)

/-- A map driven through the validation path for the hashes `h_1 … h_N`, starting with
the genesis call `tentative_insert_for_validation(0, zero)`. -/
def validation_path (hs : List Hash) : Option BlockHeaderHashMap :=
  validation_from clean_start 0 (zero_hash :: hs)

/-- A call of one of the public operations of the map. -/
inductive MapCall where
  | insert_for_production (block_number : Nat) (block_hash : Hash)
  | tentative_insert_for_validation (block_number : Nat) (block_hash : Hash)
  | rollback_validation
  | finalize_validation (finalized_block_number : Nat)
  | rollback_to_committed_round (committed_block_number : Nat)
  | persist_lmdb (current_block_number : Nat)
deriving DecidableEq, Repr

/-- The `uint64_t` argument of a call (0 for `rollback_validation`, which has none). -/
def MapCall.number : MapCall → Nat
  | .insert_for_production n _ => n
  | .tentative_insert_for_validation n _ => n
  | .rollback_validation => 0
  | .finalize_validation n => n
  | .rollback_to_committed_round c => c
  | .persist_lmdb c => c

/-- The state after a call that returns normally; `none` when the call throws (or, for
`rollback_to_committed_round`, does not return). A `false` returned by
`tentative_insert_for_validation` is a normal return. -/
def MapCall.run (s : BlockHeaderHashMap) : MapCall → Option BlockHeaderHashMap
  | .insert_for_production n h =>
    match s.insert_for_production n h with
    | (.ok (), s') => some s'
    | (.error _, _) => none
  | .tentative_insert_for_validation n h =>
    match s.tentative_insert_for_validation n h with
    | (.ok _, s') => some s'
    | (.error _, _) => none
  | .rollback_validation => some s.rollback_validation
  | .finalize_validation n =>
    match s.finalize_validation n with
    | (.ok (), s') => some s'
    | (.error _, _) => none
  | .rollback_to_committed_round c =>
    match s.rollback_to_committed_round c with
    | some (.ok (), s') => some s'
    | _ => none
  | .persist_lmdb c =>
    match s.persist_lmdb c with
    | (.ok (), s') => some s'
    | (.error _, _) => none

/-- The state after a sequence of calls all of which return normally. -/
def run_map_calls : BlockHeaderHashMap → List MapCall → Option BlockHeaderHashMap
  | s, [] => some s
  | s, c :: cs =>
    match c.run s with
    | none => none
    | some s' => run_map_calls s' cs

/-- Whether a call does not move the persisted round counter back: a
`persist_lmdb(c)` has `c` at or above the persisted round of the state it is made in. -/
def MapCall.persists_forward (s : BlockHeaderHashMap) : MapCall → Bool
  | .persist_lmdb c => decide (s.get_persisted_round_number ≤ c)
  | _ => true

/-- The state after a sequence of calls all of which return normally and none of which
moves the persisted round counter back. -/
def run_map_calls_forward : BlockHeaderHashMap → List MapCall → Option BlockHeaderHashMap
  | s, [] => some s
  | s, c :: cs =>
    if c.persists_forward s then
      match c.run s with
      | none => none
      | some s' => run_map_calls_forward s' cs
    else none

/-- Every key of the trie is the key of a block number in `1 … last_committed`. -/
def KeysWithin (s : BlockHeaderHashMap) : Prop :=
  ∀ k, (s.block_map.get_value k).isSome = true →
    ∃ i, 1 ≤ i ∧ i ≤ s.last_committed_block_number ∧ k = write_unsigned_big_endian i

/-- The keys of the table of the store are exactly the keys of `1 … persisted_round - 1`. -/
def StoreKeysBelowRound (s : BlockHeaderHashMap) : Prop :=
  s.lmdb_instance.data.map Prod.fst
    = (List.range' 1 (s.get_persisted_round_number - 1)).map write_unsigned_big_endian

instance (s : BlockHeaderHashMap) : Decidable (StoreKeysBelowRound s) := by
  unfold StoreKeysBelowRound; infer_instance

/-- The calls of the run that refutes the persisted layout for arbitrary arguments: S1,
then `persist_lmdb(3)`, then `persist_lmdb(1)`. -/
def calls_persist_backward : List MapCall :=
  [.insert_for_production 0 zero_hash, .insert_for_production 1 hashAA,
    .insert_for_production 2 hashBB, .insert_for_production 3 hashCC,
    .persist_lmdb 3, .persist_lmdb 1]

/-- A run over all six operations: produce blocks 1 to 3, persist at round 2, rewind to
round 3 (which removes block 3), validate block 3 again (tentative insert of its parent,
a rollback, finalisation), persist at round 3. -/
def calls_mixed : List MapCall :=
  [.insert_for_production 0 zero_hash, .insert_for_production 1 hashAA,
    .insert_for_production 2 hashBB, .insert_for_production 3 hashCC, .persist_lmdb 2,
    .rollback_to_committed_round 3, .tentative_insert_for_validation 2 hashBB,
    .rollback_validation, .finalize_validation 3, .persist_lmdb 3]

/-- The invariant behind `persisted_round() ≤ last_committed + 1`: the counter is a
`uint64_t`, the inequality holds over the natural numbers, and no key of the trie lies
above `last_committed`. -/
def RoundInv (s : BlockHeaderHashMap) : Prop :=
  s.last_committed_block_number < 2 ^ 64
    ∧ s.get_persisted_round_number ≤ s.last_committed_block_number + 1
    ∧ KeysWithin s

/-- The state after the run `calls_mixed` from a clean start. -/
def state_after_mixed : BlockHeaderHashMap :=
  (run_map_calls clean_start calls_mixed).getD clean_start

/-- The state after the run `calls_persist_backward` from a clean start. -/
def state_after_persist_backward : BlockHeaderHashMap :=
  (run_map_calls clean_start calls_persist_backward).getD clean_start

/-! ## Saving an account modification block -/

/-- A signed transaction, as far as `save_account_block_fast` looks at it: its XDR
encoding, the bytes `xdr_put` writes for it. -/
structure SignedTransaction where
  encoding : List Nat
deriving DecidableEq, Repr

/-- The value of `xdr::xdr_argpack_size(tx)`: the number of bytes of the encoding. -/
def xdr_argpack_size (tx : SignedTransaction) : Nat := tx.encoding.length

/-- One entry of an `AccountModificationBlock`, as far as `save_account_block_fast`
looks at it. -/
structure AccountModificationTxList where
  new_transactions_self : List SignedTransaction
deriving DecidableEq, Repr

abbrev AccountModificationBlock := List AccountModificationTxList

/-- The exception of `xdr_put` when the bytes do not fit before the end pointer. -/
inductive SaveError where
  | xdr_overflow
deriving DecidableEq, Repr

/-- The local variables of `save_account_block_fast`, together with the calls made so
far: `put_calls` are the transactions passed to `p(next_tx_to_write)`, in order, and
`flush_calls` the amounts passed to `flush_buffer`. `tx_buffer = none` is `nullptr`. -/
structure SaveState where
  buf_idx : Nat
  first_set : Bool
  list_idx : Nat
  total_written_bytes : Nat
  tx_buffer : Option (List SignedTransaction)
  buffer_idx : Nat
  num_written : Nat
  put_calls : List SignedTransaction
  flush_calls : List Nat
deriving DecidableEq, Repr

/-- What `save_account_block_fast` leaves behind: the count stored by the last `put32`
in the first four bytes of the file, the transactions serialized, the flushes, and the
length the file is truncated to. -/
structure SavedFile where
  num_written : Nat
  transactions : List SignedTransaction
  flush_calls : List Nat
  length : Nat
deriving DecidableEq, Repr

/-- The inner loop `while (tx_buffer == nullptr)` of `save_account_block_fast`. `none`
is an access `value[list_idx]` out of range, or the fuel used up. -/
def select_tx_buffer (value : AccountModificationBlock) : Nat → SaveState → Option SaveState
  | 0, _ => none
  | fuel + 1, st =>
    if st.tx_buffer.isSome then some st
    else
      match value[st.list_idx]? with
      | none => none
      | some entry =>
        let st1 : SaveState :=
          if entry.new_transactions_self.length ≠ 0 then
            { st with tx_buffer := some entry.new_transactions_self, buffer_idx := 0 }
          else st
        let st2 : SaveState := { st1 with list_idx := (st1.list_idx + 1) % 2 ^ 64 }
        if st2.list_idx ≥ value.length then some st2
        else select_tx_buffer value fuel st2

/-- The block `if (aligned_buf_size - buf_idx < next_sz) { … }` of
`save_account_block_fast`: flush the whole 512-byte blocks and keep the rest. The
subtraction is on `size_t`. -/
def flush_if_full (aligned_buf_size next_sz : Nat) (st : SaveState) : SaveState :=
  if (aligned_buf_size + 2 ^ 64 - st.buf_idx) % 2 ^ 64 < next_sz then
    let write_amount := st.buf_idx - st.buf_idx % 512
    { st with
      first_set := true
      flush_calls := st.flush_calls ++ [write_amount]
      total_written_bytes := (st.total_written_bytes + write_amount) % 2 ^ 64
      buf_idx := st.buf_idx % 512 }
  else st

/-- The outer loop `while (list_idx < value.size())` of `save_account_block_fast`.
`none` is undefined behaviour (an access out of range, or the put pointer beyond the end
pointer) or the fuel used up; `xdr_overflow` is the exception of `p(next_tx_to_write)`
when the encoding does not fit before the end of the buffer. `buf_idx` is an
`unsigned int`, the other counters are `size_t`. -/
def save_loop (value : AccountModificationBlock) (aligned_buf_size : Nat) :
    Nat → SaveState → Option (Except SaveError SaveState)
  | 0, _ => none
  | fuel + 1, st =>
    if ¬ st.list_idx < value.length then some (.ok st)
    else
      match select_tx_buffer value (value.length + 1) st with
      | none => none
      | some st1 =>
        match st1.tx_buffer with
        | none => some (.ok st1)
        | some tx_buffer =>
          match tx_buffer[st1.buffer_idx]? with
          | none => none
          | some next_tx_to_write =>
            let next_sz := xdr_argpack_size next_tx_to_write
            let st2 := flush_if_full aligned_buf_size next_sz st1
            if aligned_buf_size < st2.buf_idx then none
            else if aligned_buf_size - st2.buf_idx < next_sz then some (.error .xdr_overflow)
            else
              let st3 : SaveState :=
                { st2 with
                  put_calls := st2.put_calls ++ [next_tx_to_write]
                  num_written := (st2.num_written + 1) % 2 ^ 64
                  buffer_idx := (st2.buffer_idx + 1) % 2 ^ 64 }
              let st4 : SaveState :=
                if st3.buffer_idx ≥ tx_buffer.length then { st3 with tx_buffer := none }
                else st3
              save_loop value aligned_buf_size fuel
                { st4 with buf_idx := (st4.buf_idx + next_sz) % 2 ^ 32 }

/-- The number of transactions of a block, over all entries. -/
def total_transactions (value : AccountModificationBlock) : Nat :=
  (value.map fun entry => entry.new_transactions_self.length).sum

/-- The transactions of a block, entry after entry, in list order. -/
def all_transactions (value : AccountModificationBlock) : List SignedTransaction :=
  (value.map fun entry => entry.new_transactions_self).flatten

/-- The body of `save_account_block_fast(value, fd, buffer, BUF_SIZE)`, where
`aligned_space` is what `std::align` leaves of `BUF_SIZE` from the aligned pointer on.
The count of the header is `size32(num_written)`. Every pass of the outer loop serializes
a transaction or leaves the loop, so the fuel given is never used up. `none` is
undefined behaviour: an end pointer before the buffer, or that of `save_loop`. -/
def save_account_block_fast (value : AccountModificationBlock) (aligned_space : Nat) :
    Option (Except SaveError SavedFile) :=
  if aligned_space - aligned_space % 4 < 512 then none
  else
    let aligned_buf_size := aligned_space - aligned_space % 4 - 512
    let start : SaveState :=
      { buf_idx := 4
        first_set := false
        list_idx := 0
        total_written_bytes := 0
        tx_buffer := none
        buffer_idx := 0
        num_written := 0
        put_calls := []
        flush_calls := [] }
    match save_loop value aligned_buf_size (total_transactions value + 2) start with
    | none => none
    | some (.error e) => some (.error e)
    | some (.ok st) =>
      let write_amount := st.buf_idx - st.buf_idx % 512 + 512
      some (.ok
        { num_written := st.num_written % 2 ^ 32
          transactions := st.put_calls
          flush_calls := st.flush_calls ++ [write_amount, 512]
          length := (st.total_written_bytes + st.buf_idx) % 2 ^ 64 })

/-- Three transactions of 8, 12 and 16 bytes. -/
def tx_one : SignedTransaction := ⟨List.replicate 8 1⟩

def tx_two : SignedTransaction := ⟨List.replicate 12 2⟩

def tx_three : SignedTransaction := ⟨List.replicate 16 3⟩

/-- A block of one entry holding two transactions. -/
def block_last_entry_two : AccountModificationBlock := [⟨[tx_one, tx_two]⟩]

/-- A block whose last entry holds two transactions, after an entry holding one. -/
def block_one_then_two : AccountModificationBlock := [⟨[tx_one]⟩, ⟨[tx_two, tx_three]⟩]

/-- The same transactions, one to an entry. -/
def block_one_each : AccountModificationBlock := [⟨[tx_one]⟩, ⟨[tx_two]⟩, ⟨[tx_three]⟩]

/-- The two-transaction entry followed by an empty entry. -/
def block_two_then_empty : AccountModificationBlock := [⟨[tx_one, tx_two]⟩, ⟨[]⟩]


end speedex

/-! ## Block fetch manager -/

namespace hotstuff

open speedex (Hash)

/-- The identifier `ReplicaID` of a replica. -/
abbrev ReplicaID := Nat

/-- A dependent network event `NetEvent`; its contents play no role in the fetch
manager, so an event is just a name. -/
abbrev NetEvent := Nat

/-- Modelled from the spec: the replica configuration (`ReplicaConfig`, not among the
sources) is an immutable map from `ReplicaID` to the replica's address and key; only its
key set matters here. -/
structure ReplicaConfig where
  replicas : List ReplicaID
deriving DecidableEq, Repr

/-- Modelled from the spec: `ReplicaConfig::is_valid_replica(id)`, whether `id` is a
replica of the configuration. -/
def ReplicaConfig.is_valid_replica (config : ReplicaConfig) (id : ReplicaID) : Bool :=
  decide (id ∈ config.replicas)

/-- The fields of `class RequestContext`. -/
structure RequestContext where
  request : Hash
  block_is_received : Bool
  dependent_network_events : List NetEvent
  requested_from : Nat
deriving DecidableEq, Repr

namespace RequestContext

/-- The constructor `RequestContext::RequestContext(request)`. -/
def new (request : Hash) : RequestContext := ⟨request, false, [], 0⟩

/-- The body of `RequestContext::is_received`. -/
def is_received (ctx : RequestContext) : Bool := ctx.block_is_received

/-- The body of `RequestContext::mark_received`. -/
def mark_received (ctx : RequestContext) : RequestContext :=
  { ctx with block_is_received := true }

/-- The body of `RequestContext::add_network_events`: append at the end. -/
def add_network_events (ctx : RequestContext) (events : List NetEvent) : RequestContext :=
  { ctx with dependent_network_events := ctx.dependent_network_events ++ events }

/-- Modelled from the spec: `was_requested_from(id)` (declared in the header, which is not
among the sources) tests the bit of `id` in the bitset `requested_from`. -/
def was_requested_from (ctx : RequestContext) (id : ReplicaID) : Bool :=
  ctx.requested_from.testBit id

/-- Modelled from the spec: the accessor `get_requested_hash()`. -/
def get_requested_hash (ctx : RequestContext) : Hash := ctx.request

/-- Modelled from the spec: the accessor `get_network_events()`. -/
def get_network_events (ctx : RequestContext) : List NetEvent := ctx.dependent_network_events

end RequestContext

/-- A `request_ctx_ptr` (`std::shared_ptr<RequestContext>`): the index of the context in
the list of all contexts allocated so far. -/
abbrev request_ctx_ptr := Nat

/-- The fields of `class ReplicaFetchQueue`: the `forward_list` of outstanding contexts
(front first), the hashes handed to the worker's `add_request` (oldest first), and the
counter `num_reqs`. -/
structure ReplicaFetchQueue where
  outstanding_reqs : List request_ctx_ptr
  worker : List Hash
  num_reqs : Nat
deriving DecidableEq, Repr

namespace ReplicaFetchQueue

/-- A queue as `add_replica` constructs it. -/
def new : ReplicaFetchQueue := ⟨[], [], 0⟩

/-- The loop of `do_gc` from iterator position `it` (`none` is `before_begin()`,
`some k` the `k`-th node, `some length` is `end()`). The result `none` is undefined
behaviour: the loop dereferences `before_begin()`, a dangling pointer, or calls
`erase_after` on the last node. The fuel bounds the walk by the length of the list. -/
def do_gc_loop (contexts : List RequestContext) :
    Nat → Option Nat → List request_ctx_ptr → Nat → Option (List request_ctx_ptr × Nat)
  | 0, _, _, _ => none
  | _ + 1, none, _, _ => none
  | fuel + 1, some k, reqs, num_reqs =>
    if reqs.length ≤ k then some (reqs, num_reqs)
    else
      match reqs[k]? >>= fun ptr => contexts[ptr]? with
      | none => none
      | some ctx =>
        if ctx.is_received then
          if k + 1 < reqs.length then
            do_gc_loop contexts fuel (some (k + 1)) (reqs.eraseIdx (k + 1))
              ((num_reqs + 2 ^ 64 - 1) % 2 ^ 64)
          else none
        else do_gc_loop contexts fuel (some (k + 1)) reqs num_reqs

/-- The body of `ReplicaFetchQueue::do_gc`: the loop, started at `before_begin()`. -/
def do_gc (contexts : List RequestContext) (q : ReplicaFetchQueue) : Option ReplicaFetchQueue :=
  match do_gc_loop contexts (q.outstanding_reqs.length + 2) none q.outstanding_reqs
      q.num_reqs with
  | none => none
  | some (reqs, num_reqs) => some { q with outstanding_reqs := reqs, num_reqs := num_reqs }

/-- The body of `ReplicaFetchQueue::add_request`. `GC_FREQ` is the constant of the
header, which is not among the sources. `none` is undefined behaviour. -/
def add_request (GC_FREQ : Nat) (contexts : List RequestContext) (q : ReplicaFetchQueue)
    (req : request_ctx_ptr) : Option ReplicaFetchQueue :=
  match contexts[req]? with
  | none => none
  | some ctx =>
    let q' : ReplicaFetchQueue :=
      { outstanding_reqs := req :: q.outstanding_reqs
        worker := q.worker ++ [ctx.get_requested_hash]
        num_reqs := (q.num_reqs + 1) % 2 ^ 64 }
    if q'.num_reqs > GC_FREQ then do_gc contexts q' else some q'

end ReplicaFetchQueue

/-- The exception of `queues.at(request_target)` for a replica without a queue. -/
inductive FetchError where
  | out_of_range
deriving DecidableEq, Repr

/-- The fields of `class BlockFetchManager`, with the contexts that its shared pointers
point to: `contexts` holds every context allocated so far, `queues` maps a replica to
its fetch queue, `outstanding_reqs` maps a hash to the pointer of its live context. -/
structure BlockFetchManager where
  contexts : List RequestContext
  queues : List (ReplicaID × ReplicaFetchQueue)
  outstanding_reqs : List (Hash × request_ctx_ptr)
  config : ReplicaConfig
deriving DecidableEq, Repr

namespace BlockFetchManager

/-- A manager as constructed: no queue, no outstanding request. -/
def new (config : ReplicaConfig) : BlockFetchManager := ⟨[], [], [], config⟩

/-- The body of `BlockFetchManager::add_replica`: `emplace` adds a queue unless the
replica already has one. -/
def add_replica (m : BlockFetchManager) (id : ReplicaID) : BlockFetchManager :=
  match m.queues.lookup id with
  | some _ => m
  | none => { m with queues := m.queues ++ [(id, ReplicaFetchQueue.new)] }

/-- Lines 80 to 89 of `add_fetch_request`: find the context of the hash, or allocate a
fresh one and `emplace` it. Returns the pointer and the manager. -/
def find_or_create (m : BlockFetchManager) (requested_block : Hash) :
    request_ctx_ptr × BlockFetchManager :=
  match m.outstanding_reqs.lookup requested_block with
  | none =>
    (m.contexts.length,
      { m with
        contexts := m.contexts ++ [RequestContext.new requested_block]
        outstanding_reqs := m.outstanding_reqs ++ [(requested_block, m.contexts.length)] })
  | some ctx => (ctx, m)

/-- Replace the queue of a replica in the `queues` map. -/
def set_queue (queues : List (ReplicaID × ReplicaFetchQueue)) (id : ReplicaID)
    (q : ReplicaFetchQueue) : List (ReplicaID × ReplicaFetchQueue) :=
  queues.map fun e => if e.1 = id then (id, q) else e

/-- Line 95 of `add_fetch_request`: `ctx -> add_network_events(dependent_events)`. -/
def append_events (m : BlockFetchManager) (ctx : request_ctx_ptr) (c : RequestContext)
    (dependent_events : List NetEvent) : BlockFetchManager :=
  { m with contexts := m.contexts.set ctx (c.add_network_events dependent_events) }

/-- The body of `BlockFetchManager::add_fetch_request`. The result is `none` for
undefined behaviour, and otherwise the outcome (normal return, or the `out_of_range`
thrown by `queues.at`) with the manager as the call leaves it. -/
def add_fetch_request (GC_FREQ : Nat) (m : BlockFetchManager) (requested_block : Hash)
    (request_target : ReplicaID) (dependent_events : List NetEvent) :
    Option (Except FetchError Unit × BlockFetchManager) :=
  if m.config.is_valid_replica request_target then some (.ok (), m)
  else
    let (ctx, m) := m.find_or_create requested_block
    match m.contexts[ctx]? with
    | none => none
    | some c =>
      if ¬ c.was_requested_from request_target then
        match m.queues.lookup request_target with
        | none => some (.error .out_of_range, m)
        | some q =>
          match q.add_request GC_FREQ m.contexts ctx with
          | none => none
          | some q' =>
            some (.ok (),
              append_events { m with queues := set_queue m.queues request_target q' } ctx c
                dependent_events)
      else some (.ok (), append_events m ctx c dependent_events)

/-- The body of `BlockFetchManager::deliver_block`, for a block with hash `blk_hash`:
the returned events and the manager after the call; `none` is undefined behaviour (a
dangling context pointer). -/
def deliver_block (m : BlockFetchManager) (blk_hash : Hash) :
    Option (List NetEvent × BlockFetchManager) :=
  match m.outstanding_reqs.lookup blk_hash with
  | none => some ([], m)
  | some req_ctx =>
    match m.contexts[req_ctx]? with
    | none => none
    | some c =>
      some ((c.mark_received).get_network_events,
        { m with
          contexts := m.contexts.set req_ctx c.mark_received
          outstanding_reqs := m.outstanding_reqs.filter fun e => e.1 ≠ blk_hash })

end BlockFetchManager

/-- A sequence of `add_fetch_request(H, r_i, evs_i)` calls for one hash, each of which
returns normally; `none` if one of them does not. -/
def run_fetch_requests (GC_FREQ : Nat) (m : BlockFetchManager) (H : Hash) :
    List (ReplicaID × List NetEvent) → Option BlockFetchManager
  | [] => some m
  | (r, evs) :: rest =>
    match m.add_fetch_request GC_FREQ H r evs with
    | some (.ok (), m') => run_fetch_requests GC_FREQ m' H rest
    | _ => none

/-- Scenario S5 starts from a manager with queues for the replicas 5 and 7, neither of
which the guard of `add_fetch_request` drops. -/
def scenario_S5_start : BlockFetchManager :=
  ((BlockFetchManager.new ⟨[]⟩).add_replica 5).add_replica 7

/-- Scenario S5: requests `(H, 5, [E1])`, `(H, 5, [E2])`, `(H, 7, [E3])` with
`H = AA…AA` and the events named 1, 2, 3. -/
def scenario_S5 : Option BlockFetchManager :=
  run_fetch_requests 100 scenario_S5_start speedex.hashAA [(5, [1]), (5, [2]), (7, [3])]

/-- The dependent events waiting for a hash: those of its context in `outstanding_reqs`,
none if the hash has no context. -/
def pending_events (m : BlockFetchManager) (H : Hash) : List NetEvent :=
  match m.outstanding_reqs.lookup H with
  | none => []
  | some ctx =>
    match m.contexts[ctx]? with
    | none => []
    | some c => c.dependent_network_events

/-- Shared-pointer discipline of the manager: every pointer in `outstanding_reqs` points
to an allocated context, and no two entries share a context. -/
def PointersValid (m : BlockFetchManager) : Prop :=
  (∀ e ∈ m.outstanding_reqs, e.2 < m.contexts.length)
    ∧ (m.outstanding_reqs.map Prod.snd).Nodup

instance (m : BlockFetchManager) : Decidable (PointersValid m) := by
  unfold PointersValid; infer_instance

/-- The manager of scenario S5 after the three requests. -/
def scenario_S5_state : BlockFetchManager := scenario_S5.getD scenario_S5_start

/-- A call on the manager. -/
inductive FetchCall where
  | add_fetch_request (requested_block : Hash) (request_target : ReplicaID)
      (dependent_events : List NetEvent)
  | deliver_block (blk_hash : Hash)
deriving DecidableEq, Repr

/-- One call: the events it returns (none for `add_fetch_request`, which returns `void`
or throws) and the manager after it; `none` is undefined behaviour. -/
def run_call (GC_FREQ : Nat) (m : BlockFetchManager) :
    FetchCall → Option (List NetEvent × BlockFetchManager)
  | .add_fetch_request h r evs =>
    match m.add_fetch_request GC_FREQ h r evs with
    | none => none
    | some (_, m') => some ([], m')
  | .deliver_block h => m.deliver_block h

/-- A sequence of calls: the list of the events returned by each call, in call order,
and the manager after the last one. -/
def run_calls (GC_FREQ : Nat) :
    BlockFetchManager → List FetchCall → Option (List (List NetEvent) × BlockFetchManager)
  | m, [] => some ([], m)
  | m, c :: cs =>
    match run_call GC_FREQ m c with
    | none => none
    | some (out, m') =>
      match run_calls GC_FREQ m' cs with
      | none => none
      | some (outs, m'') => some (out :: outs, m'')

/-- The events a call hands to the manager: the `dependent_events` of an
`add_fetch_request`, none for a `deliver_block`. -/
def FetchCall.dependent_events : FetchCall → List NetEvent
  | .add_fetch_request _ _ evs => evs
  | .deliver_block _ => []

/-- The manager of scenario S5 after the first request `(H, 5, [E1])`. -/
def scenario_S5_after_first : BlockFetchManager :=
  ((scenario_S5_start.add_fetch_request 100 speedex.hashAA 5 [1]).getD
    (.ok (), scenario_S5_start)).2

/-- The manager of scenario S5 after the second request `(H, 5, [E2])`. -/
def scenario_S5_after_second : BlockFetchManager :=
  ((scenario_S5_after_first.add_fetch_request 100 speedex.hashAA 5 [2]).getD
    (.ok (), scenario_S5_start)).2

/-- The rest of scenario S5 after the second request: the request `(H, 7, [E3])` and two
deliveries of `H`. -/
def scenario_S5_rest : List FetchCall :=
  [.add_fetch_request speedex.hashAA 7 [3], .deliver_block speedex.hashAA,
    .deliver_block speedex.hashAA]

/-- The manager of scenario S5 at its end. -/
def scenario_S5_end : BlockFetchManager :=
  ((run_calls 100 scenario_S5_after_second scenario_S5_rest).getD ([], scenario_S5_start)).2

/-- The manager of scenario S5 after the requests and one `deliver_block(H)`. -/
def scenario_S5_delivered : BlockFetchManager :=
  ((scenario_S5_state.deliver_block speedex.hashAA).getD ([], scenario_S5_start)).2

/-- A manager whose configuration has the one replica 5, with the queue that
`add_replica` creates for it, and no outstanding request. -/
def scenario_valid_peer : BlockFetchManager :=
  (BlockFetchManager.new ⟨[5]⟩).add_replica 5

/-- Scenario S5 on a manager whose configuration holds the replicas 5 and 7, each with
the queue that `add_replica` creates for it, and no outstanding request. -/
def scenario_S5_peers : BlockFetchManager :=
  ((BlockFetchManager.new ⟨[5, 7]⟩).add_replica 5).add_replica 7

/-- Two request contexts for the garbage-collection walk: the first has received its
block, the second has not. -/
def gc_contexts : List RequestContext :=
  [(RequestContext.new speedex.hashAA).mark_received, RequestContext.new speedex.hashBB]

/-- A replica queue holding the received context in front of the unreceived one. -/
def gc_queue : ReplicaFetchQueue := ⟨[0, 1], [speedex.hashBB, speedex.hashAA], 2⟩


end hotstuff

namespace speedex

/-! ## Big-endian keys -/

theorem read_write_big_endian (n : Nat) :
    read_unsigned_big_endian (write_unsigned_big_endian n) = n % 2 ^ 64 := by
  simp only [write_unsigned_big_endian, be_bytes, read_unsigned_big_endian, List.take,
    List.foldl]
  norm_num
  omega

theorem write_big_endian_injective {a b : Nat} (ha : a < 2 ^ 64) (hb : b < 2 ^ 64)
    (h : write_unsigned_big_endian a = write_unsigned_big_endian b) : a = b := by
  have h1 := read_write_big_endian a
  have h2 := read_write_big_endian b
  rw [h, h2, Nat.mod_eq_of_lt hb] at h1
  rw [Nat.mod_eq_of_lt ha] at h1
  exact h1.symm

theorem be_bytes_mod (k : Nat) : ∀ m n, k ≤ m → be_bytes k (n % 256 ^ m) = be_bytes k n := by
  induction k with
  | zero => intro m n _; rfl
  | succ k ih =>
    intro m n hm
    simp only [be_bytes]
    rw [ih m n (by omega)]
    congr 1
    obtain ⟨d, rfl⟩ : ∃ d, m = k + (d + 1) := ⟨m - k - 1, by omega⟩
    rw [pow_add, Nat.mod_mul_right_div_self, pow_succ, Nat.mod_mul_left_mod]

theorem be_bytes_not_lt (k : Nat) : ∀ a b, a ≤ b → b < 256 ^ k →
    prefix_lt (be_bytes k b) (be_bytes k a) = false := by
  induction k with
  | zero => intro a b _ _; rfl
  | succ k ih =>
    intro a b hab hb
    have hpos : 0 < 256 ^ k := by positivity
    have hq : a / 256 ^ k ≤ b / 256 ^ k := Nat.div_le_div_right hab
    have hbq : b / 256 ^ k < 256 := by
      rw [Nat.div_lt_iff_lt_mul hpos]; rw [pow_succ] at hb; linarith
    have haq : a / 256 ^ k < 256 := lt_of_le_of_lt hq hbq
    simp only [be_bytes, prefix_lt, Nat.mod_eq_of_lt hbq, Nat.mod_eq_of_lt haq]
    rw [Bool.or_eq_false_iff]
    refine ⟨by simpa using hq, ?_⟩
    by_cases he : b / 256 ^ k = a / 256 ^ k
    · rw [← be_bytes_mod k k b le_rfl, ← be_bytes_mod k k a le_rfl]
      rw [ih _ _ ?_ (Nat.mod_lt _ hpos)]
      · simp
      · have h1 := Nat.div_add_mod a (256 ^ k)
        have h2 := Nat.div_add_mod b (256 ^ k)
        rw [he] at h2
        omega
    · simp [he]

theorem write_big_endian_not_lt {a b : Nat} (hab : a ≤ b) (hb : b < 2 ^ 64) :
    prefix_lt (write_unsigned_big_endian b) (write_unsigned_big_endian a) = false :=
  be_bytes_not_lt 8 a b hab (by norm_num at hb ⊢; exact hb)

/-! ## Key-ordered maps -/

theorem ordered_get_put {V : Type} (t : List (List Nat × V)) (k : List Nat) (v : V)
    (k' : List Nat) :
    ordered_get (ordered_put t k v) k' = if k' = k then some v else ordered_get t k' := by
  induction t with
  | nil => simp [ordered_put, ordered_get]
  | cons p rest ih =>
    obtain ⟨kp, vp⟩ := p
    simp only [ordered_put]
    by_cases h1 : k = kp
    · subst h1
      by_cases h3 : k' = k <;> simp [ordered_get, h3]
    · simp only [h1, if_false]
      by_cases h2 : prefix_lt k kp = true
      · simp only [h2, if_true, ordered_get]
      · simp only [h2, ordered_get, ih]
        by_cases h3 : k' = kp
        · have h4 : ¬ kp = k := fun h => h1 h.symm
          simp [h3, h4]
        · simp [h3]

theorem ordered_get_erase {V : Type} (t : List (List Nat × V)) (k k' : List Nat) :
    ordered_get (ordered_erase t k) k' = if k' = k then none else ordered_get t k' := by
  induction t with
  | nil => simp [ordered_erase, ordered_get]
  | cons p rest ih =>
    obtain ⟨kp, vp⟩ := p
    simp only [ordered_erase]
    by_cases h1 : k = kp
    · subst h1
      rw [if_pos rfl, ih]
      by_cases h3 : k' = k <;> simp [ordered_get, h3]
    · simp only [h1, if_false, ordered_get, ih]
      by_cases h3 : k' = kp
      · have h4 : ¬ kp = k := fun h => h1 h.symm
        simp [h3, h4]
      · simp [h3]

theorem ordered_put_append {V : Type} (t : List (List Nat × V)) (k : List Nat) (v : V)
    (h : ∀ p ∈ t, p.1 ≠ k ∧ prefix_lt k p.1 = false) :
    ordered_put t k v = t ++ [(k, v)] := by
  induction t with
  | nil => rfl
  | cons p rest ih =>
    obtain ⟨kp, vp⟩ := p
    have hp := h (kp, vp) (List.mem_cons_self _ _)
    have h1 : ¬ k = kp := fun e => hp.1 e.symm
    simp only [ordered_put, h1, if_false, hp.2, List.cons_append]
    rw [ih (fun q hq => h q (List.mem_cons_of_mem _ hq))]
    simp

theorem ordered_get_isSome_iff {V : Type} (t : List (List Nat × V)) (k : List Nat) :
    (ordered_get t k).isSome = true ↔ k ∈ t.map Prod.fst := by
  induction t with
  | nil => simp [ordered_get]
  | cons p rest ih =>
    obtain ⟨kp, vp⟩ := p
    by_cases h1 : k = kp
    · simp [ordered_get, h1]
    · simp [ordered_get, h1, ih]

theorem ordered_erase_of_not_mem {V : Type} (t : List (List Nat × V)) (k : List Nat)
    (h : k ∉ t.map Prod.fst) : ordered_erase t k = t := by
  induction t with
  | nil => rfl
  | cons p rest ih =>
    obtain ⟨kp, vp⟩ := p
    simp only [List.map_cons, List.mem_cons, not_or] at h
    simp only [ordered_erase, h.1, if_false, ih h.2]

theorem mem_range_keys (n : Nat) (k : List Nat) :
    k ∈ (List.range' 1 n).map write_unsigned_big_endian ↔
      ∃ i, 1 ≤ i ∧ i ≤ n ∧ k = write_unsigned_big_endian i := by
  simp only [List.mem_map, List.mem_range'_1]
  constructor
  · rintro ⟨i, ⟨h1, h2⟩, rfl⟩; exact ⟨i, h1, by omega, rfl⟩
  · rintro ⟨i, h1, h2, rfl⟩; exact ⟨i, ⟨h1, by omega⟩, rfl⟩

theorem KeysUpTo.get_isSome_iff {t : TrieT} {n : Nat} (h : KeysUpTo t n) (k : List Nat) :
    (t.get_value k).isSome = true ↔ ∃ i, 1 ≤ i ∧ i ≤ n ∧ k = write_unsigned_big_endian i := by
  unfold MerkleTrie.get_value
  rw [ordered_get_isSome_iff, ← mem_range_keys]
  unfold KeysUpTo MerkleTrie.keys at h
  rw [h]

theorem KeysUpTo.size_eq {t : TrieT} {n : Nat} (h : KeysUpTo t n) : t.size = n := by
  have := congrArg List.length h
  simpa [MerkleTrie.keys, MerkleTrie.size] using this

theorem KeysUpTo.insert_next {t : TrieT} {n : Nat} (h : KeysUpTo t n) (hn : n + 1 < 2 ^ 64)
    (v : Hash) :
    t.insert (write_unsigned_big_endian (n + 1)) v = t ++ [(write_unsigned_big_endian (n + 1), v)]
      ∧ KeysUpTo (t.insert (write_unsigned_big_endian (n + 1)) v) (n + 1) := by
  have happ : t.insert (write_unsigned_big_endian (n + 1)) v
      = t ++ [(write_unsigned_big_endian (n + 1), v)] := by
    apply ordered_put_append
    intro p hp
    have hk : p.1 ∈ t.map Prod.fst := List.mem_map_of_mem _ hp
    unfold KeysUpTo MerkleTrie.keys at h
    rw [h, mem_range_keys] at hk
    obtain ⟨i, h1, h2, hi⟩ := hk
    rw [hi]
    refine ⟨fun e => ?_, write_big_endian_not_lt (by omega) hn⟩
    have := write_big_endian_injective (by omega) hn e
    omega
  refine ⟨happ, ?_⟩
  rw [happ]
  unfold KeysUpTo MerkleTrie.keys at h ⊢
  rw [List.map_append, h, List.range'_1_concat, List.map_append]
  simp [Nat.add_comm]

/-! ## Production inserts -/

theorem insert_for_production_inv (s : BlockHeaderHashMap) (n : Nat) (h : Hash)
    (hs : ProductionInv s) : ProductionInv (s.insert_for_production n h).2 := by
  unfold BlockHeaderHashMap.insert_for_production
  split_ifs with h1 h2 h3 h4
  · exact hs
  · exact hs
  · exact hs
  · exact hs
  · have hn : n = s.last_committed_block_number + 1 := by
      have := hs.2
      by_cases hw : s.last_committed_block_number + 1 = 2 ^ 64
      · rw [hw] at h4; simp at h4; exact absurd h4 h1
      · rw [Nat.mod_eq_of_lt (by omega)] at h4; simpa using h4
    have hlt : s.last_committed_block_number + 1 < 2 ^ 64 := by
      have := hs.2
      by_contra hc
      have hw : s.last_committed_block_number + 1 = 2 ^ 64 := by omega
      rw [hw] at h4; simp at h4; exact absurd h4 h1
    subst hn
    exact ⟨(hs.1.insert_next hlt h).2, hlt⟩

theorem run_production_inv (calls : List (Nat × Hash)) :
    ∀ s, ProductionInv s → ProductionInv (run_production s calls) := by
  induction calls with
  | nil => intro s hs; exact hs
  | cons c calls ih =>
    intro s hs
    obtain ⟨n, h⟩ := c
    exact ih _ (insert_for_production_inv s n h hs)

/-- C1: starting from a freshly constructed map (empty trie, `last_committed = 0`), after
any sequence of `insert_for_production` calls the keys of the trie are exactly the
big-endian keys of `1, …, last_committed`, in key order and one leaf each: the trie has
`last_committed` leaves and holds a value for a key exactly when the key encodes some
`i` with `1 ≤ i ≤ last_committed`. A call that throws leaves the state unchanged. -/
theorem C1_production_keys_exact (s0 : BlockHeaderHashMap) (hmap : s0.block_map = [])
    (hlc : s0.last_committed_block_number = 0) (calls : List (Nat × Hash)) :
    KeysUpTo (run_production s0 calls).block_map
        (run_production s0 calls).last_committed_block_number
      ∧ (run_production s0 calls).block_map.size
        = (run_production s0 calls).last_committed_block_number
      ∧ (∀ k, ((run_production s0 calls).block_map.get_value k).isSome = true ↔
          ∃ i, 1 ≤ i ∧ i ≤ (run_production s0 calls).last_committed_block_number
            ∧ k = write_unsigned_big_endian i)
      ∧ ∀ (s : BlockHeaderHashMap) (n : Nat) (h : Hash),
          (s.insert_for_production n h).1 ≠ .ok () → (s.insert_for_production n h).2 = s := by
  have h0 : ProductionInv s0 := by
    refine ⟨?_, by rw [hlc]; norm_num⟩
    rw [hmap, hlc]; rfl
  have h := run_production_inv calls s0 h0
  refine ⟨h.1, h.1.size_eq, h.1.get_isSome_iff, ?_⟩
  intro s n hh
  unfold BlockHeaderHashMap.insert_for_production
  split_ifs <;> simp

/-- C1, scenario S1: inserting `(0, 0)`, `(1, AA)`, `(2, BB)`, `(3, CC)` gives
`last_committed = 3` and exactly the three leaves 1, 2, 3. -/
theorem C1_witness_S1 :
    clean_start.block_map = [] ∧ clean_start.last_committed_block_number = 0
      ∧ scenario_S1.last_committed_block_number = 3
      ∧ scenario_S1.block_map
        = [(write_unsigned_big_endian 1, hashAA), (write_unsigned_big_endian 2, hashBB),
            (write_unsigned_big_endian 3, hashCC)]
      ∧ KeysUpTo scenario_S1.block_map 3 ∧ scenario_S1.block_map.size = 3 :=
  ⟨rfl, rfl, by decide, by decide,
    (C1_production_keys_exact clean_start rfl rfl
      [(0, zero_hash), (1, hashAA), (2, hashBB), (3, hashCC)]).1,
    (C1_production_keys_exact clean_start rfl rfl
      [(0, zero_hash), (1, hashAA), (2, hashBB), (3, hashCC)]).2.1⟩

/-- C2: for a block number `n ≠ 0`, `insert_for_production(n, h)` returns normally exactly
when `n = last_committed + 1`. Then the trie maps the big-endian key of `n` to `h`, every
other key keeps its value, `last_committed = n` and the store is untouched. Otherwise it
throws "inserting wrong block number" (BlockOutOfOrder) and the whole state is unchanged. -/
theorem C2_insert_for_production_in_order (s : BlockHeaderHashMap) (n : Nat) (h : Hash)
    (hn : n ≠ 0) (hn64 : n < 2 ^ 64) (hlc : s.last_committed_block_number < 2 ^ 64) :
    (n = s.last_committed_block_number + 1 →
        (s.insert_for_production n h).1 = .ok ()
        ∧ (s.insert_for_production n h).2.block_map.get_value (write_unsigned_big_endian n)
            = some h
        ∧ (∀ k, k ≠ write_unsigned_big_endian n →
            (s.insert_for_production n h).2.block_map.get_value k = s.block_map.get_value k)
        ∧ (s.insert_for_production n h).2.last_committed_block_number = n
        ∧ (s.insert_for_production n h).2.lmdb_instance = s.lmdb_instance)
      ∧ (n ≠ s.last_committed_block_number + 1 →
        s.insert_for_production n h = (.error .BlockOutOfOrder, s)) := by
  constructor
  · intro he
    have hmod : ¬ n ≠ (s.last_committed_block_number + 1) % 2 ^ 64 := by
      rw [← he, Nat.mod_eq_of_lt hn64]; simp
    have hres : s.insert_for_production n h = (.ok (), { s with
        block_map := s.block_map.insert (write_unsigned_big_endian n) h
        last_committed_block_number := n }) := by
      unfold BlockHeaderHashMap.insert_for_production
      rw [if_neg hn, if_neg hmod]
    rw [hres]
    refine ⟨rfl, ?_, ?_, rfl, rfl⟩
    · simp [MerkleTrie.insert, MerkleTrie.get_value, ordered_get_put]
    · intro k hk
      simp [MerkleTrie.insert, MerkleTrie.get_value, ordered_get_put, hk]
  · intro hne
    have hmod : n ≠ (s.last_committed_block_number + 1) % 2 ^ 64 := by
      intro e
      by_cases hw : s.last_committed_block_number + 1 = 2 ^ 64
      · rw [hw] at e; simp at e; exact hn e
      · rw [Nat.mod_eq_of_lt (by omega)] at e; exact hne e
    unfold BlockHeaderHashMap.insert_for_production
    rw [if_neg hn, if_pos hmod]

/-- C2 at a concrete input: on scenario S1 (`last_committed = 3`), block 4 is accepted
and block 6 is rejected. -/
theorem C2_witness :
    (scenario_S1.insert_for_production 4 hashDD).1 = .ok ()
      ∧ (scenario_S1.insert_for_production 4 hashDD).2.last_committed_block_number = 4
      ∧ scenario_S1.insert_for_production 6 hashDD = (.error .BlockOutOfOrder, scenario_S1) :=
  have h4 := (C2_insert_for_production_in_order scenario_S1 4 hashDD (by decide) (by decide)
    (by decide)).1 (by decide)
  have h6 := (C2_insert_for_production_in_order scenario_S1 6 hashDD (by decide) (by decide)
    (by decide)).2 (by decide)
  ⟨h4.1, h4.2.2.2.1, h6⟩

/-- C3: for `n ≠ 0`, `tentative_insert_for_validation(n, h)` returns true exactly when
`n = last_committed`. When it returns true the trie maps the key of `n` to `h` (the
insert is the only change) and `last_committed` is not advanced; when it returns false
the whole state is unchanged. It never throws for `n ≠ 0`. -/
theorem C3_tentative_insert_parent_only (s : BlockHeaderHashMap) (n : Nat) (h : Hash)
    (hn : n ≠ 0) :
    (n = s.last_committed_block_number →
        s.tentative_insert_for_validation n h
          = (.ok true,
              { s with block_map := s.block_map.insert (write_unsigned_big_endian n) h })
        ∧ (s.tentative_insert_for_validation n h).2.block_map.get_value
            (write_unsigned_big_endian n) = some h
        ∧ (s.tentative_insert_for_validation n h).2.last_committed_block_number
            = s.last_committed_block_number)
      ∧ (n ≠ s.last_committed_block_number →
        s.tentative_insert_for_validation n h = (.ok false, s)) := by
  constructor
  · intro he
    have hres : s.tentative_insert_for_validation n h
        = (.ok true,
            { s with block_map := s.block_map.insert (write_unsigned_big_endian n) h }) := by
      unfold BlockHeaderHashMap.tentative_insert_for_validation
      rw [if_neg hn, if_neg (not_not.mpr he)]
    rw [hres]
    refine ⟨rfl, ?_, rfl⟩
    simp [MerkleTrie.insert, MerkleTrie.get_value, ordered_get_put]
  · intro hne
    unfold BlockHeaderHashMap.tentative_insert_for_validation
    rw [if_neg hn, if_pos hne]

/-- C3, scenario S3: from S1 (`last_committed = 3`),
`tentative_insert_for_validation(2, BB)` returns false with no state change. -/
theorem C3_witness_S3 :
    scenario_S1.last_committed_block_number = 3
      ∧ scenario_S1.tentative_insert_for_validation 2 hashBB = (.ok false, scenario_S1) :=
  ⟨by decide,
    (C3_tentative_insert_parent_only scenario_S1 2 hashBB (by decide)).2 (by decide)⟩

/-- C4 (failing input): on scenario S1, whose keys are exactly `1 … last_committed = 3`,
`tentative_insert_for_validation(3, DD)` returns true and overwrites the hash `CC`
stored for block 3; the following `rollback_validation()` erases key
`last_committed + 1 = 4`, which is absent, so the trie keeps `3 ↦ DD` and differs from
the trie before the tentative insert. With the hash already stored (`CC`, scenario S2)
the state after the rollback is S1 again. -/
theorem C4_rollback_does_not_undo_tentative_insert :
    KeysUpTo scenario_S1.block_map scenario_S1.last_committed_block_number
      ∧ (scenario_S1.tentative_insert_for_validation 3 hashDD).1 = .ok true
      ∧ (scenario_S1.tentative_insert_for_validation 3 hashDD).2.rollback_validation.block_map
        = [(write_unsigned_big_endian 1, hashAA), (write_unsigned_big_endian 2, hashBB),
            (write_unsigned_big_endian 3, hashDD)]
      ∧ (scenario_S1.tentative_insert_for_validation 3 hashDD).2.rollback_validation.block_map
        ≠ scenario_S1.block_map
      ∧ (scenario_S1.tentative_insert_for_validation 3 hashCC).1 = .ok true
      ∧ (scenario_S1.tentative_insert_for_validation 3 hashCC).2.rollback_validation
        = scenario_S1 := by
  decide

/-! ## Rollback to a committed round -/

theorem KeysUpTo.get_isSome {t : TrieT} {n : Nat} (h : KeysUpTo t n) {i : Nat} (h1 : 1 ≤ i)
    (h2 : i ≤ n) : (ordered_get t (write_unsigned_big_endian i)).isSome = true :=
  (h.get_isSome_iff _).2 ⟨i, h1, h2, rfl⟩

theorem rollback_loop_spec (lc : Nat) (hlc : lc + 1 < 2 ^ 64) :
    ∀ (d i fuel : Nat) (t : TrieT), lc + 1 - i = d → d < fuel →
      (∀ j, i ≤ j → j ≤ lc → j ≠ 0 →
        (ordered_get t (write_unsigned_big_endian j)).isSome = true) →
      ∃ t', BlockHeaderHashMap.rollback_loop lc fuel i t = some (.ok (), t')
        ∧ (∀ j, i ≤ j → j ≤ lc → j ≠ 0 → ordered_get t' (write_unsigned_big_endian j) = none)
        ∧ (∀ k, (∀ j, i ≤ j → j ≤ lc → j ≠ 0 → k ≠ write_unsigned_big_endian j) →
            ordered_get t' k = ordered_get t k) := by
  intro d
  induction d with
  | zero =>
    intro i fuel t hd hfuel _
    obtain ⟨f, rfl⟩ : ∃ f, fuel = f + 1 := ⟨fuel - 1, by omega⟩
    have hi : ¬ i ≤ lc := by omega
    refine ⟨t, ?_, ?_, ?_⟩
    · simp only [BlockHeaderHashMap.rollback_loop, hi, if_false]
    · intro j h1 h2; omega
    · intro k _; rfl
  | succ d ih =>
    intro i fuel t hd hfuel hkeys
    obtain ⟨f, rfl⟩ : ∃ f, fuel = f + 1 := ⟨fuel - 1, by omega⟩
    have hi : i ≤ lc := by omega
    have hnext : (i + 1) % 2 ^ 64 = i + 1 := Nat.mod_eq_of_lt (by omega)
    by_cases h0 : i = 0
    · obtain ⟨t', hrun, hnone, hsame⟩ := ih (i + 1) f t (by omega) (by omega)
        (fun j h1 h2 h3 => hkeys j (by omega) h2 h3)
      refine ⟨t', ?_, ?_, ?_⟩
      · subst h0
        simp only [BlockHeaderHashMap.rollback_loop, hi, if_true, hnext]
        exact hrun
      · intro j h1 h2 h3; exact hnone j (by omega) h2 h3
      · intro k hk; exact hsame k (fun j h1 h2 h3 => hk j (by omega) h2 h3)
    · have hfound := hkeys i le_rfl hi h0
      have hrest : ∀ j, i + 1 ≤ j → j ≤ lc → j ≠ 0 →
          (ordered_get (ordered_erase t (write_unsigned_big_endian i))
            (write_unsigned_big_endian j)).isSome = true := by
        intro j h1 h2 h3
        rw [ordered_get_erase]
        have hne : write_unsigned_big_endian j ≠ write_unsigned_big_endian i := by
          intro e
          have := write_big_endian_injective (by omega) (by omega) e
          omega
        rw [if_neg hne]
        exact hkeys j (by omega) h2 h3
      obtain ⟨t', hrun, hnone, hsame⟩ := ih (i + 1) f
        (ordered_erase t (write_unsigned_big_endian i)) (by omega) (by omega) hrest
      refine ⟨t', ?_, ?_, ?_⟩
      · simp only [BlockHeaderHashMap.rollback_loop, hi, if_true, h0, if_false,
          MerkleTrie.perform_deletion, hfound, hnext]
        exact hrun
      · intro j h1 h2 h3
        by_cases hj : j = i
        · subst hj
          by_cases hex : ∃ j', j + 1 ≤ j' ∧ j' ≤ lc ∧ j' ≠ 0
              ∧ write_unsigned_big_endian j = write_unsigned_big_endian j'
          · obtain ⟨j', g1, g2, g3, g4⟩ := hex
            rw [g4]; exact hnone j' g1 g2 g3
          · rw [hsame _ (fun j' g1 g2 g3 g4 => hex ⟨j', g1, g2, g3, g4⟩), ordered_get_erase]
            simp
        · exact hnone j (by omega) h2 h3
      · intro k hk
        rw [hsame k (fun j h1 h2 h3 => hk j (by omega) h2 h3), ordered_get_erase,
          if_neg (hk i le_rfl hi h0)]

/-- C5: on a state whose trie keys are exactly `1 … last_committed`,
`rollback_to_committed_round(c)` throws "can't rollback beyond lmdb persist"
(RollbackBelowDurable) and changes nothing when `c < persisted_round()`; otherwise it
returns normally, the keys of every `i` in `[c, last_committed]` are gone, every other key
(in particular every key below `c`) keeps its hash, `last_committed` becomes `c - 1`
(`0` for `c = 0`) and the store is untouched. Block numbers are `uint64_t` values, with
`last_committed` below the largest one, where the loop counter cannot wrap. -/
theorem C5_rollback_to_committed_round (s : BlockHeaderHashMap) (c : Nat)
    (hkeys : KeysUpTo s.block_map s.last_committed_block_number)
    (hlc : s.last_committed_block_number + 1 < 2 ^ 64) (hc : c < 2 ^ 64) :
    (c < s.get_persisted_round_number →
        s.rollback_to_committed_round c = some (.error .RollbackBelowDurable, s))
      ∧ (¬ c < s.get_persisted_round_number →
        ∃ s', s.rollback_to_committed_round c = some (.ok (), s')
          ∧ (∀ i, c ≤ i → i ≤ s.last_committed_block_number →
              s'.block_map.get_value (write_unsigned_big_endian i) = none)
          ∧ (∀ k, (∀ i, c ≤ i → i ≤ s.last_committed_block_number →
                k ≠ write_unsigned_big_endian i) →
              s'.block_map.get_value k = s.block_map.get_value k)
          ∧ (∀ i, i < c →
              s'.block_map.get_value (write_unsigned_big_endian i)
                = s.block_map.get_value (write_unsigned_big_endian i))
          ∧ s'.last_committed_block_number = c - 1
          ∧ s'.lmdb_instance = s.lmdb_instance) := by
  constructor
  · intro hlt
    have hlt' : c < s.lmdb_instance.get_persisted_round_number := hlt
    unfold BlockHeaderHashMap.rollback_to_committed_round
    rw [if_pos hlt']
  · intro hge
    obtain ⟨t', hrun, hnone, hsame⟩ := rollback_loop_spec s.last_committed_block_number hlc
      (s.last_committed_block_number + 1 - c) c (2 ^ 64 + 2) s.block_map rfl (by omega)
      (fun j h1 h2 h3 => hkeys.get_isSome (by omega) h2)
    have hzero : ∀ j, 1 ≤ j → j < 2 ^ 64 →
        write_unsigned_big_endian 0 ≠ write_unsigned_big_endian j := by
      intro j h1 h2 e
      have := write_big_endian_injective (by norm_num) h2 e
      omega
    have hzero_none : ordered_get s.block_map (write_unsigned_big_endian 0) = none := by
      have h := hkeys.get_isSome_iff (write_unsigned_big_endian 0)
      unfold MerkleTrie.get_value at h
      cases hg : ordered_get s.block_map (write_unsigned_big_endian 0) with
      | none => rfl
      | some v =>
        rw [hg] at h
        obtain ⟨i, h1, h2, h3⟩ := h.1 rfl
        exact absurd h3 (hzero i h1 (by omega))
    refine ⟨{ s with block_map := t', last_committed_block_number := if c = 0 then 0 else c - 1 },
      ?_, ?_, ?_, ?_, ?_, rfl⟩
    · unfold BlockHeaderHashMap.rollback_to_committed_round
      have hge' : ¬ c < s.lmdb_instance.get_persisted_round_number := hge
      rw [if_neg hge', hrun]
    · intro i h1 h2
      by_cases h0 : i = 0
      · subst h0
        show ordered_get t' _ = none
        rw [hsame _ (fun j g1 g2 g3 => hzero j (by omega) (by omega))]
        exact hzero_none
      · exact hnone i h1 h2 h0
    · intro k hk
      exact hsame k (fun j h1 h2 _ => hk j h1 h2)
    · intro i hi
      refine hsame _ (fun j h1 h2 _ e => ?_)
      have := write_big_endian_injective (by omega) (by omega) e
      omega
    · show (if c = 0 then 0 else c - 1) = c - 1
      split_ifs with h0
      · omega
      · rfl

/-- C5, scenario S6: with `persisted_round = 5` and `last_committed = 7`,
`rollback_to_committed_round(4)` fails and `rollback_to_committed_round(5)` succeeds and
sets `last_committed = 4`. -/
theorem C5_witness_S6 :
    scenario_S6.get_persisted_round_number = 5
      ∧ scenario_S6.last_committed_block_number = 7
      ∧ scenario_S6.rollback_to_committed_round 4
        = some (.error .RollbackBelowDurable, scenario_S6)
      ∧ ∃ s', scenario_S6.rollback_to_committed_round 5 = some (.ok (), s')
          ∧ s'.last_committed_block_number = 5 - 1 :=
  have h4 := (C5_rollback_to_committed_round scenario_S6 4 (by decide) (by decide)
    (by decide)).1 (by decide)
  have h5 := (C5_rollback_to_committed_round scenario_S6 5 (by decide) (by decide)
    (by decide)).2 (by decide)
  ⟨by decide, by decide, h4,
    h5.elim fun s' hs' => ⟨s', hs'.1, hs'.2.2.2.2.1⟩⟩

/-! ## Persisting to the store -/

theorem persist_loop_spec (bm : TrieT) :
    ∀ (n i : Nat) (wtx : List (List Nat × List Nat)),
      (∀ j, i ≤ j → j < i + n → j ≠ 0 →
        (bm.get_value (write_unsigned_big_endian j)).isSome = true) →
      ∃ wtx', BlockHeaderHashMap.persist_loop bm n i wtx = .ok wtx'
        ∧ (∀ j, i ≤ j → j < i + n → j ≠ 0 →
            ordered_get wtx' (write_unsigned_big_endian j)
              = (bm.get_value (write_unsigned_big_endian j)).map Hash.bytes)
        ∧ (∀ k, (∀ j, i ≤ j → j < i + n → j ≠ 0 → k ≠ write_unsigned_big_endian j) →
            ordered_get wtx' k = ordered_get wtx k) := by
  intro n
  induction n with
  | zero =>
    intro i wtx _
    exact ⟨wtx, rfl, fun j h1 h2 => by omega, fun k _ => rfl⟩
  | succ n ih =>
    intro i wtx hkeys
    by_cases h0 : i = 0
    · subst h0
      obtain ⟨wtx', hrun, hput, hsame⟩ := ih 1 wtx (fun j h1 h2 h3 => hkeys j (by omega) (by omega) h3)
      refine ⟨wtx', ?_, ?_, ?_⟩
      · simp only [BlockHeaderHashMap.persist_loop, if_true]
        exact hrun
      · intro j h1 h2 h3; exact hput j (by omega) (by omega) h3
      · intro k hk; exact hsame k (fun j h1 h2 h3 => hk j (by omega) (by omega) h3)
    · have hfound := hkeys i le_rfl (by omega) h0
      obtain ⟨hash, hhash⟩ := Option.isSome_iff_exists.1 hfound
      obtain ⟨wtx', hrun, hput, hsame⟩ := ih (i + 1)
        (BlockHeaderHashMapLMDB.put wtx (write_unsigned_big_endian i) hash.bytes)
        (fun j h1 h2 h3 => hkeys j (by omega) (by omega) h3)
      refine ⟨wtx', ?_, ?_, ?_⟩
      · simp only [BlockHeaderHashMap.persist_loop, h0, if_false, hhash]
        exact hrun
      · intro j h1 h2 h3
        by_cases hj : j = i
        · subst hj
          by_cases hex : ∃ j', j + 1 ≤ j' ∧ j' < j + 1 + n ∧ j' ≠ 0
              ∧ write_unsigned_big_endian j = write_unsigned_big_endian j'
          · obtain ⟨j', g1, g2, g3, g4⟩ := hex
            rw [g4]; exact hput j' g1 g2 g3
          · rw [hsame _ (fun j' g1 g2 g3 g4 => hex ⟨j', g1, g2, g3, g4⟩), hhash]
            simp [BlockHeaderHashMapLMDB.put, ordered_get_put]
        · exact hput j (by omega) (by omega) h3
      · intro k hk
        rw [hsame k (fun j h1 h2 h3 => hk j (by omega) (by omega) h3)]
        simp [BlockHeaderHashMapLMDB.put, ordered_get_put, hk i le_rfl (by omega) h0]

/-- C6: with the store open and `p = persisted_round()` before the call, if the trie holds
a hash for every `i` in `[p, current)` with `i ≠ 0`, then `persist_lmdb(current)` returns
normally; afterwards the table maps the big-endian key of each such `i` to the trie's hash
for `i`, every other key of the table (in particular the key of `current`) is as before,
the persisted round counter is `current`, and the in-memory trie and `last_committed` are
unchanged. -/
theorem C6_persist_lmdb_writes_below_current (s : BlockHeaderHashMap) (current : Nat)
    (hopen : s.lmdb_instance.env_open = true) (hcur : current < 2 ^ 64)
    (hkeys : ∀ i, s.get_persisted_round_number ≤ i → i < current → i ≠ 0 →
      (s.block_map.get_value (write_unsigned_big_endian i)).isSome = true) :
    ∃ s', s.persist_lmdb current = (.ok (), s')
      ∧ (∀ i, s.get_persisted_round_number ≤ i → i < current → i ≠ 0 →
          ordered_get s'.lmdb_instance.data (write_unsigned_big_endian i)
            = (s.block_map.get_value (write_unsigned_big_endian i)).map Hash.bytes)
      ∧ (∀ k, (∀ i, s.get_persisted_round_number ≤ i → i < current → i ≠ 0 →
            k ≠ write_unsigned_big_endian i) →
          ordered_get s'.lmdb_instance.data k = ordered_get s.lmdb_instance.data k)
      ∧ ordered_get s'.lmdb_instance.data (write_unsigned_big_endian current)
          = ordered_get s.lmdb_instance.data (write_unsigned_big_endian current)
      ∧ s'.get_persisted_round_number = current
      ∧ s'.block_map = s.block_map
      ∧ s'.last_committed_block_number = s.last_committed_block_number := by
  have hp : s.get_persisted_round_number = s.lmdb_instance.persisted_round_number := rfl
  rw [hp] at hkeys ⊢
  obtain ⟨wtx', hrun, hput, hsame⟩ := persist_loop_spec s.block_map
    (current - s.lmdb_instance.persisted_round_number) s.lmdb_instance.persisted_round_number
    s.lmdb_instance.data (fun j h1 h2 h3 => hkeys j h1 (by omega) h3)
  refine ⟨{ s with lmdb_instance := s.lmdb_instance.commit_wtxn wtx' current }, ?_, ?_, ?_, ?_,
    rfl, rfl, rfl⟩
  · unfold BlockHeaderHashMap.persist_lmdb
    simp only [hopen, not_true_eq_false, if_false,
      BlockHeaderHashMapLMDB.get_persisted_round_number, hrun]
  · intro i h1 h2 h3
    exact hput i h1 (by omega) h3
  · intro k hk
    exact hsame k (fun j h1 h2 h3 => hk j h1 (by omega) h3)
  · refine hsame _ (fun j h1 h2 h3 e => ?_)
    have hj : j < current := by omega
    have := write_big_endian_injective hcur (by omega) e
    omega

/-- C6, scenario S4: from S1 on an open, clean store, `persist(3)` writes keys 1 and 2
with their hashes and not key 3, and sets the persisted round to 3. -/
theorem C6_witness_S4 :
    scenario_S1.lmdb_instance.env_open = true
      ∧ scenario_S1.get_persisted_round_number = 0
      ∧ ∃ s', scenario_S1.persist_lmdb 3 = (.ok (), s')
        ∧ ordered_get s'.lmdb_instance.data (write_unsigned_big_endian 1) = some hashAA.bytes
        ∧ ordered_get s'.lmdb_instance.data (write_unsigned_big_endian 2) = some hashBB.bytes
        ∧ ordered_get s'.lmdb_instance.data (write_unsigned_big_endian 3) = none
        ∧ s'.get_persisted_round_number = 3 :=
  ⟨by decide, by decide,
    (C6_persist_lmdb_writes_below_current scenario_S1 3 (by decide) (by decide)
      (by decide)).elim fun s' hs' =>
      ⟨s', hs'.1, (hs'.2.1 1 (by decide) (by decide) (by decide)).trans (by decide),
        (hs'.2.1 2 (by decide) (by decide) (by decide)).trans (by decide),
        hs'.2.2.2.1.trans (by decide), hs'.2.2.2.2.1⟩⟩

/-! ## Persist, then load -/

theorem take_range'_of_le : ∀ (m n s : Nat), m ≤ n → (List.range' s n).take m = List.range' s m := by
  intro m
  induction m with
  | zero => intro n s _; simp
  | succ m ih =>
    intro n s h
    obtain ⟨n', rfl⟩ : ∃ n', n = n' + 1 := ⟨n - 1, by omega⟩
    rw [List.range'_succ, List.range'_succ, List.take_succ_cons, ih n' _ (by omega)]

theorem ordered_put_range_append {V : Type} (F : Nat → V) (m : Nat) (hm : m + 1 < 2 ^ 64) :
    ordered_put ((List.range' 1 m).map (fun j => (write_unsigned_big_endian j, F j)))
        (write_unsigned_big_endian (m + 1)) (F (m + 1))
      = (List.range' 1 (m + 1)).map (fun j => (write_unsigned_big_endian j, F j)) := by
  rw [ordered_put_append, List.range'_1_concat, List.map_append, Nat.add_comm 1 m]
  · rfl
  · intro p hp
    obtain ⟨j, hj, rfl⟩ := List.mem_map.1 hp
    rw [List.mem_range'_1] at hj
    refine ⟨fun e => ?_, write_big_endian_not_lt (by omega) hm⟩
    have := write_big_endian_injective (by omega) hm e
    omega

theorem ordered_get_range {V : Type} (F : Nat → V) :
    ∀ m, m < 2 ^ 64 → ∀ i, 1 ≤ i → i ≤ m →
      ordered_get ((List.range' 1 m).map (fun j => (write_unsigned_big_endian j, F j)))
        (write_unsigned_big_endian i) = some (F i) := by
  intro m
  induction m with
  | zero => intro _ i h1 h2; omega
  | succ m ih =>
    intro hm i h1 h2
    rw [← ordered_put_range_append F m hm, ordered_get_put]
    by_cases hi : i = m + 1
    · subst hi; simp
    · have hne : write_unsigned_big_endian i ≠ write_unsigned_big_endian (m + 1) := by
        intro e
        exact hi (write_big_endian_injective (by omega) hm e)
      rw [if_neg hne]
      exact ih (by omega) i h1 (by omega)

theorem keys_eq_map_of_nodup (is : List Nat) :
    ∀ (t : TrieT), t.map Prod.fst = is.map write_unsigned_big_endian →
      (∀ i ∈ is, i < 2 ^ 64) → is.Nodup →
      t = is.map (fun i => (write_unsigned_big_endian i, block_hash_of t i)) := by
  induction is with
  | nil => intro t h _ _; simpa using h
  | cons i is ih =>
    intro t h hlt hnd
    cases t with
    | nil => simp at h
    | cons p t' =>
      obtain ⟨k, v⟩ := p
      simp only [List.map_cons, List.cons.injEq] at h
      obtain ⟨hk, ht'⟩ := h
      subst hk
      rw [List.nodup_cons] at hnd
      have ih' := ih t' ht' (fun j hj => hlt j (List.mem_cons_of_mem _ hj)) hnd.2
      rw [List.map_cons]
      congr 1
      · simp [block_hash_of, MerkleTrie.get_value, ordered_get]
      · rw [ih']
        apply List.map_congr_left
        intro j hj
        have hne : write_unsigned_big_endian j ≠ write_unsigned_big_endian i := by
          intro e
          have := write_big_endian_injective (hlt j (List.mem_cons_of_mem _ hj))
            (hlt i (List.mem_cons_self _ _)) e
          subst this
          exact hnd.1 hj
        rw [← ih']
        simp [block_hash_of, MerkleTrie.get_value, ordered_get, hne]

theorem KeysUpTo.eq_map {t : TrieT} {n : Nat} (h : KeysUpTo t n) (hn : n < 2 ^ 64) :
    t = (List.range' 1 n).map (fun i => (write_unsigned_big_endian i, block_hash_of t i)) := by
  apply keys_eq_map_of_nodup _ _ h
  · intro i hi
    rw [List.mem_range'_1] at hi
    omega
  · exact List.nodup_range' 1 n

theorem KeysUpTo.of_map (F : Nat → Hash) (n : Nat) :
    KeysUpTo ((List.range' 1 n).map (fun i => (write_unsigned_big_endian i, F i))) n := by
  unfold KeysUpTo MerkleTrie.keys
  rw [List.map_map]
  rfl

theorem persist_loop_range (bm : TrieT) (g : Nat → Hash) (N : Nat) (hN : N < 2 ^ 64)
    (hbm : ∀ j, 1 ≤ j → j ≤ N → bm.get_value (write_unsigned_big_endian j) = some (g j)) :
    ∀ n m, m + n ≤ N →
      BlockHeaderHashMap.persist_loop bm n (m + 1)
          ((List.range' 1 m).map (fun j => (write_unsigned_big_endian j, (g j).bytes)))
        = .ok ((List.range' 1 (m + n)).map
            (fun j => (write_unsigned_big_endian j, (g j).bytes))) := by
  intro n
  induction n with
  | zero => intro m _; rfl
  | succ n ih =>
    intro m hmn
    simp only [BlockHeaderHashMap.persist_loop, Nat.succ_ne_zero, if_false,
      hbm (m + 1) (by omega) (by omega), BlockHeaderHashMapLMDB.put]
    rw [ordered_put_range_append (fun j => (g j).bytes) m (by omega), ih (m + 1) (by omega)]
    congr 3
    omega

theorem load_loop_range (p : Nat) (g : Nat → Hash) :
    ∀ n m, m + n ≤ p → m + n < 2 ^ 64 →
      BlockHeaderHashMap.load_loop p
          ((List.range' (m + 1) n).map (fun j => (write_unsigned_big_endian j, (g j).bytes)))
          ((List.range' 1 m).map (fun j => (write_unsigned_big_endian j, g j)))
        = (.ok (), (List.range' 1 (m + n)).map (fun j => (write_unsigned_big_endian j, g j))) := by
  intro n
  induction n with
  | zero => intro m _ _; rfl
  | succ n ih =>
    intro m hp hlt
    have hread : read_unsigned_big_endian (write_unsigned_big_endian (m + 1)) = m + 1 := by
      rw [read_write_big_endian, Nat.mod_eq_of_lt (by omega)]
    have hle : ¬ m + 1 > p := by omega
    rw [List.range'_succ, List.map_cons]
    simp only [BlockHeaderHashMap.load_loop, hread, hle, if_false, dif_pos (g (m + 1)).size_eq,
      MerkleTrie.insert]
    rw [ordered_put_range_append g m (by omega), ih (m + 1) (by omega) (by omega)]
    congr 3
    omega

theorem run_production_lmdb (calls : List (Nat × Hash)) :
    ∀ s, (run_production s calls).lmdb_instance = s.lmdb_instance := by
  induction calls with
  | nil => intro s; rfl
  | cons c calls ih =>
    intro s
    obtain ⟨n, h⟩ := c
    simp only [run_production]
    rw [ih]
    unfold BlockHeaderHashMap.insert_for_production
    split_ifs <;> rfl

theorem persist_load_core (s : BlockHeaderHashMap) (c : Nat) (hinv : ProductionInv s)
    (hclean : s.lmdb_instance = ⟨true, 0, []⟩) (h1 : 1 ≤ c)
    (h2 : c ≤ s.last_committed_block_number + 1) (h3 : c < 2 ^ 64) :
    s.persist_lmdb c
        = (.ok (), { s with lmdb_instance := ⟨true, c, (List.range' 1 (c - 1)).map
            (fun j => (write_unsigned_big_endian j, (block_hash_of s.block_map j).bytes))⟩ })
      ∧ (BlockHeaderHashMap.open_on (s.persist_lmdb c).2.lmdb_instance).load_lmdb_contents_to_memory
        = (.ok (), ⟨(List.range' 1 (c - 1)).map
            (fun j => (write_unsigned_big_endian j, block_hash_of s.block_map j)),
          ⟨true, c, (List.range' 1 (c - 1)).map
            (fun j => (write_unsigned_big_endian j, (block_hash_of s.block_map j).bytes))⟩,
          c⟩) := by
  obtain ⟨n, rfl⟩ : ∃ n, c = n + 1 := ⟨c - 1, by omega⟩
  have hbm : ∀ j, 1 ≤ j → j ≤ s.last_committed_block_number →
      s.block_map.get_value (write_unsigned_big_endian j)
        = some (block_hash_of s.block_map j) := by
    intro j g1 g2
    have := hinv.1.get_isSome g1 g2
    obtain ⟨v, hv⟩ := Option.isSome_iff_exists.1 this
    simp [block_hash_of, MerkleTrie.get_value, hv]
  have hloop := persist_loop_range s.block_map (block_hash_of s.block_map)
    s.last_committed_block_number hinv.2 hbm n 0 (by omega)
  have hpersist : s.persist_lmdb (n + 1)
      = (.ok (), { s with lmdb_instance := ⟨true, n + 1, (List.range' 1 (n + 1 - 1)).map
          (fun j => (write_unsigned_big_endian j, (block_hash_of s.block_map j).bytes))⟩ }) := by
    unfold BlockHeaderHashMap.persist_lmdb
    simp only [hclean, not_true_eq_false, if_false,
      BlockHeaderHashMapLMDB.get_persisted_round_number, Nat.sub_zero,
      BlockHeaderHashMap.persist_loop, if_true, BlockHeaderHashMapLMDB.commit_wtxn]
    simp only [Nat.zero_add, List.range'_zero, List.map_nil] at hloop
    rw [hloop]
    simp
  refine ⟨hpersist, ?_⟩
  rw [hpersist]
  have hload := load_loop_range (n + 1) (block_hash_of s.block_map) n 0 (by omega) (by omega)
  simp only [Nat.zero_add, List.range'_zero, List.map_nil] at hload
  unfold BlockHeaderHashMap.load_lmdb_contents_to_memory BlockHeaderHashMap.open_on
  simp only [BlockHeaderHashMapLMDB.get_persisted_round_number, Nat.add_sub_cancel, hload]

theorem persist_load_facts (calls : List (Nat × Hash)) (c : Nat) (h1 : 1 ≤ c)
    (h2 : c ≤ (run_production clean_start calls).last_committed_block_number + 1)
    (hc : c < 2 ^ 64) :
    ((run_production clean_start calls).persist_lmdb c).1 = .ok ()
      ∧ persist_then_load (run_production clean_start calls) c
        = (.ok (), ⟨(run_production clean_start calls).block_map.take (c - 1),
            ⟨true, c, (List.range' 1 (c - 1)).map (fun j => (write_unsigned_big_endian j,
              (block_hash_of (run_production clean_start calls).block_map j).bytes))⟩, c⟩)
      ∧ (run_production clean_start calls).block_map.take (c - 1)
        = (List.range' 1 (c - 1)).map (fun j => (write_unsigned_big_endian j,
            block_hash_of (run_production clean_start calls).block_map j)) := by
  have hinv : ProductionInv (run_production clean_start calls) :=
    run_production_inv calls clean_start ⟨rfl, by decide⟩
  have hclean : (run_production clean_start calls).lmdb_instance = ⟨true, 0, []⟩ := by
    rw [run_production_lmdb]; rfl
  obtain ⟨hp, hl⟩ := persist_load_core _ c hinv hclean h1 h2 hc
  have htake : (run_production clean_start calls).block_map.take (c - 1)
      = (List.range' 1 (c - 1)).map (fun j => (write_unsigned_big_endian j,
          block_hash_of (run_production clean_start calls).block_map j)) := by
    conv_lhs => rw [hinv.1.eq_map hinv.2]
    rw [← List.map_take, take_range'_of_le _ _ _ (by omega)]
  refine ⟨by rw [hp], ?_, htake⟩
  unfold persist_then_load
  rw [hl, htake]

/-- C7: persist/load round trip. For every state reached from a clean start by production
inserts and every `c` with `1 ≤ c ≤ last_committed + 1`, `persist_lmdb(c)` returns normally
and `load_lmdb_contents_to_memory()` on a freshly constructed map over the same store
returns normally with a trie that is the original trie restricted to the keys `1 … c - 1`:
its leaves are the first `c - 1` leaves of the original, with the same hashes, and nothing
else. Hence its root hash equals that of any replica whose trie holds exactly the blocks
`1 … c - 1` with those hashes. -/
theorem C7_persist_load_round_trip (calls : List (Nat × Hash)) (c : Nat) (h1 : 1 ≤ c)
    (h2 : c ≤ (run_production clean_start calls).last_committed_block_number + 1)
    (hc : c < 2 ^ 64) :
    ((run_production clean_start calls).persist_lmdb c).1 = .ok ()
      ∧ (persist_then_load (run_production clean_start calls) c).1 = .ok ()
      ∧ (persist_then_load (run_production clean_start calls) c).2.block_map
        = (run_production clean_start calls).block_map.take (c - 1)
      ∧ KeysUpTo (persist_then_load (run_production clean_start calls) c).2.block_map (c - 1)
      ∧ (∀ i, 1 ≤ i → i < c →
          (persist_then_load (run_production clean_start calls) c).2.block_map.get_value
              (write_unsigned_big_endian i)
            = (run_production clean_start calls).block_map.get_value
              (write_unsigned_big_endian i))
      ∧ (∀ (r : BlockHeaderHashMap) (merkle_root : TrieT → Hash),
          KeysUpTo r.block_map (c - 1) →
          (∀ i, 1 ≤ i → i < c →
            r.block_map.get_value (write_unsigned_big_endian i)
              = (run_production clean_start calls).block_map.get_value
                (write_unsigned_big_endian i)) →
          (persist_then_load (run_production clean_start calls) c).2.hash merkle_root
            = r.hash merkle_root) := by
  obtain ⟨hp, hl, htake⟩ := persist_load_facts calls c h1 h2 hc
  have hinv : ProductionInv (run_production clean_start calls) :=
    run_production_inv calls clean_start ⟨rfl, by decide⟩
  rw [hl]
  refine ⟨hp, rfl, rfl, ?_, ?_, ?_⟩
  · show KeysUpTo (List.take _ _) _
    rw [htake]
    exact KeysUpTo.of_map _ _
  · intro i g1 g2
    show MerkleTrie.get_value (List.take _ _) _ = _
    rw [htake]
    unfold MerkleTrie.get_value
    rw [ordered_get_range _ (c - 1) (by omega) i g1 (by omega)]
    have := hinv.1.get_isSome g1 (show i ≤ _ by omega)
    obtain ⟨v, hv⟩ := Option.isSome_iff_exists.1 this
    simp [block_hash_of, MerkleTrie.get_value, hv]
  · intro r merkle_root hr hsame
    show merkle_root (List.take _ _) = merkle_root r.block_map
    rw [htake, hr.eq_map (by omega)]
    congr 1
    apply List.map_congr_left
    intro j hj
    rw [List.mem_range'_1] at hj
    simp only [block_hash_of, hsame j hj.1 (by omega)]

/-- C7 at a concrete input: scenario S4. After `persist(3)` from S1 a fresh map loads
exactly the leaves of blocks 1 and 2. -/
theorem C7_witness_S4 :
    scenario_S1.last_committed_block_number = 3
      ∧ (persist_then_load scenario_S1 3).1 = .ok ()
      ∧ (persist_then_load scenario_S1 3).2.block_map
        = [(write_unsigned_big_endian 1, hashAA), (write_unsigned_big_endian 2, hashBB)] :=
  have h := C7_persist_load_round_trip
    [(0, zero_hash), (1, hashAA), (2, hashBB), (3, hashCC)] 3 (by decide) (by decide)
    (by decide)
  ⟨by decide, h.2.1, h.2.2.1.trans (by decide)⟩

/-- C8 (as stated, refuted): in scenario S4, after `persist(3)` from S1 and
`load_lmdb_contents_to_memory()` on a fresh map, the trie holds the leaves 1 and 2 but
`last_committed` is 3, the persisted round, and not 2; the trie keys are not
`1 … last_committed`. -/
theorem C8_counterexample_S4 :
    scenario_S4_loaded.block_map.keys
        = [write_unsigned_big_endian 1, write_unsigned_big_endian 2]
      ∧ scenario_S4_loaded.last_committed_block_number = 3
      ∧ scenario_S4_loaded.last_committed_block_number ≠ 3 - 1
      ∧ ¬ KeysUpTo scenario_S4_loaded.block_map
          scenario_S4_loaded.last_committed_block_number := by
  decide

/-- C8 (amended): after `persist_lmdb(c)` with `1 ≤ c ≤ last_committed + 1` on a state
produced from a clean start, followed by `load_lmdb_contents_to_memory()` on a fresh map,
`last_committed` equals the persisted round `c`, one above the highest loaded key `c - 1`:
the trie keys of the loaded state are exactly `1 … last_committed - 1`. -/
theorem C8_load_sets_last_committed_to_persisted_round (calls : List (Nat × Hash)) (c : Nat)
    (h1 : 1 ≤ c)
    (h2 : c ≤ (run_production clean_start calls).last_committed_block_number + 1)
    (hc : c < 2 ^ 64) :
    (persist_then_load (run_production clean_start calls) c).1 = .ok ()
      ∧ (persist_then_load (run_production clean_start calls) c).2.last_committed_block_number
        = c
      ∧ (persist_then_load (run_production clean_start calls) c).2.get_persisted_round_number
        = c
      ∧ KeysUpTo (persist_then_load (run_production clean_start calls) c).2.block_map
          ((persist_then_load (run_production clean_start calls)
            c).2.last_committed_block_number - 1) := by
  obtain ⟨_, hl, htake⟩ := persist_load_facts calls c h1 h2 hc
  rw [hl]
  refine ⟨rfl, rfl, rfl, ?_⟩
  show KeysUpTo (List.take _ _) _
  rw [htake]
  exact KeysUpTo.of_map _ _

/-- C8 (amended) at a concrete input: scenario S4 loads `last_committed = 3` with the
leaves of blocks 1 and 2. -/
theorem C8_witness_S4 :
    (persist_then_load scenario_S1 3).2.last_committed_block_number = 3
      ∧ KeysUpTo (persist_then_load scenario_S1 3).2.block_map 2 :=
  have h := C8_load_sets_last_committed_to_persisted_round
    [(0, zero_hash), (1, hashAA), (2, hashBB), (3, hashCC)] 3 (by decide) (by decide)
    (by decide)
  ⟨h.2.1, h.2.2.2⟩

/-! ## Finalisation, genesis and rollback of a validation -/

theorem write_big_endian_mod (n : Nat) :
    write_unsigned_big_endian (n % 2 ^ 64) = write_unsigned_big_endian n := by
  have h := be_bytes_mod 8 8 n le_rfl
  have e : (256 : Nat) ^ 8 = 2 ^ 64 := by norm_num
  rw [e] at h
  exact h

theorem ordered_erase_erase {V : Type} (t : List (List Nat × V)) (k : List Nat) :
    ordered_erase (ordered_erase t k) k = ordered_erase t k := by
  apply ordered_erase_of_not_mem
  rw [← ordered_get_isSome_iff, ordered_get_erase]
  simp

/-- C13: `finalize_validation(n)` throws "can't finalize prior block"
(CannotFinalizePrior) exactly when `n < last_committed`, and then the whole state is
unchanged; otherwise it returns normally, sets `last_committed = n` and leaves the trie
and the store as they were. -/
theorem C13_finalize_validation (s : BlockHeaderHashMap) (n : Nat) :
    ((s.finalize_validation n).1 = .error .CannotFinalizePrior
        ↔ n < s.last_committed_block_number)
      ∧ (n < s.last_committed_block_number → (s.finalize_validation n).2 = s)
      ∧ (¬ n < s.last_committed_block_number →
          (s.finalize_validation n).1 = .ok ()
          ∧ (s.finalize_validation n).2.last_committed_block_number = n
          ∧ (s.finalize_validation n).2.block_map = s.block_map
          ∧ (s.finalize_validation n).2.lmdb_instance = s.lmdb_instance) := by
  unfold BlockHeaderHashMap.finalize_validation
  by_cases h : n < s.last_committed_block_number
  · simp [h]
  · simp [h]

/-- C13 at a concrete input: on scenario S1 (`last_committed = 3`), `finalize_validation(2)`
throws and changes nothing, `finalize_validation(5)` sets `last_committed = 5`. -/
theorem C13_witness :
    scenario_S1.finalize_validation 2 = (.error .CannotFinalizePrior, scenario_S1)
      ∧ (scenario_S1.finalize_validation 5).1 = .ok ()
      ∧ (scenario_S1.finalize_validation 5).2.last_committed_block_number = 5 :=
  have h2 := C13_finalize_validation scenario_S1 2
  have h5 := (C13_finalize_validation scenario_S1 5).2.2 (by decide)
  ⟨Prod.ext (h2.1.2 (by decide)) (h2.2.1 (by decide)), h5.1, h5.2.1⟩

/-- C14: genesis boundary. `insert_for_production(0, h)` returns normally exactly when the
trie is empty, `last_committed = 0` and `h` is the all-zero hash; in every other case it
throws (InvalidGenesis); in all cases it adds no leaf and leaves the state unchanged.
`tentative_insert_for_validation(0, h)` throws in exactly the same cases and otherwise
returns true, again without changing the state. -/
theorem C14_genesis_boundary (s : BlockHeaderHashMap) (h : Hash) :
    ((s.insert_for_production 0 h).1 = .ok ()
        ↔ (s.block_map.size = 0 ∧ s.last_committed_block_number = 0 ∧ h = zero_hash))
      ∧ ((s.insert_for_production 0 h).1 ≠ .ok () →
          (s.insert_for_production 0 h).1 = .error .InvalidGenesis)
      ∧ (s.insert_for_production 0 h).2 = s
      ∧ ((s.tentative_insert_for_validation 0 h).1 = .ok true
        ↔ (s.block_map.size = 0 ∧ s.last_committed_block_number = 0 ∧ h = zero_hash))
      ∧ ((s.tentative_insert_for_validation 0 h).1 ≠ .ok true →
          (s.tentative_insert_for_validation 0 h).1 = .error .InvalidGenesis)
      ∧ (s.tentative_insert_for_validation 0 h).2 = s := by
  unfold BlockHeaderHashMap.insert_for_production
    BlockHeaderHashMap.tentative_insert_for_validation
  by_cases h1 : s.last_committed_block_number = 0
  · by_cases h2 : s.block_map.size = 0
    · by_cases h3 : h = zero_hash
      · simp [h1, h2, h3]
      · simp [h1, h2, h3]
    · simp [h1, h2]
  · simp [h1]

/-- C14 at concrete inputs: on a fresh map the zero hash is accepted at block 0 and a
nonzero hash is refused; on scenario S1, which is not empty, block 0 is refused. -/
theorem C14_witness :
    clean_start.insert_for_production 0 zero_hash = (.ok (), clean_start)
      ∧ clean_start.insert_for_production 0 hashAA = (.error .InvalidGenesis, clean_start)
      ∧ scenario_S1.insert_for_production 0 zero_hash = (.error .InvalidGenesis, scenario_S1)
      ∧ clean_start.tentative_insert_for_validation 0 zero_hash = (.ok true, clean_start)
      ∧ scenario_S1.tentative_insert_for_validation 0 zero_hash
        = (.error .InvalidGenesis, scenario_S1) :=
  have a := C14_genesis_boundary clean_start zero_hash
  have b := C14_genesis_boundary clean_start hashAA
  have c := C14_genesis_boundary scenario_S1 zero_hash
  ⟨Prod.ext (a.1.2 (by decide)) a.2.2.1,
    Prod.ext (b.2.1 (fun e => absurd (b.1.1 e) (by decide))) b.2.2.1,
    Prod.ext (c.2.1 (fun e => absurd (c.1.1 e) (by decide))) c.2.2.1,
    Prod.ext (a.2.2.2.1.2 (by decide)) a.2.2.2.2.2,
    Prod.ext (c.2.2.2.2.1 (fun e => absurd (c.2.2.2.1.1 e) (by decide))) c.2.2.2.2.2⟩

/-- C20: `rollback_validation()` has no failing outcome and is idempotent: after it the
key of `last_committed + 1` has no entry, every other key keeps its value,
`last_committed` and the store are unchanged, and applying it twice gives the same state
as applying it once. -/
theorem C20_rollback_validation_idempotent (s : BlockHeaderHashMap) :
    s.rollback_validation.block_map.get_value
        (write_unsigned_big_endian (s.last_committed_block_number + 1)) = none
      ∧ (∀ k, k ≠ write_unsigned_big_endian (s.last_committed_block_number + 1) →
          s.rollback_validation.block_map.get_value k = s.block_map.get_value k)
      ∧ s.rollback_validation.last_committed_block_number = s.last_committed_block_number
      ∧ s.rollback_validation.lmdb_instance = s.lmdb_instance
      ∧ s.rollback_validation.rollback_validation = s.rollback_validation := by
  have hs : s.rollback_validation = { s with
      block_map := ordered_erase s.block_map
        (write_unsigned_big_endian (s.last_committed_block_number + 1)) } := by
    unfold BlockHeaderHashMap.rollback_validation MerkleTrie.perform_deletion
    rw [write_big_endian_mod]
  refine ⟨?_, ?_, rfl, rfl, ?_⟩
  · rw [hs]
    simp [MerkleTrie.get_value, ordered_get_erase]
  · intro k hk
    rw [hs]
    simp [MerkleTrie.get_value, ordered_get_erase, hk]
  · simp only [BlockHeaderHashMap.rollback_validation, MerkleTrie.perform_deletion,
      ordered_erase_erase]

/-! ## Loading a store -/

theorem load_loop_outcome (p : Nat) :
    ∀ (data : List (List Nat × List Nat)) (t : TrieT),
      (∀ kv ∈ data, kv.2.length = 32) →
      ((BlockHeaderHashMap.load_loop p data t).1 = .error .CorruptDOS
          ↔ ∃ kv ∈ data, read_unsigned_big_endian kv.1 > p)
        ∧ ((BlockHeaderHashMap.load_loop p data t).1 = .ok ()
          ↔ ∀ kv ∈ data, read_unsigned_big_endian kv.1 ≤ p) := by
  intro data
  induction data with
  | nil => intro t _; simp [BlockHeaderHashMap.load_loop]
  | cons kv rest ih =>
    intro t h32
    obtain ⟨key, value⟩ := kv
    have hv : value.length = 32 := h32 (key, value) (List.mem_cons_self _ _)
    have hrest : ∀ kv ∈ rest, kv.2.length = 32 :=
      fun kv hkv => h32 kv (List.mem_cons_of_mem _ hkv)
    by_cases hgt : read_unsigned_big_endian key > p
    · simp only [BlockHeaderHashMap.load_loop, hgt, if_true]
      constructor
      · simp only [true_iff]
        exact ⟨(key, value), List.mem_cons_self _ _, hgt⟩
      · simp only [false_iff, reduceCtorEq]
        intro hall
        have := hall (key, value) (List.mem_cons_self _ _)
        simp only at this
        omega
    · simp only [BlockHeaderHashMap.load_loop, hgt, if_false, dif_pos hv]
      obtain ⟨ih1, ih2⟩ := ih (MerkleTrie.insert t
        (write_unsigned_big_endian (read_unsigned_big_endian key)) ⟨value, hv⟩) hrest
      rw [ih1, ih2]
      constructor
      · constructor
        · rintro ⟨kv, hkv, hk⟩
          exact ⟨kv, List.mem_cons_of_mem _ hkv, hk⟩
        · rintro ⟨kv, hkv, hk⟩
          rcases List.mem_cons.1 hkv with he | he
          · subst he; exact absurd hk hgt
          · exact ⟨kv, he, hk⟩
      · constructor
        · intro hall kv hkv
          rcases List.mem_cons.1 hkv with he | he
          · subst he; simp only; omega
          · exact hall kv he
        · intro hall kv hkv
          exact hall kv (List.mem_cons_of_mem _ hkv)

/-- C15 (as stated, refuted): a store whose values are all 32 bytes long and which holds
the key 3 while its persisted round counter is 3 is not refused:
`load_lmdb_contents_to_memory()` returns normally and the trie then holds key 3. -/
theorem C15_counterexample_key_at_round :
    (∀ kv ∈ store_key_at_round.data, kv.2.length = 32)
      ∧ (∃ kv ∈ store_key_at_round.data,
          read_unsigned_big_endian kv.1 ≥ store_key_at_round.get_persisted_round_number)
      ∧ (BlockHeaderHashMap.open_on store_key_at_round).load_lmdb_contents_to_memory.1
        = .ok ()
      ∧ (BlockHeaderHashMap.open_on
            store_key_at_round).load_lmdb_contents_to_memory.2.block_map.get_value
          (write_unsigned_big_endian 3) = some hashCC := by
  decide

/-- C15 (amended): for every store whose values are all 32 bytes long,
`load_lmdb_contents_to_memory()` throws "lmdb contains round idx beyond committed max"
(CorruptDOS) if and only if the store contains a key greater than `persisted_round()`;
otherwise, in particular when the largest key equals the persisted round counter, it
returns normally. -/
theorem C15_load_refuses_keys_above_persisted_round (s : BlockHeaderHashMap)
    (h32 : ∀ kv ∈ s.lmdb_instance.data, kv.2.length = 32) :
    (s.load_lmdb_contents_to_memory.1 = .error .CorruptDOS
        ↔ ∃ kv ∈ s.lmdb_instance.data,
            read_unsigned_big_endian kv.1 > s.get_persisted_round_number)
      ∧ (s.load_lmdb_contents_to_memory.1 = .ok ()
        ↔ ∀ kv ∈ s.lmdb_instance.data,
            read_unsigned_big_endian kv.1 ≤ s.get_persisted_round_number) := by
  have h := load_loop_outcome s.lmdb_instance.get_persisted_round_number
    s.lmdb_instance.data s.block_map h32
  have hfst : s.load_lmdb_contents_to_memory.1
      = (BlockHeaderHashMap.load_loop s.lmdb_instance.get_persisted_round_number
          s.lmdb_instance.data s.block_map).1 := by
    unfold BlockHeaderHashMap.load_lmdb_contents_to_memory
    generalize BlockHeaderHashMap.load_loop s.lmdb_instance.get_persisted_round_number
      s.lmdb_instance.data s.block_map = r
    obtain ⟨o, t⟩ := r
    cases o with
    | error e => rfl
    | ok u => rfl
  rw [hfst]
  exact h

/-- C15 (amended) at concrete inputs: with persisted round 3, the store with keys 1, 2, 4
is refused and the store with keys 1, 2, 3 is loaded. -/
theorem C15_witness :
    (BlockHeaderHashMap.open_on store_key_above_round).load_lmdb_contents_to_memory.1
        = .error .CorruptDOS
      ∧ (BlockHeaderHashMap.open_on store_key_at_round).load_lmdb_contents_to_memory.1
        = .ok () :=
  ⟨(C15_load_refuses_keys_above_persisted_round
      (BlockHeaderHashMap.open_on store_key_above_round) (by decide)).1.2 (by decide),
    (C15_load_refuses_keys_above_persisted_round
      (BlockHeaderHashMap.open_on store_key_at_round) (by decide)).2.2 (by decide)⟩

/-! ## Production path and validation path -/

theorem paths_agree_from :
    ∀ (hs : List Hash) (i : Nat) (sp sv : BlockHeaderHashMap),
      sp.block_map = sv.block_map → sp.last_committed_block_number + 1 = i →
      sv.last_committed_block_number = i → i + hs.length < 2 ^ 64 →
      ∃ sp' sv', production_from sp i hs = some sp' ∧ validation_from sv i hs = some sv'
        ∧ sp'.block_map = sv'.block_map
        ∧ sp'.last_committed_block_number + 1 = i + hs.length
        ∧ sv'.last_committed_block_number = i + hs.length := by
  intro hs
  induction hs with
  | nil =>
    intro i sp sv hmap hp hv _
    exact ⟨sp, sv, rfl, rfl, hmap, by simpa using hp, by simpa using hv⟩
  | cons h hs ih =>
    intro i sp sv hmap hp hv hlt
    simp only [List.length_cons] at hlt
    have hi0 : i ≠ 0 := by omega
    have hmod : ¬ i ≠ (sp.last_committed_block_number + 1) % 2 ^ 64 := by
      rw [hp, Nat.mod_eq_of_lt (by omega)]; simp
    have hprod : sp.insert_for_production i h = (.ok (), { sp with
        block_map := sp.block_map.insert (write_unsigned_big_endian i) h
        last_committed_block_number := i }) := by
      unfold BlockHeaderHashMap.insert_for_production
      rw [if_neg hi0, if_neg hmod]
    have hval : sv.tentative_insert_for_validation i h = (.ok true, { sv with
        block_map := sv.block_map.insert (write_unsigned_big_endian i) h }) := by
      unfold BlockHeaderHashMap.tentative_insert_for_validation
      rw [if_neg hi0, if_neg (not_not.mpr hv.symm)]
    have hfin : BlockHeaderHashMap.finalize_validation { sv with
        block_map := sv.block_map.insert (write_unsigned_big_endian i) h } (i + 1)
        = (.ok (), { sv with
            block_map := sv.block_map.insert (write_unsigned_big_endian i) h
            last_committed_block_number := i + 1 }) := by
      unfold BlockHeaderHashMap.finalize_validation
      rw [if_neg (by simp only [hv]; omega)]
    obtain ⟨sp', sv', h1, h2, h3, h4, h5⟩ := ih (i + 1)
      { sp with
        block_map := sp.block_map.insert (write_unsigned_big_endian i) h
        last_committed_block_number := i }
      { sv with
        block_map := sv.block_map.insert (write_unsigned_big_endian i) h
        last_committed_block_number := i + 1 }
      (by simp only [hmap]) rfl rfl (by omega)
    refine ⟨sp', sv', ?_, ?_, h3, ?_, ?_⟩
    · simp only [production_from, hprod]; exact h1
    · simp only [validation_from, hval, hfin]; exact h2
    · simp only [List.length_cons]; omega
    · simp only [List.length_cons]; omega

/-- C18: proposer and validator agree on the header chain. For hashes `h_1 … h_N`, the
production path (`insert_for_production(0, zero)`, then `insert_for_production(i, h_i)`
for `i = 1 … N`) runs without a throw, the validation path (for `i = 0 … N`:
`tentative_insert_for_validation(i, h_i)` with `h_0 = zero`, followed by
`finalize_validation(i + 1)`) runs with every tentative insert returning true, and the
two maps end with identical trie contents, hence identical root hashes. (Their
`last_committed` counters end at `N` and `N + 1`.) -/
theorem C18_production_and_validation_agree (hs : List Hash) (hN : hs.length + 1 < 2 ^ 64) :
    ∃ sp sv, production_path hs = some sp ∧ validation_path hs = some sv
      ∧ sp.block_map = sv.block_map
      ∧ (∀ merkle_root : TrieT → Hash, sp.hash merkle_root = sv.hash merkle_root)
      ∧ sp.last_committed_block_number = hs.length
      ∧ sv.last_committed_block_number = hs.length + 1 := by
  obtain ⟨sp, sv, h1, h2, h3, h4, h5⟩ := paths_agree_from hs 1 clean_start
    { clean_start with last_committed_block_number := 1 } rfl rfl rfl (by omega)
  refine ⟨sp, sv, ?_, ?_, h3, ?_, by omega, by omega⟩
  · have hg : clean_start.insert_for_production 0 zero_hash = (.ok (), clean_start) := by
      decide
    simp only [production_path, production_from, hg]
    exact h1
  · have hg : clean_start.tentative_insert_for_validation 0 zero_hash
        = (.ok true, clean_start) := by decide
    have hf : clean_start.finalize_validation (0 + 1)
        = (.ok (), { clean_start with last_committed_block_number := 1 }) := by decide
    simp only [validation_path, validation_from, hg, hf]
    exact h2
  · intro merkle_root
    simp only [BlockHeaderHashMap.hash, h3]

/-- C18 at a concrete input: for the hashes `AA, BB, CC` both paths end with the trie
`1 ↦ AA, 2 ↦ BB, 3 ↦ CC`. -/
theorem C18_witness :
    (production_path [hashAA, hashBB, hashCC]).map (fun s => s.block_map)
        = some [(write_unsigned_big_endian 1, hashAA), (write_unsigned_big_endian 2, hashBB),
            (write_unsigned_big_endian 3, hashCC)]
      ∧ ∃ sp sv, production_path [hashAA, hashBB, hashCC] = some sp
          ∧ validation_path [hashAA, hashBB, hashCC] = some sv
          ∧ sp.block_map = sv.block_map :=
  ⟨by decide,
    (C18_production_and_validation_agree [hashAA, hashBB, hashCC] (by decide)).elim
      fun sp h => h.elim fun sv h' => ⟨sp, sv, h'.1, h'.2.1, h'.2.2.1⟩⟩

/-! ## Invariants over all operations -/

theorem rollback_loop_ok_keys (lc : Nat) (hlc : lc < 2 ^ 64) :
    ∀ (fuel i : Nat) (t t' : TrieT), i < 2 ^ 64 →
      BlockHeaderHashMap.rollback_loop lc fuel i t = some (.ok (), t') →
      ∀ k, (ordered_get t' k).isSome = true →
        (ordered_get t k).isSome = true
          ∧ ∀ j, i ≤ j → j ≤ lc → j ≠ 0 → k ≠ write_unsigned_big_endian j := by
  intro fuel
  induction fuel with
  | zero => intro i t t' _ h; simp [BlockHeaderHashMap.rollback_loop] at h
  | succ fuel ih =>
    intro i t t' hi h k hk
    by_cases hle : i ≤ lc
    · by_cases h0 : i = 0
      · subst h0
        simp only [BlockHeaderHashMap.rollback_loop, hle, if_true] at h
        have hnext : (0 + 1) % 2 ^ 64 = 1 := by norm_num
        rw [hnext] at h
        obtain ⟨a, b⟩ := ih 1 t t' (by norm_num) h k hk
        exact ⟨a, fun j h1 h2 h3 => b j (by omega) h2 h3⟩
      · simp only [BlockHeaderHashMap.rollback_loop, hle, if_true, h0, if_false,
          MerkleTrie.perform_deletion] at h
        cases hfound : (ordered_get t (write_unsigned_big_endian i)).isSome with
        | false => rw [hfound] at h; simp at h
        | true =>
          rw [hfound] at h
          simp only at h
          obtain ⟨a, b⟩ := ih ((i + 1) % 2 ^ 64) _ t' (Nat.mod_lt _ (by norm_num)) h k hk
          rw [ordered_get_erase] at a
          by_cases hki : k = write_unsigned_big_endian i
          · rw [if_pos hki] at a; simp at a
          · rw [if_neg hki] at a
            refine ⟨a, fun j h1 h2 h3 => ?_⟩
            by_cases hji : j = i
            · subst hji; exact hki
            · have hnext : (i + 1) % 2 ^ 64 = i + 1 := Nat.mod_eq_of_lt (by omega)
              rw [hnext] at b
              exact b j (by omega) h2 h3
    · simp only [BlockHeaderHashMap.rollback_loop, hle, if_false, Option.some.injEq,
        Prod.mk.injEq, true_and] at h
      subst h
      exact ⟨hk, fun j h1 h2 => by omega⟩

theorem persist_loop_ok_keys (bm : TrieT) :
    ∀ (n i : Nat) (wtx wtx' : List (List Nat × List Nat)),
      BlockHeaderHashMap.persist_loop bm n i wtx = .ok wtx' →
      ∀ j, i ≤ j → j < i + n → j ≠ 0 →
        (bm.get_value (write_unsigned_big_endian j)).isSome = true := by
  intro n
  induction n with
  | zero => intro i wtx wtx' _ j h1 h2; omega
  | succ n ih =>
    intro i wtx wtx' h j h1 h2 h3
    by_cases h0 : i = 0
    · subst h0
      simp only [BlockHeaderHashMap.persist_loop, if_true] at h
      exact ih _ wtx wtx' h j (by omega) (by omega) h3
    · simp only [BlockHeaderHashMap.persist_loop, h0, if_false] at h
      cases hg : bm.get_value (write_unsigned_big_endian i) with
      | none => rw [hg] at h; simp at h
      | some hash =>
        rw [hg] at h
        simp only at h
        by_cases hji : j = i
        · subst hji; rw [hg]; rfl
        · exact ih _ _ wtx' h j (by omega) (by omega) h3

theorem persist_lmdb_ok (s s' : BlockHeaderHashMap) (c : Nat)
    (h : s.persist_lmdb c = (.ok (), s')) :
    s' = s
      ∨ ∃ wtx, BlockHeaderHashMap.persist_loop s.block_map
            (c - s.lmdb_instance.persisted_round_number)
            s.lmdb_instance.persisted_round_number s.lmdb_instance.data = .ok wtx
          ∧ s' = { s with lmdb_instance := s.lmdb_instance.commit_wtxn wtx c } := by
  unfold BlockHeaderHashMap.persist_lmdb at h
  by_cases ho : s.lmdb_instance.env_open = true
  · rw [if_neg (not_not.mpr ho)] at h
    simp only [BlockHeaderHashMapLMDB.get_persisted_round_number] at h
    cases hl : BlockHeaderHashMap.persist_loop s.block_map
        (c - s.lmdb_instance.persisted_round_number)
        s.lmdb_instance.persisted_round_number s.lmdb_instance.data with
    | error e => rw [hl] at h; simp at h
    | ok wtx =>
      rw [hl] at h
      simp only [Prod.mk.injEq, true_and] at h
      exact Or.inr ⟨wtx, rfl, h.symm⟩
  · rw [if_pos ho] at h
    simp only [Prod.mk.injEq, true_and] at h
    exact Or.inl h.symm

theorem insert_for_production_ok (s s' : BlockHeaderHashMap) (n : Nat) (h : Hash)
    (hrun : s.insert_for_production n h = (.ok (), s')) :
    s' = s
      ∨ (n ≠ 0 ∧ n = (s.last_committed_block_number + 1) % 2 ^ 64
        ∧ s' = { s with
            block_map := s.block_map.insert (write_unsigned_big_endian n) h
            last_committed_block_number := n }) := by
  unfold BlockHeaderHashMap.insert_for_production at hrun
  by_cases h1 : n = 0
  · rw [if_pos h1] at hrun
    by_cases h2 : s.last_committed_block_number ≠ 0 ∨ s.block_map.size ≠ 0
    · rw [if_pos h2] at hrun; simp at hrun
    · rw [if_neg h2] at hrun
      by_cases h3 : h ≠ zero_hash
      · rw [if_pos h3] at hrun; simp at hrun
      · rw [if_neg h3] at hrun
        simp only [Prod.mk.injEq, true_and] at hrun
        exact Or.inl hrun.symm
  · rw [if_neg h1] at hrun
    by_cases h4 : n ≠ (s.last_committed_block_number + 1) % 2 ^ 64
    · rw [if_pos h4] at hrun; simp at hrun
    · rw [if_neg h4] at hrun
      simp only [Prod.mk.injEq, true_and] at hrun
      exact Or.inr ⟨h1, not_not.mp h4, hrun.symm⟩

theorem tentative_insert_ok (s s' : BlockHeaderHashMap) (n : Nat) (h : Hash) (b : Bool)
    (hrun : s.tentative_insert_for_validation n h = (.ok b, s')) :
    s' = s
      ∨ (n ≠ 0 ∧ n = s.last_committed_block_number
        ∧ s' = { s with block_map := s.block_map.insert (write_unsigned_big_endian n) h }) := by
  unfold BlockHeaderHashMap.tentative_insert_for_validation at hrun
  by_cases h1 : n = 0
  · rw [if_pos h1] at hrun
    by_cases h2 : s.last_committed_block_number ≠ 0 ∨ s.block_map.size ≠ 0
    · rw [if_pos h2] at hrun; simp at hrun
    · rw [if_neg h2] at hrun
      by_cases h3 : h ≠ zero_hash
      · rw [if_pos h3] at hrun; simp at hrun
      · rw [if_neg h3] at hrun
        simp only [Prod.mk.injEq] at hrun
        exact Or.inl hrun.2.symm
  · rw [if_neg h1] at hrun
    by_cases h4 : n ≠ s.last_committed_block_number
    · rw [if_pos h4] at hrun
      simp only [Prod.mk.injEq] at hrun
      exact Or.inl hrun.2.symm
    · rw [if_neg h4] at hrun
      simp only [Prod.mk.injEq] at hrun
      exact Or.inr ⟨h1, not_not.mp h4, hrun.2.symm⟩

theorem finalize_validation_ok (s s' : BlockHeaderHashMap) (n : Nat)
    (hrun : s.finalize_validation n = (.ok (), s')) :
    s.last_committed_block_number ≤ n ∧ s' = { s with last_committed_block_number := n } := by
  unfold BlockHeaderHashMap.finalize_validation at hrun
  by_cases h1 : n < s.last_committed_block_number
  · rw [if_pos h1] at hrun; simp at hrun
  · rw [if_neg h1] at hrun
    simp only [Prod.mk.injEq, true_and] at hrun
    exact ⟨by omega, hrun.symm⟩

theorem rollback_to_committed_round_ok (s s' : BlockHeaderHashMap) (c : Nat)
    (hrun : s.rollback_to_committed_round c = some (.ok (), s')) :
    s.get_persisted_round_number ≤ c
      ∧ ∃ t, BlockHeaderHashMap.rollback_loop s.last_committed_block_number (2 ^ 64 + 2) c
            s.block_map = some (.ok (), t)
          ∧ s' = { s with
              block_map := t
              last_committed_block_number := if c = 0 then 0 else c - 1 } := by
  unfold BlockHeaderHashMap.rollback_to_committed_round at hrun
  by_cases h1 : c < s.lmdb_instance.get_persisted_round_number
  · rw [if_pos h1] at hrun; simp at hrun
  · rw [if_neg h1] at hrun
    refine ⟨Nat.le_of_not_lt h1, ?_⟩
    cases hl : BlockHeaderHashMap.rollback_loop s.last_committed_block_number (2 ^ 64 + 2) c
        s.block_map with
    | none => rw [hl] at hrun; simp at hrun
    | some pr =>
      obtain ⟨o, t⟩ := pr
      rw [hl] at hrun
      cases o with
      | error e => simp at hrun
      | ok u =>
        simp only [Option.some.injEq, Prod.mk.injEq, true_and] at hrun
        exact ⟨t, rfl, hrun.symm⟩

/-- What `MapCall.run` returning a state says about the call, operation by operation. -/
theorem MapCall.run_cases (s s' : BlockHeaderHashMap) (c : MapCall) (hrun : c.run s = some s') :
    match c with
    | .insert_for_production n h => s.insert_for_production n h = (.ok (), s')
    | .tentative_insert_for_validation n h =>
      ∃ b, s.tentative_insert_for_validation n h = (.ok b, s')
    | .rollback_validation => s' = s.rollback_validation
    | .finalize_validation n => s.finalize_validation n = (.ok (), s')
    | .rollback_to_committed_round c => s.rollback_to_committed_round c = some (.ok (), s')
    | .persist_lmdb c => s.persist_lmdb c = (.ok (), s') := by
  cases c with
  | insert_for_production n h =>
    simp only [MapCall.run] at hrun ⊢
    generalize s.insert_for_production n h = r at hrun
    obtain ⟨o, s1⟩ := r
    cases o with
    | error e => simp at hrun
    | ok u => simp only [Option.some.injEq] at hrun; rw [hrun]
  | tentative_insert_for_validation n h =>
    simp only [MapCall.run] at hrun ⊢
    generalize s.tentative_insert_for_validation n h = r at hrun
    obtain ⟨o, s1⟩ := r
    cases o with
    | error e => simp at hrun
    | ok b => simp only [Option.some.injEq] at hrun; rw [hrun]; exact ⟨b, rfl⟩
  | rollback_validation =>
    simp only [MapCall.run, Option.some.injEq] at hrun ⊢
    exact hrun.symm
  | finalize_validation n =>
    simp only [MapCall.run] at hrun ⊢
    generalize s.finalize_validation n = r at hrun
    obtain ⟨o, s1⟩ := r
    cases o with
    | error e => simp at hrun
    | ok u => simp only [Option.some.injEq] at hrun; rw [hrun]
  | rollback_to_committed_round c =>
    simp only [MapCall.run] at hrun ⊢
    generalize s.rollback_to_committed_round c = r at hrun
    cases r with
    | none => simp at hrun
    | some pr =>
      obtain ⟨o, s1⟩ := pr
      cases o with
      | error e => simp at hrun
      | ok u => simp only [Option.some.injEq] at hrun; rw [hrun]
  | persist_lmdb c =>
    simp only [MapCall.run] at hrun ⊢
    generalize s.persist_lmdb c = r at hrun
    obtain ⟨o, s1⟩ := r
    cases o with
    | error e => simp at hrun
    | ok u => simp only [Option.some.injEq] at hrun; rw [hrun]

theorem MapCall.run_round_inv (s s' : BlockHeaderHashMap) (c : MapCall)
    (hc : c.number < 2 ^ 64) (hinv : RoundInv s) (hrun : c.run s = some s') :
    RoundInv s' := by
  obtain ⟨hlc, hp, hkeys⟩ := hinv
  have hp' : s.lmdb_instance.persisted_round_number
      ≤ s.last_committed_block_number + 1 := hp
  have hcases := MapCall.run_cases s s' c hrun
  cases c with
  | insert_for_production n h =>
    have hn64 : n < 2 ^ 64 := hc
    rcases insert_for_production_ok s s' n h hcases with rfl | ⟨h1, h4, rfl⟩
    · exact ⟨hlc, hp, hkeys⟩
    · have hn : n = s.last_committed_block_number + 1 := by
        by_cases hw : s.last_committed_block_number + 1 = 2 ^ 64
        · rw [hw] at h4; simp at h4; exact absurd h4 h1
        · rw [Nat.mod_eq_of_lt (by omega)] at h4; exact h4
      refine ⟨hn64, ?_, ?_⟩
      · show s.lmdb_instance.persisted_round_number ≤ n + 1
        omega
      · intro k hk
        simp only [MerkleTrie.insert, MerkleTrie.get_value, ordered_get_put] at hk
        by_cases hkn : k = write_unsigned_big_endian n
        · exact ⟨n, by omega, le_rfl, hkn⟩
        · rw [if_neg hkn] at hk
          obtain ⟨i, g1, g2, g3⟩ := hkeys k hk
          exact ⟨i, g1, by show i ≤ n; omega, g3⟩
  | tentative_insert_for_validation n h =>
    obtain ⟨b, hb⟩ := hcases
    rcases tentative_insert_ok s s' n h b hb with rfl | ⟨h1, h4, rfl⟩
    · exact ⟨hlc, hp, hkeys⟩
    · refine ⟨hlc, hp, ?_⟩
      intro k hk
      simp only [MerkleTrie.insert, MerkleTrie.get_value, ordered_get_put] at hk
      by_cases hkn : k = write_unsigned_big_endian n
      · exact ⟨n, by omega, by show n ≤ s.last_committed_block_number; omega, hkn⟩
      · rw [if_neg hkn] at hk
        exact hkeys k hk
  | rollback_validation =>
    simp only at hcases
    subst hcases
    refine ⟨hlc, hp, ?_⟩
    intro k hk
    simp only [BlockHeaderHashMap.rollback_validation, MerkleTrie.perform_deletion,
      MerkleTrie.get_value, ordered_get_erase] at hk
    split_ifs at hk with hkk
    · simp at hk
    · exact hkeys k hk
  | finalize_validation n =>
    have hn64 : n < 2 ^ 64 := hc
    obtain ⟨hle, rfl⟩ := finalize_validation_ok s s' n hcases
    refine ⟨hn64, ?_, ?_⟩
    · show s.lmdb_instance.persisted_round_number ≤ n + 1
      omega
    · intro k hk
      obtain ⟨i, g1, g2, g3⟩ := hkeys k hk
      exact ⟨i, g1, by show i ≤ n; omega, g3⟩
  | rollback_to_committed_round c =>
    have hc' : c < 2 ^ 64 := hc
    obtain ⟨hpc, t, hl, rfl⟩ := rollback_to_committed_round_ok s s' c hcases
    have hpc' : s.lmdb_instance.persisted_round_number ≤ c := hpc
    have hsub := rollback_loop_ok_keys s.last_committed_block_number hlc (2 ^ 64 + 2) c
      s.block_map t hc' hl
    refine ⟨?_, ?_, ?_⟩
    · show (if c = 0 then 0 else c - 1) < 2 ^ 64
      split_ifs <;> omega
    · show s.lmdb_instance.persisted_round_number ≤ (if c = 0 then 0 else c - 1) + 1
      split_ifs <;> omega
    · intro k hk
      obtain ⟨a, b⟩ := hsub k hk
      obtain ⟨i, g1, g2, g3⟩ := hkeys k a
      have hic : i < c := by
        by_contra hge
        exact b i (by omega) g2 (by omega) g3
      refine ⟨i, g1, ?_, g3⟩
      show i ≤ (if c = 0 then 0 else c - 1)
      split_ifs <;> omega
  | persist_lmdb c =>
    have hc' : c < 2 ^ 64 := hc
    rcases persist_lmdb_ok s s' c hcases with rfl | ⟨wtx, hloop, rfl⟩
    · exact ⟨hlc, hp, hkeys⟩
    · refine ⟨hlc, ?_, hkeys⟩
      show c ≤ s.last_committed_block_number + 1
      by_cases hcp : c ≤ s.lmdb_instance.persisted_round_number
      · omega
      · by_cases hc1 : c = 1
        · omega
        · have hfound := persist_loop_ok_keys s.block_map _ _ _ _ hloop (c - 1) (by omega)
            (by omega) (by omega)
          obtain ⟨i, g1, g2, g3⟩ := hkeys _ hfound
          have := write_big_endian_injective (by omega) (by omega) g3
          omega

theorem run_map_calls_round_inv :
    ∀ (calls : List MapCall) (s s' : BlockHeaderHashMap),
      (∀ c ∈ calls, c.number < 2 ^ 64) → RoundInv s → run_map_calls s calls = some s' →
      RoundInv s' := by
  intro calls
  induction calls with
  | nil =>
    intro s s' _ hinv hrun
    simp only [run_map_calls, Option.some.injEq] at hrun
    subst hrun
    exact hinv
  | cons c cs ih =>
    intro s s' hargs hinv hrun
    simp only [run_map_calls] at hrun
    cases hstep : c.run s with
    | none => rw [hstep] at hrun; simp at hrun
    | some s1 =>
      rw [hstep] at hrun
      exact ih s1 s' (fun c' hc' => hargs c' (List.mem_cons_of_mem _ hc'))
        (MapCall.run_round_inv s s1 c (hargs c (List.mem_cons_self _ _)) hinv hstep) hrun

/-- C16: in every state reached from a clean start (empty trie, `last_committed = 0`,
empty store with persisted round 0) by a sequence of calls of `insert_for_production`,
`tentative_insert_for_validation`, `rollback_validation`, `finalize_validation`,
`rollback_to_committed_round` and `persist_lmdb` that all return normally,
`persisted_round() ≤ last_committed + 1` holds over the natural numbers. The arguments of
the calls are `uint64_t` values. -/
theorem C16_persisted_round_at_most_next_block (calls : List MapCall)
    (s : BlockHeaderHashMap) (hargs : ∀ c ∈ calls, c.number < 2 ^ 64)
    (hrun : run_map_calls clean_start calls = some s) :
    s.get_persisted_round_number ≤ s.last_committed_block_number + 1 := by
  have h0 : RoundInv clean_start := by
    refine ⟨by decide, by decide, ?_⟩
    intro k hk
    simp [clean_start, BlockHeaderHashMap.open_on, MerkleTrie.get_value, ordered_get] at hk
  exact (run_map_calls_round_inv calls clean_start s hargs h0 hrun).2.1

/-- C16 at a concrete input: the run `calls_mixed` over all six operations returns
normally and ends with `persisted_round = 3 ≤ last_committed + 1 = 4`. -/
theorem C16_witness :
    run_map_calls clean_start calls_mixed = some state_after_mixed
      ∧ state_after_mixed.get_persisted_round_number = 3
      ∧ state_after_mixed.last_committed_block_number = 3
      ∧ state_after_mixed.get_persisted_round_number
        ≤ state_after_mixed.last_committed_block_number + 1 :=
  ⟨by decide, by decide, by decide,
    C16_persisted_round_at_most_next_block calls_mixed state_after_mixed (by decide)
      (by decide)⟩

/-! ## Layout of the persisted table -/

theorem ordered_put_keys_next {V : Type} (t : List (List Nat × V)) (m : Nat)
    (h : t.map Prod.fst = (List.range' 1 m).map write_unsigned_big_endian)
    (hm : m + 1 < 2 ^ 64) (v : V) :
    (ordered_put t (write_unsigned_big_endian (m + 1)) v).map Prod.fst
      = (List.range' 1 (m + 1)).map write_unsigned_big_endian := by
  rw [ordered_put_append, List.map_append, h, List.range'_1_concat, List.map_append,
    Nat.add_comm 1 m]
  · rfl
  · intro p hp
    have hk : p.1 ∈ t.map Prod.fst := List.mem_map_of_mem _ hp
    rw [h, mem_range_keys] at hk
    obtain ⟨i, h1, h2, hi⟩ := hk
    rw [hi]
    refine ⟨fun e => ?_, write_big_endian_not_lt (by omega) hm⟩
    have := write_big_endian_injective (by omega) hm e
    omega

theorem persist_loop_ok_table (bm : TrieT) :
    ∀ (n i : Nat) (wtx wtx' : List (List Nat × List Nat)),
      BlockHeaderHashMap.persist_loop bm n i wtx = .ok wtx' →
      wtx.map Prod.fst = (List.range' 1 (i - 1)).map write_unsigned_big_endian →
      i + n ≤ 2 ^ 64 →
      wtx'.map Prod.fst = (List.range' 1 (i + n - 1)).map write_unsigned_big_endian := by
  intro n
  induction n with
  | zero =>
    intro i wtx wtx' h hk _
    simp only [BlockHeaderHashMap.persist_loop, Except.ok.injEq] at h
    subst h
    exact hk
  | succ n ih =>
    intro i wtx wtx' h hk hle
    by_cases h0 : i = 0
    · subst h0
      simp only [BlockHeaderHashMap.persist_loop, if_true] at h
      have := ih (0 + 1) wtx wtx' h hk (by omega)
      rw [this]
      congr 2
      omega
    · simp only [BlockHeaderHashMap.persist_loop, h0, if_false] at h
      cases hg : bm.get_value (write_unsigned_big_endian i) with
      | none => rw [hg] at h; simp at h
      | some hash =>
        rw [hg] at h
        simp only at h
        obtain ⟨m, rfl⟩ : ∃ m, i = m + 1 := ⟨i - 1, by omega⟩
        have hnext := ordered_put_keys_next wtx m hk (by omega) hash.bytes
        have := ih (m + 1 + 1) _ wtx' h hnext (by omega)
        rw [this]
        congr 2
        omega

theorem MapCall.run_store_layout (s s' : BlockHeaderHashMap) (c : MapCall)
    (hc : c.number < 2 ^ 64)
    (hinv : StoreKeysBelowRound s ∧ s.get_persisted_round_number < 2 ^ 64)
    (hfwd : c.persists_forward s = true) (hrun : c.run s = some s') :
    StoreKeysBelowRound s' ∧ s'.get_persisted_round_number < 2 ^ 64 := by
  have hcases := MapCall.run_cases s s' c hrun
  have hsame : ∀ s1 : BlockHeaderHashMap, s1.lmdb_instance = s.lmdb_instance →
      StoreKeysBelowRound s1 ∧ s1.get_persisted_round_number < 2 ^ 64 := by
    intro s1 h1
    unfold StoreKeysBelowRound BlockHeaderHashMap.get_persisted_round_number
    rw [h1]
    exact hinv
  cases c with
  | insert_for_production n h =>
    rcases insert_for_production_ok s s' n h hcases with rfl | ⟨_, _, rfl⟩
    · exact hinv
    · exact hsame _ rfl
  | tentative_insert_for_validation n h =>
    obtain ⟨b, hb⟩ := hcases
    rcases tentative_insert_ok s s' n h b hb with rfl | ⟨_, _, rfl⟩
    · exact hinv
    · exact hsame _ rfl
  | rollback_validation =>
    simp only at hcases
    subst hcases
    exact hsame _ rfl
  | finalize_validation n =>
    obtain ⟨_, rfl⟩ := finalize_validation_ok s s' n hcases
    exact hsame _ rfl
  | rollback_to_committed_round c =>
    obtain ⟨_, t, _, rfl⟩ := rollback_to_committed_round_ok s s' c hcases
    exact hsame _ rfl
  | persist_lmdb c =>
    have hc' : c < 2 ^ 64 := hc
    have hpc : s.lmdb_instance.persisted_round_number ≤ c := by
      simpa [MapCall.persists_forward, BlockHeaderHashMap.get_persisted_round_number,
        BlockHeaderHashMapLMDB.get_persisted_round_number] using hfwd
    rcases persist_lmdb_ok s s' c hcases with rfl | ⟨wtx, hloop, rfl⟩
    · exact hinv
    · have hk := persist_loop_ok_table s.block_map _ _ _ wtx hloop hinv.1 (by omega)
      refine ⟨?_, hc'⟩
      unfold StoreKeysBelowRound
      show wtx.map Prod.fst = (List.range' 1 (c - 1)).map write_unsigned_big_endian
      rw [hk]
      congr 2
      omega

theorem run_map_calls_forward_store_layout :
    ∀ (calls : List MapCall) (s s' : BlockHeaderHashMap),
      (∀ c ∈ calls, c.number < 2 ^ 64) →
      StoreKeysBelowRound s ∧ s.get_persisted_round_number < 2 ^ 64 →
      run_map_calls_forward s calls = some s' →
      StoreKeysBelowRound s' ∧ s'.get_persisted_round_number < 2 ^ 64 := by
  intro calls
  induction calls with
  | nil =>
    intro s s' _ hinv hrun
    simp only [run_map_calls_forward, Option.some.injEq] at hrun
    subst hrun
    exact hinv
  | cons c cs ih =>
    intro s s' hargs hinv hrun
    simp only [run_map_calls_forward] at hrun
    by_cases hfwd : c.persists_forward s = true
    · rw [if_pos hfwd] at hrun
      cases hstep : c.run s with
      | none => rw [hstep] at hrun; simp at hrun
      | some s1 =>
        rw [hstep] at hrun
        exact ih s1 s' (fun c' hc' => hargs c' (List.mem_cons_of_mem _ hc'))
          (MapCall.run_store_layout s s1 c (hargs c (List.mem_cons_self _ _)) hinv hfwd hstep)
          hrun
    · rw [if_neg hfwd] at hrun
      simp at hrun

/-- C17 (as stated, refuted): the run S1, `persist_lmdb(3)`, `persist_lmdb(1)` from a clean
start returns normally in every call and ends with persisted round 1 while the table still
holds the keys 1 and 2: a stored key is not below the persisted round counter, and the
stored keys are not `1 … persisted_round - 1`. -/
theorem C17_counterexample_persist_backward :
    run_map_calls clean_start calls_persist_backward = some state_after_persist_backward
      ∧ state_after_persist_backward.get_persisted_round_number = 1
      ∧ state_after_persist_backward.lmdb_instance.data.map Prod.fst
        = [write_unsigned_big_endian 1, write_unsigned_big_endian 2]
      ∧ (∃ kv ∈ state_after_persist_backward.lmdb_instance.data,
          ¬ read_unsigned_big_endian kv.1
            < state_after_persist_backward.get_persisted_round_number)
      ∧ ¬ StoreKeysBelowRound state_after_persist_backward := by
  decide

/-- C17 (amended): in every state reached from a clean start (empty store, persisted
round 0) by a sequence of map operations that return normally and in which no
`persist_lmdb(c)` call has `c` below the persisted round at the time of the call, every key
in the store is strictly less than the persisted round counter and the stored keys are
exactly `1 … persisted_round - 1`. The arguments of the calls are `uint64_t` values. -/
theorem C17_store_layout_when_persisting_forward (calls : List MapCall)
    (s : BlockHeaderHashMap) (hargs : ∀ c ∈ calls, c.number < 2 ^ 64)
    (hrun : run_map_calls_forward clean_start calls = some s) :
    StoreKeysBelowRound s
      ∧ ∀ kv ∈ s.lmdb_instance.data,
          read_unsigned_big_endian kv.1 < s.get_persisted_round_number := by
  obtain ⟨hk, hp⟩ := run_map_calls_forward_store_layout calls clean_start s hargs
    ⟨by decide, by decide⟩ hrun
  refine ⟨hk, ?_⟩
  intro kv hkv
  have hmem : kv.1 ∈ s.lmdb_instance.data.map Prod.fst := List.mem_map_of_mem _ hkv
  unfold StoreKeysBelowRound at hk
  rw [hk, mem_range_keys] at hmem
  obtain ⟨i, h1, h2, h3⟩ := hmem
  rw [h3, read_write_big_endian, Nat.mod_eq_of_lt (by omega)]
  omega

/-- C17 (amended) at a concrete input: the run `calls_mixed`, whose two persists go
forward (rounds 2 and 3), ends with persisted round 3 and exactly the keys 1 and 2 in the
store. -/
theorem C17_witness :
    run_map_calls_forward clean_start calls_mixed = some state_after_mixed
      ∧ state_after_mixed.get_persisted_round_number = 3
      ∧ state_after_mixed.lmdb_instance.data.map Prod.fst
        = [write_unsigned_big_endian 1, write_unsigned_big_endian 2]
      ∧ StoreKeysBelowRound state_after_mixed :=
  ⟨by decide, by decide, by decide,
    (C17_store_layout_when_persisting_forward calls_mixed state_after_mixed (by decide)
      (by decide)).1⟩

/-! ## Rewinding at and above the head -/

theorem rollback_loop_exit (lc fuel i : Nat) (t : TrieT) (h : ¬ i ≤ lc) :
    BlockHeaderHashMap.rollback_loop lc (fuel + 1) i t = some (.ok (), t) := by
  rw [BlockHeaderHashMap.rollback_loop, if_neg h]

theorem rollback_without_iteration (s : BlockHeaderHashMap) (c : Nat)
    (hp : s.get_persisted_round_number ≤ c) (hgt : s.last_committed_block_number < c) :
    s.rollback_to_committed_round c
      = some (.ok (), { s with last_committed_block_number := c - 1 }) := by
  have hp' : ¬ c < s.lmdb_instance.get_persisted_round_number := Nat.not_lt.mpr hp
  have hloop : BlockHeaderHashMap.rollback_loop s.last_committed_block_number (2 ^ 64 + 2) c
      s.block_map = some (.ok (), s.block_map) :=
    rollback_loop_exit s.last_committed_block_number (2 ^ 64 + 1) c s.block_map
      (Nat.not_le.mpr hgt)
  have hc0 : ¬ c = 0 := by omega
  unfold BlockHeaderHashMap.rollback_to_committed_round
  rw [if_neg hp', hloop]
  simp only [hc0, if_false]

/-- C21: for every state with `persisted_round() ≤ last_committed + 1`,
`rollback_to_committed_round(last_committed + 1)` returns normally and is a no-op: the
trie, `last_committed` and the store are what they were. The argument
`last_committed + 1` is a `uint64_t` value. -/
theorem C21_rollback_to_next_round_is_noop (s : BlockHeaderHashMap)
    (hp : s.get_persisted_round_number ≤ s.last_committed_block_number + 1)
    (_hlc : s.last_committed_block_number + 1 < 2 ^ 64) :
    s.rollback_to_committed_round (s.last_committed_block_number + 1) = some (.ok (), s) := by
  rw [rollback_without_iteration s _ hp (Nat.lt_succ_self _)]
  rfl

/-- C21, on scenario S6 (`persisted_round = 5`, `last_committed = 7`):
`rollback_to_committed_round(8)` returns normally and changes nothing. -/
theorem C21_witness_S6 :
    scenario_S6.rollback_to_committed_round 8 = some (.ok (), scenario_S6) :=
  C21_rollback_to_next_round_is_noop scenario_S6 (by decide) (by decide)

/-- C26 (as stated, refuted): on scenario S1 (`last_committed = 3`, nothing persisted)
`rollback_to_committed_round(10)` returns normally with `last_committed = 9`, above its old
value 3, and with the trie as it was. -/
theorem C26_counterexample_S1 :
    scenario_S1.last_committed_block_number = 3
      ∧ scenario_S1.rollback_to_committed_round 10
        = some (.ok (), { scenario_S1 with last_committed_block_number := 9 })
      ∧ ¬ (9 ≤ scenario_S1.last_committed_block_number) := by
  decide

/-- C26 (amended): for every state and every `c` for which
`rollback_to_committed_round(c)` returns normally, `c` is not below the persisted round
and `last_committed` after the call is `max(c - 1, 0)`. Hence `last_committed` after the
call is less than or equal to `last_committed` before the call exactly when
`c ≤ last_committed + 1`; for `c > last_committed + 1` the call deletes nothing, changes
only `last_committed`, and moves it forward to `c - 1`. -/
theorem C26_rollback_sets_last_committed (s s' : BlockHeaderHashMap) (c : Nat)
    (hret : s.rollback_to_committed_round c = some (.ok (), s')) :
    s.get_persisted_round_number ≤ c
      ∧ s'.last_committed_block_number = c - 1
      ∧ (s'.last_committed_block_number ≤ s.last_committed_block_number
          ↔ c ≤ s.last_committed_block_number + 1)
      ∧ (s.last_committed_block_number + 1 < c →
          s' = { s with last_committed_block_number := c - 1 }
            ∧ s.last_committed_block_number < s'.last_committed_block_number) := by
  obtain ⟨hp, t, _, hs'⟩ := rollback_to_committed_round_ok s s' c hret
  have hlc : s'.last_committed_block_number = c - 1 := by
    rw [hs']
    by_cases h0 : c = 0
    · simp [h0]
    · simp [h0]
  refine ⟨hp, hlc, by omega, ?_⟩
  intro hgt
  have hrun := rollback_without_iteration s c hp (by omega)
  rw [hrun] at hret
  simp only [Option.some.injEq, Prod.mk.injEq, true_and] at hret
  exact ⟨hret.symm, by omega⟩

/-- C26 (amended), on scenario S6 (`persisted_round = 5`, `last_committed = 7`):
`rollback_to_committed_round(5)` returns normally and sets `last_committed = 4`, not
above 7. -/
theorem C26_witness_S6 :
    (∃ s', scenario_S6.rollback_to_committed_round 5 = some (.ok (), s')
        ∧ s'.last_committed_block_number = 4)
      ∧ scenario_S6.last_committed_block_number = 7 :=
  ⟨⟨((scenario_S6.rollback_to_committed_round 5).getD (.ok (), scenario_S6)).2, by decide,
      (C26_rollback_sets_last_committed scenario_S6
        ((scenario_S6.rollback_to_committed_round 5).getD (.ok (), scenario_S6)).2 5
        (by decide)).2.1⟩,
    by decide⟩

/-! ## The tentative entry -/

theorem ordered_put_keys_existing {V : Type} (k : List Nat) (v : V) :
    ∀ (t : List (List Nat × V)), (∀ p ∈ t, p.1 = k ∨ prefix_lt k p.1 = false) →
      k ∈ t.map Prod.fst → (ordered_put t k v).map Prod.fst = t.map Prod.fst := by
  intro t
  induction t with
  | nil => intro _ hk; simp at hk
  | cons p rest ih =>
    intro hord hk
    obtain ⟨kp, vp⟩ := p
    by_cases h1 : k = kp
    · subst h1
      simp only [ordered_put, if_true, List.map_cons]
    · have hlt : prefix_lt k kp = false := by
        rcases hord (kp, vp) (List.mem_cons_self _ _) with h | h
        · exact absurd h.symm h1
        · exact h
      have hk' : k ∈ rest.map Prod.fst := by
        simp only [List.map_cons, List.mem_cons] at hk
        rcases hk with h | h
        · exact absurd h h1
        · exact h
      have hrest := ih (fun q hq => hord q (List.mem_cons_of_mem _ hq)) hk'
      simp [ordered_put, h1, hlt, hrest]

theorem KeysUpTo.insert_last {t : TrieT} {n : Nat} (h : KeysUpTo t n) (h1 : 1 ≤ n)
    (hn : n < 2 ^ 64) (v : Hash) :
    KeysUpTo (t.insert (write_unsigned_big_endian n) v) n := by
  unfold KeysUpTo MerkleTrie.keys MerkleTrie.insert at *
  rw [ordered_put_keys_existing _ _ t, h]
  · intro p hp
    have hk : p.1 ∈ t.map Prod.fst := List.mem_map_of_mem _ hp
    rw [h, mem_range_keys] at hk
    obtain ⟨i, g1, g2, g3⟩ := hk
    right
    rw [g3]
    exact write_big_endian_not_lt g2 hn
  · rw [h, mem_range_keys]
    exact ⟨n, h1, le_rfl, rfl⟩

/-- C22 (as stated, refuted): on the Idle state S1 (keys exactly 1 to 3,
`last_committed = 3`), `tentative_insert_for_validation(3, CC)` returns true and the trie
afterwards has no key greater than `last_committed`, not one: the tentative entry is
written under key 3 itself. With the hash `DD` the entry of key 3, a key up to
`last_committed`, is not as before. -/
theorem C22_counterexample_S1 :
    KeysUpTo scenario_S1.block_map scenario_S1.last_committed_block_number
      ∧ (scenario_S1.tentative_insert_for_validation 3 hashCC).1 = .ok true
      ∧ ((scenario_S1.tentative_insert_for_validation 3 hashCC).2.block_map.keys.filter
          (fun k => decide (read_unsigned_big_endian k
            > (scenario_S1.tentative_insert_for_validation
                3 hashCC).2.last_committed_block_number))).length = 0
      ∧ (scenario_S1.tentative_insert_for_validation 3 hashDD).1 = .ok true
      ∧ (scenario_S1.tentative_insert_for_validation 3 hashDD).2.block_map.get_value
          (write_unsigned_big_endian 3)
        ≠ scenario_S1.block_map.get_value (write_unsigned_big_endian 3) := by
  decide

/-- C22 (amended): from any Idle state whose trie keys are exactly `1 … last_committed`,
after `tentative_insert_for_validation(n, h)` with `n ≠ 0` returns true, `n` is
`last_committed`, the trie keys are still exactly `1 … last_committed`, so the trie
contains no key greater than `last_committed`; the tentative entry is the entry of key
`last_committed`, which now holds `h`, and all keys below `last_committed` are as
before. -/
theorem C22_tentative_entry_at_last_committed (s : BlockHeaderHashMap) (n : Nat) (h : Hash)
    (hkeys : KeysUpTo s.block_map s.last_committed_block_number) (hn : n ≠ 0)
    (hlc : s.last_committed_block_number < 2 ^ 64)
    (hret : (s.tentative_insert_for_validation n h).1 = .ok true) :
    n = s.last_committed_block_number
      ∧ KeysUpTo (s.tentative_insert_for_validation n h).2.block_map
          s.last_committed_block_number
      ∧ (s.tentative_insert_for_validation n h).2.last_committed_block_number
        = s.last_committed_block_number
      ∧ (s.tentative_insert_for_validation n h).2.block_map.get_value
          (write_unsigned_big_endian s.last_committed_block_number) = some h
      ∧ (∀ i, 1 ≤ i → i < s.last_committed_block_number →
          (s.tentative_insert_for_validation n h).2.block_map.get_value
              (write_unsigned_big_endian i)
            = s.block_map.get_value (write_unsigned_big_endian i))
      ∧ (∀ i, s.last_committed_block_number < i → i < 2 ^ 64 →
          (s.tentative_insert_for_validation n h).2.block_map.get_value
            (write_unsigned_big_endian i) = none) := by
  have hnlc : n = s.last_committed_block_number := by
    by_contra hne
    have hres : s.tentative_insert_for_validation n h = (.ok false, s) := by
      unfold BlockHeaderHashMap.tentative_insert_for_validation
      rw [if_neg hn, if_pos hne]
    rw [hres] at hret
    simp at hret
  have hres : s.tentative_insert_for_validation n h
      = (.ok true, { s with block_map := s.block_map.insert (write_unsigned_big_endian n) h }) := by
    unfold BlockHeaderHashMap.tentative_insert_for_validation
    rw [if_neg hn, if_neg (not_not.mpr hnlc)]
  rw [hres]
  rw [hnlc] at hn ⊢
  have hk' := hkeys.insert_last (Nat.one_le_iff_ne_zero.mpr hn) hlc h
  refine ⟨rfl, hk', rfl, ?_, ?_, ?_⟩
  · simp [MerkleTrie.insert, MerkleTrie.get_value, ordered_get_put]
  · intro i h1 h2
    have hne : write_unsigned_big_endian i
        ≠ write_unsigned_big_endian s.last_committed_block_number := by
      intro e
      have := write_big_endian_injective (by omega) hlc e
      omega
    simp [MerkleTrie.insert, MerkleTrie.get_value, ordered_get_put, hne]
  · intro i h1 h2
    show MerkleTrie.get_value (MerkleTrie.insert s.block_map
        (write_unsigned_big_endian s.last_committed_block_number) h)
        (write_unsigned_big_endian i) = none
    cases hg : MerkleTrie.get_value (MerkleTrie.insert s.block_map
        (write_unsigned_big_endian s.last_committed_block_number) h)
        (write_unsigned_big_endian i) with
    | none => rfl
    | some v =>
      have hsome := (hk'.get_isSome_iff (write_unsigned_big_endian i)).1 (by rw [hg]; rfl)
      obtain ⟨j, g1, g2, g3⟩ := hsome
      have := write_big_endian_injective h2 (by omega) g3
      omega

/-- C22 (amended), on scenario S1: `tentative_insert_for_validation(3, DD)` returns true,
the keys are still 1 to 3 and key 3 holds `DD`. -/
theorem C22_witness_S1 :
    (scenario_S1.tentative_insert_for_validation 3 hashDD).1 = .ok true
      ∧ KeysUpTo (scenario_S1.tentative_insert_for_validation 3 hashDD).2.block_map 3
      ∧ (scenario_S1.tentative_insert_for_validation 3 hashDD).2.block_map.get_value
          (write_unsigned_big_endian 3) = some hashDD :=
  have h := C22_tentative_entry_at_last_committed scenario_S1 3 hashDD (by decide) (by decide)
    (by decide) (by decide)
  ⟨by decide, h.2.1, h.2.2.2.1⟩

/-! ## Persisting with a hash missing -/

theorem save_single_entry (tx1 tx2 : SignedTransaction) (rest : List SignedTransaction)
    (aligned_space : Nat) (hA : aligned_space < 2 ^ 32)
    (hfit : 512 + 4 + xdr_argpack_size tx1 ≤ aligned_space - aligned_space % 4) :
    save_account_block_fast [⟨tx1 :: tx2 :: rest⟩] aligned_space
      = some (.ok
          { num_written := 1
            transactions := [tx1]
            flush_calls := [(4 + xdr_argpack_size tx1)
              - (4 + xdr_argpack_size tx1) % 512 + 512, 512]
            length := 4 + xdr_argpack_size tx1 }) := by
  have h512 : ¬ aligned_space - aligned_space % 4 < 512 := by omega
  have hroom : ¬ (aligned_space - aligned_space % 4 - 512 + 18446744073709551612)
      % 18446744073709551616 < xdr_argpack_size tx1 := by omega
  have hput1 : ¬ aligned_space - aligned_space % 4 - 512 < 4 := by omega
  have hput2 : ¬ aligned_space - aligned_space % 4 - 512 - 4 < xdr_argpack_size tx1 := by omega
  have hfuel : total_transactions [⟨tx1 :: tx2 :: rest⟩] + 2 = (rest.length + 2 + 1) + 1 := by
    simp [total_transactions]
  unfold save_account_block_fast
  rw [if_neg h512, hfuel]
  simp [save_loop, select_tx_buffer, flush_if_full, hroom, hput1, hput2]
  constructor <;> omega

/-- C25 (failing input): `save_account_block_fast` leaves its outer loop as soon as
`list_idx` reaches `value.size()`, which happens when the entry at the last index is
selected, so of that entry only the first transaction is serialized. For every block of
one entry holding two or more transactions (the first fitting in the buffer) the count
written is 1 and only the first transaction is written. On the block of one entry with
two transactions the count is 1, not 2; on the block with one transaction and then two,
the count is 2, not 3. The same transactions one to an entry, or followed by an empty
entry, are all written. -/
theorem C25_last_entry_written_in_part :
    (∀ (tx1 tx2 : SignedTransaction) (rest : List SignedTransaction) (aligned_space : Nat),
        aligned_space < 2 ^ 32 →
        512 + 4 + xdr_argpack_size tx1 ≤ aligned_space - aligned_space % 4 →
        ∃ f, save_account_block_fast [⟨tx1 :: tx2 :: rest⟩] aligned_space = some (.ok f)
          ∧ f.num_written = 1 ∧ f.transactions = [tx1]
          ∧ total_transactions [⟨tx1 :: tx2 :: rest⟩] = rest.length + 2)
      ∧ total_transactions block_last_entry_two = 2
      ∧ save_account_block_fast block_last_entry_two 4096
        = some (.ok ⟨1, [tx_one], [512, 512], 12⟩)
      ∧ total_transactions block_one_then_two = 3
      ∧ save_account_block_fast block_one_then_two 4096
        = some (.ok ⟨2, [tx_one, tx_two], [512, 512], 24⟩)
      ∧ save_account_block_fast block_one_each 4096
        = some (.ok ⟨3, all_transactions block_one_each, [512, 512], 40⟩)
      ∧ save_account_block_fast block_two_then_empty 4096
        = some (.ok ⟨2, all_transactions block_two_then_empty, [512, 512], 24⟩) := by
  refine ⟨?_, by decide, by decide, by decide, by decide, by decide, by decide⟩
  intro tx1 tx2 rest aligned_space hA hfit
  exact ⟨_, save_single_entry tx1 tx2 rest aligned_space hA hfit, rfl, rfl,
    by simp [total_transactions]⟩


end speedex

namespace hotstuff

open speedex (Hash)

/-! ## Fetch requests and delivery -/

theorem lookup_mem {α β : Type} [BEq α] [LawfulBEq α] :
    ∀ (l : List (α × β)) (k : α) (v : β), l.lookup k = some v → (k, v) ∈ l := by
  intro l
  induction l with
  | nil => intro k v h; simp at h
  | cons e l ih =>
    intro k v h
    obtain ⟨a, b⟩ := e
    rw [List.lookup_cons] at h
    by_cases hk : (k == a) = true
    · rw [hk] at h
      simp only [Option.some.injEq] at h
      have := eq_of_beq hk
      subst this; subst h
      exact List.mem_cons_self _ _
    · simp only [hk] at h
      exact List.mem_cons_of_mem _ (ih k v h)

theorem lookup_filter_ne {α β : Type} [DecidableEq α] (H : α) :
    ∀ (l : List (α × β)) (k : α),
      (l.filter fun e => decide (e.1 ≠ H)).lookup k = if k = H then none else l.lookup k := by
  intro l
  induction l with
  | nil => intro k; simp
  | cons e l ih =>
    intro k
    obtain ⟨a, b⟩ := e
    by_cases ha : a = H
    · subst ha
      rw [List.filter_cons_of_neg (by simp), ih, List.lookup_cons]
      by_cases hk : k = a
      · simp [hk]
      · simp only [if_neg hk, beq_false_of_ne hk]
    · rw [List.filter_cons_of_pos (by simpa using ha), List.lookup_cons, List.lookup_cons, ih]
      by_cases hk : k = a
      · subst hk; simp [ha]
      · simp only [beq_false_of_ne hk]

theorem find_or_create_facts (m : BlockFetchManager) (H : Hash) (hv : PointersValid m) :
    PointersValid (m.find_or_create H).2
      ∧ (m.find_or_create H).2.outstanding_reqs.lookup H = some (m.find_or_create H).1
      ∧ (m.find_or_create H).1 < (m.find_or_create H).2.contexts.length
      ∧ (∀ H', pending_events (m.find_or_create H).2 H' = pending_events m H')
      ∧ (m.find_or_create H).2.config = m.config := by
  unfold BlockFetchManager.find_or_create
  cases hl : m.outstanding_reqs.lookup H with
  | some p =>
    exact ⟨hv, hl, hv.1 _ (lookup_mem _ _ _ hl), fun _ => rfl, rfl⟩
  | none =>
    refine ⟨⟨?_, ?_⟩, ?_, ?_, ?_, rfl⟩
    · intro e he
      simp only [List.mem_append, List.mem_singleton] at he
      simp only [List.length_append, List.length_singleton]
      rcases he with he | he
      · exact Nat.lt_succ_of_lt (hv.1 e he)
      · subst he; simp
    · simp only [List.map_append, List.map_cons, List.map_nil]
      rw [List.nodup_append]
      refine ⟨hv.2, List.nodup_singleton _, ?_⟩
      intro a ha hb
      simp only [List.mem_singleton] at hb
      obtain ⟨e, he, rfl⟩ := List.mem_map.1 ha
      have := hv.1 e he
      rw [hb] at this
      exact Nat.lt_irrefl _ this
    · simp [List.lookup_append, hl, List.lookup_cons]
    · simp
    · intro H'
      simp only [pending_events, List.lookup_append]
      cases hl' : m.outstanding_reqs.lookup H' with
      | some p =>
        have hp := hv.1 _ (lookup_mem _ _ _ hl')
        simp only [Option.or_some, List.getElem?_append_left hp]
      | none =>
        by_cases hH : H' = H
        · subst hH
          simp [List.lookup_cons, RequestContext.new]
        · have : (H' == H) = false := by simpa using hH
          simp [List.lookup_cons, this]

theorem append_events_facts (ma : BlockFetchManager) (ctx : request_ctx_ptr)
    (c : RequestContext) (evs : List NetEvent) (H : Hash)
    (queues' : List (ReplicaID × ReplicaFetchQueue)) (hv : PointersValid ma)
    (hl : ma.outstanding_reqs.lookup H = some ctx) (hc : ma.contexts[ctx]? = some c) :
    PointersValid (BlockFetchManager.append_events { ma with queues := queues' } ctx c evs)
      ∧ (BlockFetchManager.append_events { ma with queues := queues' } ctx c evs).config
        = ma.config
      ∧ ∀ H', pending_events
            (BlockFetchManager.append_events { ma with queues := queues' } ctx c evs) H'
          = if H' = H then pending_events ma H ++ evs else pending_events ma H' := by
  have hlt : ctx < ma.contexts.length := by
    by_contra hge
    have hge' : ma.contexts.length ≤ ctx := Nat.le_of_not_lt hge
    rw [List.getElem?_eq_none hge'] at hc
    exact absurd hc (by simp)
  refine ⟨⟨?_, hv.2⟩, rfl, ?_⟩
  · intro e he
    simp only [BlockFetchManager.append_events, List.length_set]
    exact hv.1 e he
  · intro H'
    by_cases hH : H' = H
    · subst hH
      simp only [pending_events, BlockFetchManager.append_events, hl, if_true,
        List.getElem?_set_self hlt, hc, RequestContext.add_network_events]
    · simp only [pending_events, BlockFetchManager.append_events, hH, if_false]
      cases hl' : ma.outstanding_reqs.lookup H' with
      | none => rfl
      | some p =>
        have hne : ctx ≠ p := by
          intro e
          subst e
          have h1 := lookup_mem _ _ _ hl
          have h2 := lookup_mem _ _ _ hl'
          have := List.inj_on_of_nodup_map hv.2 h1 h2 rfl
          simp only [Prod.mk.injEq, and_true] at this
          exact hH this.symm
        simp only [List.getElem?_set_ne hne]

theorem add_fetch_request_spec (GC_FREQ : Nat) (m : BlockFetchManager) (H : Hash)
    (r : ReplicaID) (evs : List NetEvent) (res : Except FetchError Unit)
    (m' : BlockFetchManager) (hv : PointersValid m)
    (h : m.add_fetch_request GC_FREQ H r evs = some (res, m')) :
    PointersValid m' ∧ m'.config = m.config
      ∧ ((res = .ok () ∧ m.config.is_valid_replica r = false) →
          (m'.outstanding_reqs.lookup H).isSome = true
          ∧ ∀ H', pending_events m' H'
            = if H' = H then pending_events m H ++ evs else pending_events m H')
      ∧ (¬ (res = .ok () ∧ m.config.is_valid_replica r = false) →
          ∀ H', pending_events m' H' = pending_events m H') := by
  unfold BlockFetchManager.add_fetch_request at h
  by_cases hvalid : m.config.is_valid_replica r = true
  · rw [if_pos hvalid] at h
    simp only [Option.some.injEq, Prod.mk.injEq] at h
    obtain ⟨rfl, rfl⟩ := h
    refine ⟨hv, rfl, ?_, fun _ _ => rfl⟩
    rintro ⟨_, hf⟩
    rw [hvalid] at hf
    exact absurd hf (by simp)
  · rw [if_neg hvalid] at h
    have hfalse : m.config.is_valid_replica r = false := by simpa using hvalid
    obtain ⟨hv1, hl1, hlt1, hp1, hc1⟩ := find_or_create_facts m H hv
    generalize m.find_or_create H = pr at h hv1 hl1 hlt1 hp1 hc1
    obtain ⟨ctx, ma⟩ := pr
    simp only at h hv1 hl1 hlt1 hp1 hc1
    have hc : ma.contexts[ctx]? = some (ma.contexts[ctx]) := List.getElem?_eq_getElem hlt1
    rw [hc] at h
    simp only at h
    have happ := fun queues' =>
      append_events_facts ma ctx (ma.contexts[ctx]) evs H queues' hv1 hl1 hc
    by_cases hreq : (ma.contexts[ctx]).was_requested_from r = true
    · simp only [hreq, not_true_eq_false, if_false, Option.some.injEq, Prod.mk.injEq] at h
      obtain ⟨rfl, rfl⟩ := h
      obtain ⟨a1, a2, a3⟩ := happ ma.queues
      refine ⟨a1, a2.trans hc1, ?_, ?_⟩
      · intro _
        refine ⟨by simp [BlockFetchManager.append_events, hl1], fun H' => ?_⟩
        rw [a3 H', hp1 H, hp1 H']
      · intro hn
        exact absurd ⟨rfl, hfalse⟩ hn
    · simp only [hreq, not_false_eq_true, if_true] at h
      cases hq : ma.queues.lookup r with
      | none =>
        rw [hq] at h
        simp only [Option.some.injEq, Prod.mk.injEq] at h
        obtain ⟨rfl, rfl⟩ := h
        refine ⟨hv1, hc1, ?_, fun _ H' => hp1 H'⟩
        rintro ⟨hres, _⟩
        exact absurd hres (by simp)
      | some q =>
        rw [hq] at h
        simp only at h
        cases hadd : q.add_request GC_FREQ ma.contexts ctx with
        | none => rw [hadd] at h; simp at h
        | some q' =>
          rw [hadd] at h
          simp only [Option.some.injEq, Prod.mk.injEq] at h
          obtain ⟨rfl, rfl⟩ := h
          obtain ⟨a1, a2, a3⟩ := happ (BlockFetchManager.set_queue ma.queues r q')
          refine ⟨a1, a2.trans hc1, ?_, ?_⟩
          · intro _
            refine ⟨by simp [BlockFetchManager.append_events, hl1], fun H' => ?_⟩
            rw [a3 H', hp1 H, hp1 H']
          · intro hn
            exact absurd ⟨rfl, hfalse⟩ hn

theorem deliver_block_spec (m : BlockFetchManager) (H : Hash) (hv : PointersValid m) :
    ∃ m', m.deliver_block H = some (pending_events m H, m') ∧ PointersValid m'
      ∧ m'.config = m.config
      ∧ ∀ H', pending_events m' H' = if H' = H then [] else pending_events m H' := by
  unfold BlockFetchManager.deliver_block
  cases hl : m.outstanding_reqs.lookup H with
  | none =>
    refine ⟨m, by simp [pending_events, hl], hv, rfl, ?_⟩
    intro H'
    by_cases hH : H' = H
    · subst hH; simp [pending_events, hl]
    · simp [hH]
  | some p =>
    have hlt : p < m.contexts.length := hv.1 _ (lookup_mem _ _ _ hl)
    have hc : m.contexts[p]? = some (m.contexts[p]) := List.getElem?_eq_getElem hlt
    refine ⟨{ m with
        contexts := m.contexts.set p (m.contexts[p]).mark_received
        outstanding_reqs := m.outstanding_reqs.filter fun e => e.1 ≠ H }, ?_, ⟨?_, ?_⟩, rfl, ?_⟩
    · simp only [hc, pending_events, hl, RequestContext.mark_received,
        RequestContext.get_network_events]
    · intro e he
      simp only [List.length_set]
      exact hv.1 e (List.mem_of_mem_filter he)
    · exact List.Nodup.sublist ((List.filter_sublist _).map _) hv.2
    · intro H'
      unfold pending_events
      rw [lookup_filter_ne H m.outstanding_reqs H']
      by_cases hH : H' = H
      · simp [hH]
      · simp only [hH, if_false]
        cases hl' : m.outstanding_reqs.lookup H' with
        | none => rfl
        | some p' =>
          simp only
          by_cases hp : p = p'
          · subst hp
            simp [List.getElem?_set_self hlt, hc, RequestContext.mark_received]
          · simp only [List.getElem?_set_ne hp]

theorem run_fetch_requests_pending (GC_FREQ : Nat) (H : Hash) :
    ∀ (reqs : List (ReplicaID × List NetEvent)) (m m' : BlockFetchManager),
      PointersValid m → (∀ q ∈ reqs, m.config.is_valid_replica q.1 = false) →
      run_fetch_requests GC_FREQ m H reqs = some m' →
      PointersValid m'
        ∧ pending_events m' H = pending_events m H ++ (reqs.map Prod.snd).flatten
        ∧ (reqs ≠ [] → (m'.outstanding_reqs.lookup H).isSome = true) := by
  intro reqs
  induction reqs with
  | nil =>
    intro m m' hv _ hrun
    simp only [run_fetch_requests, Option.some.injEq] at hrun
    subst hrun
    exact ⟨hv, by simp, fun h => absurd rfl h⟩
  | cons q reqs ih =>
    intro m m' hv hnd hrun
    obtain ⟨r, evs⟩ := q
    have hr : m.config.is_valid_replica r = false := hnd (r, evs) (List.mem_cons_self _ _)
    simp only [run_fetch_requests] at hrun
    cases hstep : m.add_fetch_request GC_FREQ H r evs with
    | none => rw [hstep] at hrun; simp at hrun
    | some pr =>
      obtain ⟨res, m1⟩ := pr
      rw [hstep] at hrun
      cases res with
      | error e => simp at hrun
      | ok u =>
        simp only at hrun
        obtain ⟨hv1, hc1, hok, _⟩ := add_fetch_request_spec GC_FREQ m H r evs _ m1 hv hstep
        obtain ⟨hsome, hpend⟩ := hok ⟨rfl, hr⟩
        obtain ⟨hv', hp', hs'⟩ := ih m1 m' hv1
          (fun q hq => by rw [hc1]; exact hnd q (List.mem_cons_of_mem _ hq)) hrun
        refine ⟨hv', ?_, fun _ => ?_⟩
        · rw [hp', hpend H, if_pos rfl]
          simp [List.append_assoc]
        · by_cases hnil : reqs = []
          · subst hnil
            simp only [run_fetch_requests, Option.some.injEq] at hrun
            subst hrun
            exact hsome
          · exact hs' hnil

/-- Coalescing behind the guard. For a hash `H` with no live context and a sequence of
`add_fetch_request(H, r_i, evs_i)` calls that pass the guard of the code
(`is_valid_replica(r_i)` is false) and return normally, a following `deliver_block` of a
block with hash `H` returns `evs_1 ++ evs_2 ++ …` in call order, and all of them sit in
the one context that `outstanding_reqs` holds for `H`. -/
theorem fetch_coalescing_behind_guard (GC_FREQ : Nat) (m m' : BlockFetchManager) (H : Hash)
    (reqs : List (ReplicaID × List NetEvent)) (hv : PointersValid m)
    (hno : m.outstanding_reqs.lookup H = none)
    (hnd : ∀ q ∈ reqs, m.config.is_valid_replica q.1 = false)
    (hrun : run_fetch_requests GC_FREQ m H reqs = some m') :
    (∃ m'', m'.deliver_block H = some ((reqs.map Prod.snd).flatten, m''))
      ∧ (reqs ≠ [] → ∃ ctx c, m'.outstanding_reqs.lookup H = some ctx
          ∧ m'.contexts[ctx]? = some c
          ∧ c.dependent_network_events = (reqs.map Prod.snd).flatten) := by
  obtain ⟨hv', hp', hs'⟩ := run_fetch_requests_pending GC_FREQ H reqs m m' hv hnd hrun
  have hzero : pending_events m H = [] := by simp [pending_events, hno]
  rw [hzero, List.nil_append] at hp'
  constructor
  · obtain ⟨m'', hd, _⟩ := deliver_block_spec m' H hv'
    rw [hp'] at hd
    exact ⟨m'', hd⟩
  · intro hne
    obtain ⟨ctx, hctx⟩ := Option.isSome_iff_exists.1 (hs' hne)
    have hlt : ctx < m'.contexts.length := hv'.1 _ (lookup_mem _ _ _ hctx)
    refine ⟨ctx, m'.contexts[ctx], hctx, List.getElem?_eq_getElem hlt, ?_⟩
    rw [← hp']
    simp [pending_events, hctx, List.getElem?_eq_getElem hlt]

/-- Scenario S5 on a manager with an empty configuration and queues for 5 and 7: the
three requests pass the guard, and `deliver_block(H)` returns `[E1, E2, E3]`. -/
theorem fetch_coalescing_behind_guard_S5 :
    PointersValid scenario_S5_start
      ∧ scenario_S5_start.outstanding_reqs.lookup speedex.hashAA = none
      ∧ run_fetch_requests 100 scenario_S5_start speedex.hashAA [(5, [1]), (5, [2]), (7, [3])]
        = some scenario_S5_state
      ∧ ∃ m'', scenario_S5_state.deliver_block speedex.hashAA = some ([1, 2, 3], m'') :=
  ⟨by decide, by decide, by decide,
    (fetch_coalescing_behind_guard 100 scenario_S5_start scenario_S5_state speedex.hashAA
      [(5, [1]), (5, [2]), (7, [3])] (by decide) (by decide) (by decide) (by decide)).1⟩

theorem run_fetch_requests_to_peers (GC_FREQ : Nat) (m : BlockFetchManager) (H : Hash) :
    ∀ (reqs : List (ReplicaID × List NetEvent)),
      (∀ q ∈ reqs, m.config.is_valid_replica q.1 = true) →
      run_fetch_requests GC_FREQ m H reqs = some m := by
  intro reqs
  induction reqs with
  | nil => intro _; rfl
  | cons q reqs ih =>
    intro hval
    obtain ⟨r, evs⟩ := q
    have hr : m.config.is_valid_replica r = true := hval (r, evs) (List.mem_cons_self _ _)
    have hstep : m.add_fetch_request GC_FREQ H r evs = some (.ok (), m) := by
      unfold BlockFetchManager.add_fetch_request
      rw [if_pos hr]
    simp only [run_fetch_requests, hstep]
    exact ih fun q hq => hval q (List.mem_cons_of_mem _ hq)

/-- C9 (failing input): scenario S5 on a manager whose configuration holds the replicas 5
and 7, each with its queue. Every `add_fetch_request(H, r, evs)` to a valid replica
returns at once with the manager unchanged, so after the requests `(H, 5, [E1])`,
`(H, 5, [E2])`, `(H, 7, [E3])` there is no context for `H` and `deliver_block(H)` returns
the empty sequence, not `[E1, E2, E3]`; this holds for every manager and every sequence
of requests to valid replicas. A request to the replica 9, which is no valid replica and
has no queue, is not dropped by the guard: it creates the context of `H`, throws
`out_of_range` before its events are appended, and the following `deliver_block(H)`
returns the empty sequence as well. -/
theorem C9_requests_to_valid_replicas_are_lost :
    (∀ (GC_FREQ : Nat) (m : BlockFetchManager) (H : Hash)
        (reqs : List (ReplicaID × List NetEvent)),
        (∀ q ∈ reqs, m.config.is_valid_replica q.1 = true) →
        m.outstanding_reqs.lookup H = none →
        run_fetch_requests GC_FREQ m H reqs = some m ∧ m.deliver_block H = some ([], m))
      ∧ scenario_S5_peers.config.is_valid_replica 5 = true
      ∧ scenario_S5_peers.config.is_valid_replica 7 = true
      ∧ scenario_S5_peers.queues.lookup 5 = some ReplicaFetchQueue.new
      ∧ scenario_S5_peers.queues.lookup 7 = some ReplicaFetchQueue.new
      ∧ scenario_S5_peers.outstanding_reqs.lookup speedex.hashAA = none
      ∧ run_fetch_requests 100 scenario_S5_peers speedex.hashAA
          [(5, [1]), (5, [2]), (7, [3])] = some scenario_S5_peers
      ∧ scenario_S5_peers.deliver_block speedex.hashAA = some ([], scenario_S5_peers)
      ∧ scenario_S5_peers.config.is_valid_replica 9 = false
      ∧ scenario_S5_peers.add_fetch_request 100 speedex.hashAA 9 [4]
        = some (.error .out_of_range,
            { scenario_S5_peers with
              contexts := [RequestContext.new speedex.hashAA]
              outstanding_reqs := [(speedex.hashAA, 0)] })
      ∧ ({ scenario_S5_peers with
            contexts := [RequestContext.new speedex.hashAA]
            outstanding_reqs := [(speedex.hashAA, 0)] } : BlockFetchManager).deliver_block
          speedex.hashAA
        = some ([],
            { scenario_S5_peers with
              contexts := [(RequestContext.new speedex.hashAA).mark_received]
              outstanding_reqs := [] }) := by
  refine ⟨?_, by decide, by decide, by decide, by decide, by decide, by decide, by decide,
    by decide, by decide, by decide⟩
  intro GC_FREQ m H reqs hval hno
  refine ⟨run_fetch_requests_to_peers GC_FREQ m H reqs hval, ?_⟩
  unfold BlockFetchManager.deliver_block
  rw [hno]

/-! ## Exactly-once release -/

theorem run_call_mem (GC_FREQ : Nat) (m m' : BlockFetchManager) (c : FetchCall)
    (out : List NetEvent) (e : NetEvent) (hv : PointersValid m)
    (hrun : run_call GC_FREQ m c = some (out, m'))
    (hfresh : ∀ h r evs, c = .add_fetch_request h r evs → e ∉ evs) :
    PointersValid m'
      ∧ (∀ H', e ∈ pending_events m' H' → e ∈ pending_events m H')
      ∧ (∀ H', c ≠ .deliver_block H' → e ∈ pending_events m H' → e ∈ pending_events m' H')
      ∧ (e ∈ out → ∃ h, c = .deliver_block h ∧ e ∈ pending_events m h) := by
  cases c with
  | add_fetch_request h r evs =>
    simp only [run_call] at hrun
    cases hstep : m.add_fetch_request GC_FREQ h r evs with
    | none => rw [hstep] at hrun; simp at hrun
    | some pr =>
      obtain ⟨res, m1⟩ := pr
      rw [hstep] at hrun
      simp only [Option.some.injEq, Prod.mk.injEq] at hrun
      obtain ⟨rfl, rfl⟩ := hrun
      obtain ⟨hv1, _, hok, hnot⟩ := add_fetch_request_spec GC_FREQ m h r evs res m1 hv hstep
      have hev : e ∉ evs := hfresh h r evs rfl
      have hcases : ∀ H', pending_events m1 H' = pending_events m H'
          ∨ pending_events m1 H' = pending_events m H' ++ evs := by
        intro H'
        by_cases hc : res = .ok () ∧ m.config.is_valid_replica r = false
        · have := (hok hc).2 H'
          by_cases hH : H' = h
          · subst hH; rw [if_pos rfl] at this; exact Or.inr this
          · rw [if_neg hH] at this; exact Or.inl this
        · exact Or.inl (hnot hc H')
      refine ⟨hv1, ?_, ?_, ?_⟩
      · intro H' hmem
        rcases hcases H' with hc | hc
        · rw [hc] at hmem; exact hmem
        · rw [hc, List.mem_append] at hmem
          exact hmem.resolve_right hev
      · intro H' _ hmem
        rcases hcases H' with hc | hc
        · rw [hc]; exact hmem
        · rw [hc]; exact List.mem_append_left _ hmem
      · intro hmem; simp at hmem
  | deliver_block h0 =>
    simp only [run_call] at hrun
    obtain ⟨m1, hd, hv1, _, hp⟩ := deliver_block_spec m h0 hv
    rw [hd] at hrun
    simp only [Option.some.injEq, Prod.mk.injEq] at hrun
    obtain ⟨rfl, rfl⟩ := hrun
    refine ⟨hv1, ?_, ?_, ?_⟩
    · intro H' hmem
      rw [hp H'] at hmem
      by_cases hH : H' = h0
      · rw [if_pos hH] at hmem; simp at hmem
      · rw [if_neg hH] at hmem; exact hmem
    · intro H' hne hmem
      have hH : H' ≠ h0 := fun e => hne (by rw [e])
      rw [hp H', if_neg hH]
      exact hmem
    · intro hmem
      exact ⟨h0, rfl, hmem⟩

theorem run_calls_absent (GC_FREQ : Nat) (e : NetEvent) :
    ∀ (calls : List FetchCall) (m m' : BlockFetchManager) (outs : List (List NetEvent)),
      PointersValid m → (∀ H', e ∉ pending_events m H') →
      (∀ h r evs, FetchCall.add_fetch_request h r evs ∈ calls → e ∉ evs) →
      run_calls GC_FREQ m calls = some (outs, m') →
      PointersValid m' ∧ (∀ H', e ∉ pending_events m' H') ∧ ∀ o ∈ outs, e ∉ o := by
  intro calls
  induction calls with
  | nil =>
    intro m m' outs hv habs _ hrun
    simp only [run_calls, Option.some.injEq, Prod.mk.injEq] at hrun
    obtain ⟨rfl, rfl⟩ := hrun
    exact ⟨hv, habs, fun o ho => by simp at ho⟩
  | cons c calls ih =>
    intro m m' outs hv habs hfresh hrun
    simp only [run_calls] at hrun
    cases hstep : run_call GC_FREQ m c with
    | none => rw [hstep] at hrun; simp at hrun
    | some pr =>
      obtain ⟨out, m1⟩ := pr
      rw [hstep] at hrun
      simp only at hrun
      cases hrest : run_calls GC_FREQ m1 calls with
      | none => rw [hrest] at hrun; simp at hrun
      | some pr2 =>
        obtain ⟨outs', m2⟩ := pr2
        rw [hrest] at hrun
        simp only [Option.some.injEq, Prod.mk.injEq] at hrun
        obtain ⟨rfl, rfl⟩ := hrun
        obtain ⟨hv1, hback, _, hout⟩ := run_call_mem GC_FREQ m m1 c out e hv hstep
          (fun h r evs hc => hfresh h r evs (by rw [hc]; exact List.mem_cons_self _ _))
        obtain ⟨hv2, habs2, houts⟩ := ih m1 m2 outs' hv1
          (fun H' hmem => habs H' (hback H' hmem))
          (fun h r evs hc => hfresh h r evs (List.mem_cons_of_mem _ hc)) hrest
        refine ⟨hv2, habs2, ?_⟩
        intro o ho
        rcases List.mem_cons.1 ho with ho | ho
        · subst ho
          intro hmem
          obtain ⟨h, _, hp⟩ := hout hmem
          exact habs h hp
        · exact houts o ho

theorem run_calls_only_at (GC_FREQ : Nat) (e : NetEvent) (H : Hash) :
    ∀ (calls : List FetchCall) (m m' : BlockFetchManager) (outs : List (List NetEvent)),
      PointersValid m → e ∈ pending_events m H → (∀ H', H' ≠ H → e ∉ pending_events m H') →
      (∀ h r evs, FetchCall.add_fetch_request h r evs ∈ calls → e ∉ evs) →
      FetchCall.deliver_block H ∉ calls →
      run_calls GC_FREQ m calls = some (outs, m') →
      PointersValid m' ∧ e ∈ pending_events m' H ∧ (∀ H', H' ≠ H → e ∉ pending_events m' H')
        ∧ (∀ o ∈ outs, e ∉ o) ∧ outs.length = calls.length := by
  intro calls
  induction calls with
  | nil =>
    intro m m' outs hv hin habs _ _ hrun
    simp only [run_calls, Option.some.injEq, Prod.mk.injEq] at hrun
    obtain ⟨rfl, rfl⟩ := hrun
    exact ⟨hv, hin, habs, fun o ho => by simp at ho, rfl⟩
  | cons c calls ih =>
    intro m m' outs hv hin habs hfresh hnod hrun
    simp only [run_calls] at hrun
    cases hstep : run_call GC_FREQ m c with
    | none => rw [hstep] at hrun; simp at hrun
    | some pr =>
      obtain ⟨out, m1⟩ := pr
      rw [hstep] at hrun
      simp only at hrun
      cases hrest : run_calls GC_FREQ m1 calls with
      | none => rw [hrest] at hrun; simp at hrun
      | some pr2 =>
        obtain ⟨outs', m2⟩ := pr2
        rw [hrest] at hrun
        simp only [Option.some.injEq, Prod.mk.injEq] at hrun
        obtain ⟨rfl, rfl⟩ := hrun
        have hc : c ≠ .deliver_block H := fun hc => hnod (by rw [hc]; exact List.mem_cons_self _ _)
        obtain ⟨hv1, hback, hfwd, hout⟩ := run_call_mem GC_FREQ m m1 c out e hv hstep
          (fun h r evs hc => hfresh h r evs (by rw [hc]; exact List.mem_cons_self _ _))
        obtain ⟨hv2, hin2, habs2, houts, hlen⟩ := ih m1 m2 outs' hv1 (hfwd H hc hin)
          (fun H' hne hmem => habs H' hne (hback H' hmem))
          (fun h r evs hc => hfresh h r evs (List.mem_cons_of_mem _ hc))
          (fun hmem => hnod (List.mem_cons_of_mem _ hmem)) hrest
        refine ⟨hv2, hin2, habs2, ?_, by simp [hlen]⟩
        intro o ho
        rcases List.mem_cons.1 ho with ho | ho
        · subst ho
          intro hmem
          obtain ⟨h, hch, hp⟩ := hout hmem
          by_cases hH : h = H
          · subst hH; exact hc hch
          · exact habs h hH hp
        · exact houts o ho

theorem run_calls_append (GC_FREQ : Nat) :
    ∀ (a b : List FetchCall) (m : BlockFetchManager),
      run_calls GC_FREQ m (a ++ b)
        = match run_calls GC_FREQ m a with
          | none => none
          | some (oa, m1) =>
            match run_calls GC_FREQ m1 b with
            | none => none
            | some (ob, m2) => some (oa ++ ob, m2) := by
  intro a
  induction a with
  | nil =>
    intro b m
    cases hrb : run_calls GC_FREQ m b with
    | none => simp [run_calls, hrb]
    | some pr => simp [run_calls, hrb]
  | cons c a ih =>
    intro b m
    cases hstep : run_call GC_FREQ m c with
    | none => simp [run_calls, hstep]
    | some pr =>
      obtain ⟨out, m1⟩ := pr
      cases hra : run_calls GC_FREQ m1 a with
      | none => simp [run_calls, hstep, ih, hra]
      | some pr2 =>
        obtain ⟨oa, m2⟩ := pr2
        cases hrb : run_calls GC_FREQ m2 b with
        | none => simp [run_calls, hstep, ih, hra, hrb]
        | some pr3 => simp [run_calls, hstep, ih, hra, hrb]

/-- C10: exactly-once release. Take any run of calls on the manager: the calls `pre`, then
an `add_fetch_request(H, r, evs)` that is not dropped and returns normally (so it appends
`evs` to the context of `H`), then the calls `post`. Let `e` be one of the appended events,
an event of its own: not waiting in the manager at the start and not handed over by any
other call. Then no call of `pre` returns `e`; if `post` never delivers `H`, no call of
`post` returns `e`; and if `post` delivers `H`, the first such delivery returns `e`, and
no call before it and no call after it does. -/
theorem C10_exactly_once_release (GC_FREQ : Nat) (m0 m1 m2 m3 : BlockFetchManager)
    (pre post : List FetchCall) (outs_pre outs_post : List (List NetEvent)) (H : Hash)
    (r : ReplicaID) (evs : List NetEvent) (e : NetEvent) (hv : PointersValid m0)
    (hpre : run_calls GC_FREQ m0 pre = some (outs_pre, m1))
    (hadd : m1.add_fetch_request GC_FREQ H r evs = some (.ok (), m2))
    (hnd : m1.config.is_valid_replica r = false)
    (hpost : run_calls GC_FREQ m2 post = some (outs_post, m3))
    (he : e ∈ evs) (hinit : ∀ H', e ∉ pending_events m0 H')
    (hfresh : ∀ c ∈ pre ++ post, e ∉ c.dependent_events) :
    (∀ o ∈ outs_pre, e ∉ o)
      ∧ (FetchCall.deliver_block H ∉ post → ∀ o ∈ outs_post, e ∉ o)
      ∧ (∀ mid rest, post = mid ++ FetchCall.deliver_block H :: rest →
          FetchCall.deliver_block H ∉ mid →
          ∃ outs_mid out outs_rest, outs_post = outs_mid ++ out :: outs_rest
            ∧ outs_mid.length = mid.length ∧ e ∈ out
            ∧ (∀ o ∈ outs_mid, e ∉ o) ∧ (∀ o ∈ outs_rest, e ∉ o)) := by
  have hfresh_pre : ∀ h r' evs', FetchCall.add_fetch_request h r' evs' ∈ pre → e ∉ evs' :=
    fun h r' evs' hc => hfresh _ (List.mem_append_left _ hc)
  have hfresh_post : ∀ h r' evs', FetchCall.add_fetch_request h r' evs' ∈ post → e ∉ evs' :=
    fun h r' evs' hc => hfresh _ (List.mem_append_right _ hc)
  obtain ⟨hv1, habs1, houts_pre⟩ :=
    run_calls_absent GC_FREQ e pre m0 m1 outs_pre hv hinit hfresh_pre hpre
  obtain ⟨hv2, _, hok, _⟩ := add_fetch_request_spec GC_FREQ m1 H r evs _ m2 hv1 hadd
  have hpend := (hok ⟨rfl, hnd⟩).2
  have hin2 : e ∈ pending_events m2 H := by
    rw [hpend H, if_pos rfl]
    exact List.mem_append_right _ he
  have habs2 : ∀ H', H' ≠ H → e ∉ pending_events m2 H' := by
    intro H' hne
    rw [hpend H', if_neg hne]
    exact habs1 H'
  refine ⟨houts_pre, ?_, ?_⟩
  · intro hnod
    exact (run_calls_only_at GC_FREQ e H post m2 m3 outs_post hv2 hin2 habs2 hfresh_post hnod
      hpost).2.2.2.1
  · intro mid rest hsplit hnod
    subst hsplit
    rw [run_calls_append] at hpost
    cases hmid : run_calls GC_FREQ m2 mid with
    | none => rw [hmid] at hpost; simp at hpost
    | some pr =>
      obtain ⟨outs_mid, mm⟩ := pr
      rw [hmid] at hpost
      simp only [run_calls, run_call] at hpost
      obtain ⟨hvm, hinm, habsm, houts_mid, hlen⟩ :=
        run_calls_only_at GC_FREQ e H mid m2 mm outs_mid hv2 hin2 habs2
          (fun h r' evs' hc => hfresh_post h r' evs' (List.mem_append_left _ hc)) hnod hmid
      obtain ⟨md, hd, hvd, _, hpd⟩ := deliver_block_spec mm H hvm
      rw [hd] at hpost
      simp only at hpost
      cases hrest : run_calls GC_FREQ md rest with
      | none => rw [hrest] at hpost; simp at hpost
      | some pr2 =>
        obtain ⟨outs_rest, mr⟩ := pr2
        rw [hrest] at hpost
        simp only [Option.some.injEq, Prod.mk.injEq] at hpost
        obtain ⟨rfl, rfl⟩ := hpost
        have habsd : ∀ H', e ∉ pending_events md H' := by
          intro H'
          rw [hpd H']
          by_cases hH : H' = H
          · rw [if_pos hH]; simp
          · rw [if_neg hH]; exact habsm H' hH
        obtain ⟨_, _, houts_rest⟩ := run_calls_absent GC_FREQ e rest md mr outs_rest hvd habsd
          (fun h r' evs' hc => hfresh_post h r' evs'
            (List.mem_append_right _ (List.mem_cons_of_mem _ hc))) hrest
        exact ⟨outs_mid, pending_events mm H, outs_rest, rfl, hlen, hinm, houts_mid, houts_rest⟩

/-- C10 on scenario S5: the event `E2` of the second request is returned by the first
delivery of `H` (which returns `[E1, E2, E3]`), and neither by a call before it nor by the
second delivery of `H`. -/
theorem C10_witness_S5 :
    run_calls 100 scenario_S5_after_second scenario_S5_rest
        = some ([[], [1, 2, 3], []], scenario_S5_end)
      ∧ ∃ outs_mid out outs_rest,
          ([[], [1, 2, 3], []] : List (List NetEvent)) = outs_mid ++ out :: outs_rest
            ∧ outs_mid.length = 1 ∧ 2 ∈ out
            ∧ (∀ o ∈ outs_mid, 2 ∉ o) ∧ (∀ o ∈ outs_rest, 2 ∉ o) :=
  ⟨by decide,
    (C10_exactly_once_release 100 scenario_S5_start scenario_S5_after_first
      scenario_S5_after_second scenario_S5_end
      [.add_fetch_request speedex.hashAA 5 [1]] scenario_S5_rest [[]] [[], [1, 2, 3], []]
      speedex.hashAA 5 [2] 2 (by decide) (by decide) (by decide) (by decide) (by decide)
      (by decide) (fun _ => List.not_mem_nil _) (by decide)).2.2
      [.add_fetch_request speedex.hashAA 7 [3]] [.deliver_block speedex.hashAA] rfl
      (by decide)⟩

/-! ## The guard, repeated dispatch and unknown deliveries -/

/-- C11 (failing input): the guard of `add_fetch_request` returns at once whenever the
target IS a valid replica, with the manager unchanged. On a manager whose configuration
holds replica 5, with a queue for it, `add_fetch_request(H, 5, [E1])` is dropped: no
context for `H` appears and the queue of 5 is untouched. For the invalid target 9 the call
is not dropped: it allocates a context, puts it in `outstanding_reqs` and then throws
`out_of_range` from `queues.at(9)`. -/
theorem C11_valid_target_is_dropped :
    (∀ (GC_FREQ : Nat) (m : BlockFetchManager) (H : Hash) (r : ReplicaID)
        (evs : List NetEvent),
        m.config.is_valid_replica r = true →
        m.add_fetch_request GC_FREQ H r evs = some (.ok (), m))
      ∧ scenario_valid_peer.config.is_valid_replica 5 = true
      ∧ scenario_valid_peer.queues.lookup 5 = some ReplicaFetchQueue.new
      ∧ scenario_valid_peer.add_fetch_request 100 speedex.hashAA 5 [1]
        = some (.ok (), scenario_valid_peer)
      ∧ scenario_valid_peer.outstanding_reqs.lookup speedex.hashAA = none
      ∧ scenario_valid_peer.config.is_valid_replica 9 = false
      ∧ scenario_valid_peer.add_fetch_request 100 speedex.hashAA 9 [1]
        = some (.error .out_of_range,
            { scenario_valid_peer with
              contexts := [RequestContext.new speedex.hashAA]
              outstanding_reqs := [(speedex.hashAA, 0)] }) := by
  refine ⟨?_, by decide, by decide, by decide, by decide, by decide, by decide⟩
  intro GC_FREQ m H r evs hvalid
  unfold BlockFetchManager.add_fetch_request
  rw [if_pos hvalid]

/-- C12 (failing input): in scenario S5 the second `add_fetch_request(H, 5, [E2])`, made
while the context of `H` is outstanding and already forwarded to the queue of replica 5,
forwards it to that queue again: the queue then lists the context twice, its worker has
been asked for `H` twice and `num_reqs = 2`. The bit that `was_requested_from` tests is
never set: `requested_from` of the context is still 0. -/
theorem C12_second_request_dispatches_again :
    scenario_S5_start.add_fetch_request 100 speedex.hashAA 5 [1]
        = some (.ok (), scenario_S5_after_first)
      ∧ scenario_S5_after_first.outstanding_reqs.lookup speedex.hashAA = some 0
      ∧ scenario_S5_after_first.queues.lookup 5
        = some ⟨[0], [speedex.hashAA], 1⟩
      ∧ scenario_S5_after_first.add_fetch_request 100 speedex.hashAA 5 [2]
        = some (.ok (), scenario_S5_after_second)
      ∧ scenario_S5_after_second.queues.lookup 5
        = some ⟨[0, 0], [speedex.hashAA, speedex.hashAA], 2⟩
      ∧ scenario_S5_after_second.contexts = [⟨speedex.hashAA, false, [1, 2], 0⟩] := by
  decide

/-- C19: `deliver_block` for a block whose hash has no context in `outstanding_reqs`
returns the empty sequence and leaves the manager unchanged. For a hash whose context is
outstanding, `deliver_block` returns the dependent events of that context, marks the
context received and erases the entry of the hash, leaving every other entry; the second
`deliver_block` of the same hash then returns the empty sequence and changes nothing.
Hence after any `deliver_block(H)` that returns, a second `deliver_block(H)` returns the
empty sequence and changes nothing. -/
theorem C19_deliver_without_context (m : BlockFetchManager) (H : Hash) :
    (m.outstanding_reqs.lookup H = none → m.deliver_block H = some ([], m))
      ∧ (∀ (ctx : request_ctx_ptr) (c : RequestContext),
          m.outstanding_reqs.lookup H = some ctx → m.contexts[ctx]? = some c →
          ∃ m', m.deliver_block H = some (c.dependent_network_events, m')
            ∧ m'.contexts = m.contexts.set ctx c.mark_received
            ∧ m'.outstanding_reqs = m.outstanding_reqs.filter (fun e => e.1 ≠ H)
            ∧ m'.queues = m.queues ∧ m'.config = m.config
            ∧ m'.outstanding_reqs.lookup H = none
            ∧ (∀ H', H' ≠ H → m'.outstanding_reqs.lookup H' = m.outstanding_reqs.lookup H')
            ∧ m'.deliver_block H = some ([], m'))
      ∧ (∀ (evs : List NetEvent) (m' : BlockFetchManager),
          m.deliver_block H = some (evs, m') → m'.deliver_block H = some ([], m')) := by
  have hnone : ∀ m0 : BlockFetchManager, m0.outstanding_reqs.lookup H = none →
      m0.deliver_block H = some ([], m0) := by
    intro m0 h0
    unfold BlockFetchManager.deliver_block
    rw [h0]
  have hlook := lookup_filter_ne H m.outstanding_reqs
  refine ⟨hnone m, ?_, ?_⟩
  · intro ctx c hl hc
    have hgone : (m.outstanding_reqs.filter fun e => e.1 ≠ H).lookup H = none := by
      simpa using hlook H
    refine ⟨{ m with
        contexts := m.contexts.set ctx c.mark_received
        outstanding_reqs := m.outstanding_reqs.filter fun e => e.1 ≠ H },
      ?_, rfl, rfl, rfl, rfl, hgone, ?_, hnone _ hgone⟩
    · unfold BlockFetchManager.deliver_block
      rw [hl]
      simp only [hc, RequestContext.mark_received, RequestContext.get_network_events]
    · intro H' hne
      have := hlook H'
      simpa [hne] using this
  · intro evs m' hd
    apply hnone
    unfold BlockFetchManager.deliver_block at hd
    cases hl : m.outstanding_reqs.lookup H with
    | none =>
      rw [hl] at hd
      simp only [Option.some.injEq, Prod.mk.injEq] at hd
      rw [← hd.2]
      exact hl
    | some p =>
      rw [hl] at hd
      simp only at hd
      cases hc : m.contexts[p]? with
      | none => rw [hc] at hd; simp at hd
      | some c =>
        rw [hc] at hd
        simp only [Option.some.injEq, Prod.mk.injEq] at hd
        rw [← hd.2]
        simpa using hlook H

/-- C19, scenario S5: after the three requests the context of `H` holds `[E1, E2, E3]`;
the first `deliver_block(H)` returns them and the second returns `[]` and changes nothing;
a delivery for a hash that was never requested returns `[]` as well. -/
theorem C19_witness_S5 :
    scenario_S5_state.outstanding_reqs.lookup speedex.hashAA = some 0
      ∧ (∃ m', scenario_S5_state.deliver_block speedex.hashAA = some ([1, 2, 3], m')
          ∧ m'.deliver_block speedex.hashAA = some ([], m'))
      ∧ scenario_S5_delivered.deliver_block speedex.hashAA = some ([], scenario_S5_delivered)
      ∧ scenario_S5_state.deliver_block speedex.hashBB = some ([], scenario_S5_state) :=
  ⟨by decide,
    ((C19_deliver_without_context scenario_S5_state speedex.hashAA).2.1 0
        ⟨speedex.hashAA, false, [1, 2, 3], 0⟩ (by decide) (by decide)).elim
      fun m' h => ⟨m', h.1, h.2.2.2.2.2.2.2⟩,
    (C19_deliver_without_context scenario_S5_state speedex.hashAA).2.2 [1, 2, 3]
      scenario_S5_delivered (by decide),
    (C19_deliver_without_context scenario_S5_state speedex.hashBB).1 (by decide)⟩

/-! ## Garbage collection of a replica queue -/

/-- C24 (failing input): `do_gc()` starts its walk at `before_begin()` and dereferences
it, so on every queue content the call has no defined result. On the queue holding a
received context in front of an unreceived one, the walk taken from the first node on
erases the node after the received one: the unreceived context is removed and the
received one is kept; with the two in the other order the walk calls `erase_after` on the
last node. -/
theorem C24_do_gc_walks_from_before_begin :
    (∀ (contexts : List RequestContext) (q : ReplicaFetchQueue),
        ReplicaFetchQueue.do_gc contexts q = none)
      ∧ gc_contexts.map RequestContext.is_received = [true, false]
      ∧ ReplicaFetchQueue.do_gc gc_contexts gc_queue = none
      ∧ ReplicaFetchQueue.do_gc_loop gc_contexts 4 (some 0) gc_queue.outstanding_reqs
          gc_queue.num_reqs = some ([0], 1)
      ∧ ReplicaFetchQueue.do_gc_loop gc_contexts 4 (some 0) [1, 0] 2 = none := by
  refine ⟨?_, by decide, by decide, by decide, by decide⟩
  intro contexts q
  simp [ReplicaFetchQueue.do_gc, ReplicaFetchQueue.do_gc_loop]


end hotstuff
